import Mathlib

/-!
Verification of the CDCL SAT solver core (`src/CDCL_SAT_Solver/cdcl_solver.cpp`)
against its natural-language specification.

The C++ source is shallowly embedded: each class becomes a structure, each
member function a pure Lean function on that structure.  C++ `std::vector`
becomes `List` (reads via `getD`, writes via `set`), C++ `int` sentinels
(`-1`) become `Int`, and C++ `double` activity scores become `Rat` (the
solver only adds, divides and compares scores; rounding of IEEE doubles is
outside the model).  Loops whose iteration count is not structurally
decreasing are given an explicit fuel argument; every call site passes fuel
that provably dominates the loop's actual iteration count, and out-of-fuel
branches return the state unchanged.

The file is organised as: all definitions first, then all theorems.
-/

/-! ## Definitions -/

/-! ### Generic list helpers -/

/-- `std::unique` on a sorted vector: drop adjacent duplicates. -/
def uniqueAdj : List Nat → List Nat
  | [] => []
  | [a] => [a]
  | a :: b :: t => if a = b then uniqueAdj (b :: t) else a :: uniqueAdj (b :: t)

/-- `std::sort` on a vector of ints: the literals are `Nat`, and any sorting
algorithm yields the same sorted list, so we use Mathlib's insertion sort. -/
def sortNat (l : List Nat) : List Nat := List.insertionSort (· ≤ ·) l

/-! ### Power-of-two helpers (used by the Luby generator)

`LubyGenerator::get_next_luby_number` tests whether `log2(to_fill + 1)` is an
integer via `std::abs(log_val - round(log_val)) < 1e-9`; for every vector size
a real run can reach, that double-precision test is exactly the predicate
"`to_fill + 1` is a power of two", which we implement with structural fuel so
the kernel can evaluate it. -/

def isPow2Fuel : Nat → Nat → Bool
  | _, 1 => true
  | 0, _ => false
  | f+1, n => if n = 0 then false else if n % 2 = 1 then false else isPow2Fuel f (n / 2)

def isPow2 (n : Nat) : Bool := isPow2Fuel n n

/-- Largest power of two that is `≤ n` (for `n ≥ 1`); written with structural
fuel for kernel computability. -/
def floorPow2Fuel : Nat → Nat → Nat
  | 0, _ => 1
  | f+1, n => if n ≤ 1 then 1 else 2 * floorPow2Fuel f (n / 2)

def floorPow2 (n : Nat) : Nat := floorPow2Fuel n n

/-! ### The Luby sequence

`lubySpec` is the sequence of the specification: `L(i) = 2^(k−1)` if
`i = 2^k − 1`, and `L(i) = L(i − 2^(k−1) + 1)` where `2^(k−1) ≤ i < 2^k − 1`
otherwise (`floorPow2 i = 2^(k−1)` in that range).  Fuel `i` suffices because
the recursion argument strictly decreases. -/

def lubySpecFuel : Nat → Nat → Nat
  | 0, _ => 0
  | f+1, i => if isPow2 (i+1) then (i+1)/2 else lubySpecFuel f (i - floorPow2 i + 1)

def lubySpec (i : Nat) : Nat := lubySpecFuel i i

/-- State of `LubyGenerator`: the memo vector `l`, the current power `mult`
and the index `minu` of the last power-position filled. -/
structure LubyState where
  l : List Nat
  mult : Nat
  minu : Nat
deriving DecidableEq

/-- `LubyGenerator::reset()` / initial state. -/
def LubyState.reset : LubyState := ⟨[], 1, 0⟩

/-- `LubyGenerator::get_next_luby_number()` (cdcl_solver.cpp lines 32-46):
returns the next Luby number and the updated generator state. -/
def get_next_luby_number (st : LubyState) : Nat × LubyState :=
  let size := st.l.length
  let to_fill := size + 1
  if isPow2 (to_fill + 1) then
    (st.mult, ⟨st.l ++ [st.mult], st.mult * 2, size + 1⟩)
  else
    let v := st.l.getD (to_fill - st.minu - 1) 0
    (v, ⟨st.l ++ [v], st.mult, st.minu⟩)

/-- The generator state after `n` calls starting from the reset state. -/
def lubyRun : Nat → LubyState
  | 0 => LubyState.reset
  | n+1 => (get_next_luby_number (lubyRun n)).2

/-- The value returned by the `k`-th call (`k ≥ 1`). -/
def lubyOut (k : Nat) : Nat := (get_next_luby_number (lubyRun (k - 1))).1

/-- The generator invariant after `n` calls. -/
def lubyInv (n : Nat) (st : LubyState) : Prop :=
  st.l = (List.range n).map (fun j => lubySpec (j+1)) ∧
  st.mult = floorPow2 (n+1) ∧
  st.minu = floorPow2 (n+1) - 1

/-! ### Priority queue (cdcl_solver.cpp lines 52-198)

`heap` is the vector of (score, element) pairs, `indices` maps an element to
its heap position (`-1` when absent), and `size` is the number of live
entries.  Recursion (`heapify`) and the bubble-up loops are given structural
fuel; fuel `pq.size` (resp. the start position) dominates the real recursion
depth, and the out-of-fuel branch returns the state unchanged. -/

structure PQ where
  heap : List (Rat × Nat)
  indices : List Int
  size : Nat
deriving DecidableEq

/-- `heap[i]` (out-of-range reads, which the C++ never performs on the paths
we verify, default to `(0, 0)`). -/
def PQ.hver (pq : PQ) (i : Nat) : Rat × Nat := pq.heap.getD i (0, 0)

def PQ.hscore (pq : PQ) (i : Nat) : Rat := (pq.hver i).1

def PQ.hkey (pq : PQ) (i : Nat) : Nat := (pq.hver i).2

/-- `indices[k]` (defaulting to `-1`). -/
def PQ.idx (pq : PQ) (k : Nat) : Int := pq.indices.getD k (-1)

/-- `PriorityQueue::swap_nodes(ind1, ind2)`: swap two heap entries and update
`indices` for the two moved elements, in the C++ order (first the element now
at `ind1`, then the element now at `ind2`). -/
def PQ.swap_nodes (pq : PQ) (i j : Nat) : PQ :=
  let a := pq.hver i
  let b := pq.hver j
  { pq with
    heap := (pq.heap.set i b).set j a,
    indices := (pq.indices.set b.2 (Int.ofNat i)).set a.2 (Int.ofNat j) }

/-- `max_idx` of `PriorityQueue::heapify` after the left-child comparison. -/
def PQ.mc1 (pq : PQ) (i : Nat) : Nat :=
  if 2*i+1 < pq.size ∧ pq.hscore i < pq.hscore (2*i+1) then 2*i+1 else i

/-- The final `max_idx` computed by `PriorityQueue::heapify`: the argmax of
the scores at `node_index` and its live children. -/
def PQ.maxChild (pq : PQ) (i : Nat) : Nat :=
  if 2*i+2 < pq.size ∧ pq.hscore (pq.mc1 i) < pq.hscore (2*i+2) then 2*i+2
  else pq.mc1 i

/-- `PriorityQueue::heapify` (sift-down).  Each recursive call strictly
increases the node index, so fuel `pq.size` dominates the recursion depth. -/
def PQ.heapify : Nat → PQ → Nat → PQ
  | 0, pq, _ => pq
  | fuel+1, pq, i =>
    if PQ.maxChild pq i = i then pq
    else PQ.heapify fuel (pq.swap_nodes (PQ.maxChild pq i) i) (PQ.maxChild pq i)

/-- The bubble-up loop shared by `increase_update` and `remove`.  The position
strictly decreases, so fuel equal to the start position suffices (running out
of fuel at position 0 returns the state unchanged, exactly like the loop). -/
def PQ.bubble_up : Nat → PQ → Nat → PQ
  | 0, pq, _ => pq
  | fuel+1, pq, pos =>
    if pos = 0 then pq
    else
      let par := (pos - 1) / 2
      if pq.hscore par < pq.hscore pos then PQ.bubble_up fuel (pq.swap_nodes pos par) par
      else pq

/-- `PriorityQueue::get_top()`: returns the top element (or `-1` when empty)
and the updated queue. -/
def PQ.get_top (pq : PQ) : Int × PQ :=
  if pq.size = 0 then (-1, pq)
  else
    let top_element := pq.hkey 0
    let pq1 := pq.swap_nodes 0 (pq.size - 1)
    let pq2 := { pq1 with
      indices := pq1.indices.set (pq1.hkey (pq.size - 1)) (-1),
      size := pq.size - 1 }
    let pq3 := if 0 < pq2.size then PQ.heapify pq2.size pq2 0 else pq2
    (Int.ofNat top_element, pq3)

/-- `PriorityQueue::increase_update(key, value)`. -/
def PQ.increase_update (pq : PQ) (key : Nat) (value : Rat) : PQ :=
  if pq.indices.length ≤ key ∨ pq.idx key = -1 then pq
  else
    let pos := (pq.idx key).toNat
    let pq1 := { pq with heap := pq.heap.set pos (pq.hscore pos + value, pq.hkey pos) }
    PQ.bubble_up pos pq1 pos

/-- `PriorityQueue::remove(key)`: swap the key's entry with the last live
entry, shrink, then repair either upwards (if the replacement's score exceeds
the removed score) or downwards. -/
def PQ.remove (pq : PQ) (key : Nat) : PQ :=
  if pq.indices.length ≤ key ∨ pq.idx key = -1 then pq
  else
    let pos := (pq.idx key).toNat
    let this_node_pr := pq.hscore pos
    let pq1 := pq.swap_nodes pos (pq.size - 1)
    let pq2 := { pq1 with indices := pq1.indices.set key (-1), size := pq.size - 1 }
    if pos < pq2.size then
      if this_node_pr < pq2.hscore pos then PQ.bubble_up pos pq2 pos
      else PQ.heapify pq2.size pq2 pos
    else pq2

/-- `PriorityQueue::add(key, value)`: place `(0, key)` in the first free slot
(growing the vector if needed), record its index, then `increase_update`. -/
def PQ.add (pq : PQ) (key : Nat) (value : Rat) : PQ :=
  let pq1 := if pq.size = pq.heap.length
             then { pq with heap := pq.heap ++ [(0, key)] }
             else { pq with heap := pq.heap.set pq.size (0, key) }
  let pq2 := { pq1 with
    indices := pq1.indices.set key (Int.ofNat pq.size),
    size := pq.size + 1 }
  pq2.increase_update key value

/-- `PriorityQueue::is_empty()`. -/
def PQ.is_empty (pq : PQ) : Bool := pq.size = 0

/-- The bottom-up heapify loop of `PriorityQueue::init`: processes node
`k-1`, then `k-2`, …, then `0` (the C++ `for i = size/2 - 1 downto 0`). -/
def PQ.buildLoop : Nat → PQ → PQ
  | 0, pq => pq
  | k+1, pq => PQ.buildLoop k (PQ.heapify pq.size pq k)

/-- `PriorityQueue::init(start_list, max_element_index)`: pushes
`(start_list[i], i)` for `i = 1 .. start_list.size()-1` (so `indices[i] =
i-1` for those `i`, `-1` elsewhere), then heapifies bottom-up. -/
def PQ.init (start_list : List Rat) (max_element_index : Nat) : PQ :=
  let n := start_list.length - 1
  let heap0 := (List.range n).map (fun j => (start_list.getD (j+1) 0, j+1))
  let ind0 := (List.range (max_element_index + 1)).map
      (fun k => if 1 ≤ k ∧ k < start_list.length then (Int.ofNat (k-1)) else (-1 : Int))
  PQ.buildLoop (n / 2) ⟨heap0, ind0, n⟩

/-! #### Priority queue invariants (spec §3, PQ1-PQ2) -/

def PQ.parentIdx (j : Nat) : Nat := (j - 1) / 2

/-- PQ2: the first `size` entries form a binary max-heap on score. -/
abbrev PQ.IsHeap (pq : PQ) : Prop :=
  ∀ j, j < pq.size → 0 < j → pq.hscore j ≤ pq.hscore (PQ.parentIdx j)

/-- Every live heap entry's key is within the `indices` array. -/
abbrev PQ.KeysBound (pq : PQ) : Prop := ∀ p, p < pq.size → pq.hkey p < pq.indices.length

/-- Converse of PQ1: every live heap entry is pointed back to by `indices`. -/
abbrev PQ.IdxOfKey (pq : PQ) : Prop :=
  ∀ p, p < pq.size → pq.idx (pq.hkey p) = Int.ofNat p

/-- PQ1: if `indices[k] ≠ -1` then it is a live heap position holding key `k`. -/
abbrev PQ.KeyOfIdx (pq : PQ) : Prop :=
  ∀ k, k < pq.indices.length → pq.idx k ≠ -1 →
    ∃ p, p < pq.size ∧ pq.idx k = Int.ofNat p ∧ pq.hkey p = k

/-- The structural part of the invariant (PQ1 in both directions, bounds). -/
abbrev PQ.Basic (pq : PQ) : Prop :=
  pq.size ≤ pq.heap.length ∧ PQ.KeysBound pq ∧ PQ.IdxOfKey pq ∧ PQ.KeyOfIdx pq

/-- The full invariant: PQ1 (both directions, with bounds) and PQ2. -/
abbrev PQ.Inv (pq : PQ) : Prop := PQ.Basic pq ∧ PQ.IsHeap pq

/-- "Heap from `i`": every edge whose parent index is `≥ i` is in order. -/
def PQ.HeapFrom (pq : PQ) (i : Nat) : Prop :=
  ∀ j, j < pq.size → 0 < j → i ≤ PQ.parentIdx j →
    pq.hscore j ≤ pq.hscore (PQ.parentIdx j)

/-- "Heap from `i`" except possibly the edges out of `i` itself. -/
def PQ.HeapFromExcept (pq : PQ) (i : Nat) : Prop :=
  ∀ j, j < pq.size → 0 < j → i ≤ PQ.parentIdx j → PQ.parentIdx j ≠ i →
    pq.hscore j ≤ pq.hscore (PQ.parentIdx j)

/-- Almost a heap: only the edges from `i` down to its children may be out of
order, and `i`'s children are bounded by `i`'s parent (when `i` has one). -/
def PQ.AlmostHeapAt (pq : PQ) (i : Nat) : Prop :=
  (∀ j, j < pq.size → 0 < j → PQ.parentIdx j ≠ i →
    pq.hscore j ≤ pq.hscore (PQ.parentIdx j)) ∧
  (0 < i → ∀ c, c < pq.size → 0 < c → PQ.parentIdx c = i →
    pq.hscore c ≤ pq.hscore (PQ.parentIdx i))

/-- Pre-bubble-up shape: only the edge from `pos` up to its parent may be out
of order, and `pos`'s children are bounded by `pos`'s parent. -/
def PQ.UpInvAt (pq : PQ) (pos : Nat) : Prop :=
  (∀ j, j < pq.size → 0 < j → j ≠ pos →
    pq.hscore j ≤ pq.hscore (PQ.parentIdx j)) ∧
  (0 < pos → ∀ c, c < pq.size → 0 < c → PQ.parentIdx c = pos →
    pq.hscore c ≤ pq.hscore (PQ.parentIdx pos))

/-! ### The SAT solver (cdcl_solver.cpp lines 254-912)

`AssignedNode` and the `SAT` class.  The statistics fields the claims mention
(`_result`, `_num_implications`, `_num_decisions`, `_num_learned_clauses`,
`_restarts`) are inlined as fields of `SAT`; wall-clock timing and logging
are outside the model.  Loops are given structural fuel; `none` / unchanged
state marks running out of fuel. -/

structure AssignedNode where
  var : Int
  value : Bool
  level : Int
  clause : Int
  index : Int
deriving DecidableEq

instance : Inhabited AssignedNode := ⟨⟨-1, false, -1, -1, -1⟩⟩

/-- `AssignedNode::is_valid()` (conflict nodes carry `var = -1`). -/
def AssignedNode.is_valid (n : AssignedNode) : Bool := n.var != -1

structure SAT where
  num_clauses : Nat
  num_vars : Nat
  level : Int
  clauses : List (List Nat)
  clauses_watched_by_l : List (List Nat)
  literals_watching_c : List (Nat × Nat)
  variable_to_assignment_nodes : List AssignedNode
  is_var_assigned : List Bool
  assignment_stack : List AssignedNode
  decider : String
  restarter : String
  conflict_limit : Nat
  limit_mult : Nat
  conflicts_before_restart : Nat
  luby_base : Nat
  luby : LubyState
  lit_scores : List Rat
  var_scores : List Rat
  phase : List Int
  incr : Rat
  decay : Rat
  pq : PQ
  result : String
  num_implications : Nat
  num_decisions : Nat
  num_learned_clauses : Nat
  restarts : Nat
deriving DecidableEq

/-- `SAT::is_negative_literal` (lines 345-347): internal literals `1..N` are
positive, `N+1..2N` negative. -/
def is_negative_literal (num_vars literal : Nat) : Bool := literal > num_vars

/-- `SAT::get_var_from_literal` (lines 349-352). -/
def get_var_from_literal (num_vars literal : Nat) : Nat :=
  if is_negative_literal num_vars literal then literal - num_vars else literal

/-- The four-statement push used whenever an assignment node is recorded
(e.g. lines 385-388): set `is_var_assigned`, store the node in the map, push
it on the stack (the stack copy keeps `index = -1`), then set the map copy's
`index` to the stack position. -/
def assign_node (s : SAT) (node : AssignedNode) : SAT :=
  let var := node.var.toNat
  let stack1 := s.assignment_stack ++ [node]
  { s with
    is_var_assigned := s.is_var_assigned.set var true,
    variable_to_assignment_nodes :=
      (s.variable_to_assignment_nodes.set var node).set var
        { node with index := Int.ofNat (stack1.length - 1) },
    assignment_stack := stack1 }

/-- The double loop of `SAT::add_clause` (lines 361-370) that detects a
tautology: two distinct literals over the same variable after sort + unique. -/
def tautology_check (num_vars : Nat) : List Nat → Bool
  | [] => false
  | a :: t =>
    t.any (fun b => get_var_from_literal num_vars a == get_var_from_literal num_vars b) ||
      tautology_check num_vars t

/-- `vec[i].push_back(x)` on a vector of int vectors. -/
def pushWatch (l : List (List Nat)) (i : Nat) (x : Nat) : List (List Nat) :=
  l.set i (l.getD i [] ++ [x])

/-- `if (v.size() <= i) v.resize(i + 1); v[i] = x;`. -/
def resizeThenSet {α : Type} (l : List α) (i : Nat) (x d : α) : List α :=
  (if l.length ≤ i then l ++ List.replicate (i + 1 - l.length) d else l).set i x

/-- `if (v.size() < m) v.resize(m);`. -/
def resizeTo {α : Type} (l : List α) (m : Nat) (d : α) : List α :=
  if l.length < m then l ++ List.replicate (m - l.length) d else l

/-- One step of the per-literal score seeding inside `SAT::add_clause`'s
storage loop (lines 416-417). -/
def initial_score_step (acc : SAT) (lit : Nat) : SAT :=
  if acc.decider = "VSIDS" then
    { acc with lit_scores := acc.lit_scores.set lit (acc.lit_scores.getD lit 0 + 1) }
  else if acc.decider = "MINISAT" then
    let v := get_var_from_literal acc.num_vars lit
    { acc with var_scores := acc.var_scores.set v (acc.var_scores.getD v 0 + 1) }
  else acc

/-- The per-literal score seeding inside `SAT::add_clause`'s storage loop
(lines 416-417). -/
def bump_initial_scores (s : SAT) (clause : List Nat) : SAT :=
  clause.foldl initial_score_step s

/-- `SAT::add_clause` (lines 355-438) on an internal-encoded clause: returns
the updated solver and the C++ return value (`1` success or tautology, `0`
UNSAT). -/
def SAT.add_clause (s : SAT) (clause0 : List Nat) : SAT × Nat :=
  let clause := uniqueAdj (sortNat clause0)
  if tautology_check s.num_vars clause then (s, 1)
  else if clause.isEmpty then ({ s with result := "UNSAT" }, 0)
  else if clause.length = 1 then
    let lit := clause.getD 0 0
    let value_to_set := !is_negative_literal s.num_vars lit
    let var := get_var_from_literal s.num_vars lit
    if !(s.is_var_assigned.getD var false) then
      (assign_node { s with num_implications := s.num_implications + 1 }
        ⟨Int.ofNat var, value_to_set, 0, -1, -1⟩, 1)
    else if (s.variable_to_assignment_nodes.getD var default).value != value_to_set then
      ({ s with result := "UNSAT" }, 0)
    else (s, 1)
  else
    let s1 := bump_initial_scores s clause
    let clause_id := s1.num_clauses
    let s2 := { s1 with clauses := s1.clauses ++ [clause], num_clauses := clause_id + 1 }
    let w1 := clause.getD 0 0
    let w2 := clause.getD 1 0
    let s3 := { s2 with
      literals_watching_c := resizeThenSet s2.literals_watching_c clause_id (w1, w2) (0, 0) }
    let s4 := { s3 with
      clauses_watched_by_l := resizeTo s3.clauses_watched_by_l (2 * s3.num_vars + 2) [] }
    let s5 := { s4 with clauses_watched_by_l := pushWatch s4.clauses_watched_by_l w1 clause_id }
    ({ s5 with clauses_watched_by_l := pushWatch s5.clauses_watched_by_l w2 clause_id }, 1)

/-- The `SAT` constructor (lines 319-334) combined with the `p cnf` header
handling of `read_dimacs_cnf_file` (lines 455-468): containers sized from
`num_vars`, restart threshold seeded per policy. -/
def initState (decider restarter : String) (num_vars : Nat) : SAT :=
  let luby0 := LubyState.reset
  let first := get_next_luby_number luby0
  { num_clauses := 0
    num_vars := num_vars
    level := 0
    clauses := []
    clauses_watched_by_l := List.replicate (2 * num_vars + 2) []
    literals_watching_c := []
    variable_to_assignment_nodes := List.replicate (num_vars + 1) default
    is_var_assigned := List.replicate (num_vars + 1) false
    assignment_stack := []
    decider := decider
    restarter := restarter
    conflict_limit :=
      if restarter = "GEOMETRIC" then 512
      else if restarter = "LUBY" then 512 * first.1 else 0
    limit_mult := 2
    conflicts_before_restart := 0
    luby_base := 512
    luby := if restarter = "LUBY" then first.2 else luby0
    lit_scores := if decider = "VSIDS" then List.replicate (2 * num_vars + 2) 0 else []
    var_scores := if decider = "MINISAT" then List.replicate (num_vars + 1) 0 else []
    phase := if decider = "MINISAT" then List.replicate (num_vars + 1) 0 else []
    incr := 1
    decay := 0.85
    pq := ⟨[], [], 0⟩
    result := ""
    num_implications := 0
    num_decisions := 0
    num_learned_clauses := 0
    restarts := 0 }

/-- DIMACS literal to internal encoding (lines 477-481): `-v ↦ v + N`. -/
def dimacsToInternal (num_vars : Nat) (lit : Int) : Nat :=
  if lit < 0 then lit.natAbs + num_vars else lit.toNat

/-- The clause-reading loop of `read_dimacs_cnf_file` (line 483): stops as
soon as `add_clause` returns 0. -/
def add_clause_list : SAT → List (List Nat) → SAT
  | s, [] => s
  | s, c :: rest =>
    let r := s.add_clause c
    if r.2 = 0 then r.1 else add_clause_list r.1 rest

/-- Priority-queue seeding at the end of `read_dimacs_cnf_file`
(lines 488-503). -/
def init_pq_after_read (s : SAT) : SAT :=
  if s.decider = "VSIDS" then
    let pq0 := PQ.init s.lit_scores (2 * s.num_vars + 1)
    let pq1 := s.assignment_stack.foldl
      (fun q node => (q.remove node.var.toNat).remove (node.var.toNat + s.num_vars)) pq0
    { s with pq := pq1 }
  else if s.decider = "MINISAT" then
    let pq0 := PQ.init s.var_scores s.num_vars
    { s with decay := 0.85,
             pq := s.assignment_stack.foldl (fun q node => q.remove node.var.toNat) pq0 }
  else s

/-- `SAT::read_dimacs_cnf_file` (lines 440-504) on an already-parsed DIMACS
problem (a list of clauses over signed DIMACS literals). -/
def read_dimacs (decider restarter : String) (num_vars : Nat)
    (dimacs : List (List Int)) : SAT :=
  init_pq_after_read (add_clause_list (initState decider restarter num_vars)
    (dimacs.map (fun c => c.map (dimacsToInternal num_vars))))

/-- The common tail of `SAT::decide` (lines 534-546): push the decision at a
new level; `-1` means every variable is assigned. -/
def decide_finish (s : SAT) (var : Int) (value_to_set : Bool) : SAT × Int :=
  if var = -1 then (s, -1)
  else
    let s1 := { s with level := s.level + 1 }
    let s2 := assign_node s1 ⟨var, value_to_set, s1.level, -1, -1⟩
    ({ s2 with num_decisions := s2.num_decisions + 1 }, var)

/-- `SAT::decide` (lines 506-547). -/
def SAT.decide (s : SAT) : SAT × Int :=
  if s.decider = "ORDERED" then
    let var : Int :=
      match (List.range s.num_vars).find? (fun x => !(s.is_var_assigned.getD (x+1) false)) with
      | some x => Int.ofNat (x+1)
      | none => -1
    decide_finish s var true
  else if s.decider = "VSIDS" then
    let t := s.pq.get_top
    if t.1 != -1 then
      let var := get_var_from_literal s.num_vars t.1.toNat
      let is_neg := is_negative_literal s.num_vars t.1.toNat
      let pq2 := if is_neg then t.2.remove var else t.2.remove (var + s.num_vars)
      decide_finish { s with pq := pq2 } (Int.ofNat var) (!is_neg)
    else decide_finish { s with pq := t.2 } (-1) true
  else if s.decider = "MINISAT" then
    let t := s.pq.get_top
    if t.1 != -1 then
      decide_finish { s with pq := t.2 } t.1 (s.phase.getD t.1.toNat 0 == 1)
    else decide_finish { s with pq := t.2 } (-1) true
  else decide_finish s (-1) true

/-- Truth of a literal whose variable is assigned: the
`(is_neg && !val) || (!is_neg && val)` tests of BCP (lines 571-576,
588-596). -/
def lit_true_under_assignment (s : SAT) (lit : Nat) : Bool :=
  let val := (s.variable_to_assignment_nodes.getD (get_var_from_literal s.num_vars lit) default).value
  (is_negative_literal s.num_vars lit && !val) || (!is_negative_literal s.num_vars lit && val)

/-- The new-watcher scan of BCP (lines 578-598): the first literal distinct
from both watchers that is unassigned or true. -/
def find_new_watcher (s : SAT) (clause : List Nat) (w1 w2 : Nat) : Option Nat :=
  clause.find? (fun lit =>
    lit != w1 && lit != w2 &&
      (!(s.is_var_assigned.getD (get_var_from_literal s.num_vars lit) false) ||
        lit_true_under_assignment s lit))

/-- The restart bookkeeping run on a conflict (lines 641-651): the updated
solver, and whether BCP must return RESTART. -/
def handle_conflict_restart (s : SAT) : SAT × Bool :=
  if s.restarter = "None" then (s, false)
  else
    let c := s.conflicts_before_restart + 1
    if s.conflict_limit ≤ c then
      let s1 := { s with restarts := s.restarts + 1, conflicts_before_restart := 0 }
      if s1.restarter = "GEOMETRIC" then
        ({ s1 with conflict_limit := s1.conflict_limit * s1.limit_mult }, true)
      else if s1.restarter = "LUBY" then
        let r := get_next_luby_number s1.luby
        ({ s1 with conflict_limit := s1.luby_base * r.1, luby := r.2 }, true)
      else (s1, true)
    else ({ s with conflicts_before_restart := c }, false)

/-- One iteration of BCP's inner loop (lines 562-660), processing index `i`
of the falsified literal's watch list; `some msg` when BCP returns
immediately. -/
def bcpStep (s : SAT) (literal_falsed : Nat) (i : Nat) : SAT × Option String :=
  let watched_clauses := s.clauses_watched_by_l.getD literal_falsed []
  let clause_id := watched_clauses.getD i 0
  let watchers := s.literals_watching_c.getD clause_id (0, 0)
  let other_watch := if watchers.1 = literal_falsed then watchers.2 else watchers.1
  let other_var := get_var_from_literal s.num_vars other_watch
  if s.is_var_assigned.getD other_var false && lit_true_under_assignment s other_watch then
    (s, none)
  else
    match find_new_watcher s (s.clauses.getD clause_id []) watchers.1 watchers.2 with
    | some new_watcher =>
      let watchers2 := if watchers.1 = literal_falsed then (new_watcher, watchers.2)
                       else (watchers.1, new_watcher)
      let s1 := { s with literals_watching_c := s.literals_watching_c.set clause_id watchers2 }
      let wcs1 := (watched_clauses.set i
        (watched_clauses.getD (watched_clauses.length - 1) 0)).dropLast
      let s2 := { s1 with clauses_watched_by_l := s1.clauses_watched_by_l.set literal_falsed wcs1 }
      ({ s2 with clauses_watched_by_l := pushWatch s2.clauses_watched_by_l new_watcher clause_id },
        none)
    | none =>
      if !(s.is_var_assigned.getD other_var false) then
        let val_to_set := !is_negative_literal s.num_vars other_watch
        let s1 := assign_node s ⟨Int.ofNat other_var, val_to_set, s.level, Int.ofNat clause_id, -1⟩
        let s2 :=
          if s1.decider = "VSIDS" then
            { s1 with pq := (s1.pq.remove other_var).remove (other_var + s1.num_vars) }
          else if s1.decider = "MINISAT" then
            { s1 with pq := s1.pq.remove other_var,
                      phase := s1.phase.set other_var (if val_to_set then 1 else 0) }
          else s1
        ({ s2 with num_implications := s2.num_implications + 1 }, none)
      else
        let r := handle_conflict_restart s
        if r.2 then (r.1, some "RESTART")
        else ({ r.1 with assignment_stack :=
                  r.1.assignment_stack ++ [⟨-1, false, r.1.level, Int.ofNat clause_id, -1⟩] },
              some "CONFLICT")

/-- BCP's inner loop: indices `i-1, i-2, …, 0` of the falsified literal's
watch list (the C++ `for (int i = size - 1; i >= 0; --i)`, line 562). -/
def bcpInner (literal_falsed : Nat) : Nat → SAT → SAT × Option String
  | 0, s => (s, none)
  | i+1, s =>
    let r := bcpStep s literal_falsed i
    match r.2 with
    | some msg => (r.1, some msg)
    | none => bcpInner literal_falsed i r.1

/-- BCP's outer loop over the assignment stack from position `ptr`
(lines 553-662).  Fuel dominates the number of stack positions processed;
`none` only when out of fuel. -/
def bcpOuter : Nat → SAT → Nat → SAT × Option String
  | 0, s, _ => (s, none)
  | fuel+1, s, ptr =>
    if ptr < s.assignment_stack.length then
      let last_node := s.assignment_stack.getD ptr default
      let literal_falsed :=
        if last_node.value then last_node.var.toNat + s.num_vars else last_node.var.toNat
      let r := bcpInner literal_falsed (s.clauses_watched_by_l.getD literal_falsed []).length s
      match r.2 with
      | some msg => (r.1, some msg)
      | none => bcpOuter fuel r.1 (ptr + 1)
    else (s, some "NO_CONFLICT")

/-- `SAT::boolean_constraint_propogation` (lines 549-664). -/
def SAT.boolean_constraint_propogation (s : SAT) (fuel : Nat) (is_first_time : Bool) :
    SAT × Option String :=
  let ptr := if is_first_time then 0
             else if s.assignment_stack.isEmpty then 0 else s.assignment_stack.length - 1
  bcpOuter fuel s ptr

/-- `SAT::binary_resolution` (lines 666-679). -/
def binary_resolution (num_vars : Nat) (c1 c2 : List Nat) (var : Nat) : List Nat :=
  let pos_lit := var
  let neg_lit := var + num_vars
  uniqueAdj (sortNat ((c1.filter (fun l => l != pos_lit && l != neg_lit)) ++
    (c2.filter (fun l => l != pos_lit && l != neg_lit))))

/-- The counting pass of `analyze_conflict`'s resolution loop (lines
693-707): the number of literals at the conflict level, the maximal stack
index among their nodes, and the node attaining it. -/
def count_cand_step (s : SAT) (conflict_level : Int) (acc : Nat × Int × AssignedNode)
    (lit : Nat) : Nat × Int × AssignedNode :=
  let n := s.variable_to_assignment_nodes.getD (get_var_from_literal s.num_vars lit) default
  if n.level = conflict_level then
    (acc.1 + 1, if n.index > acc.2.1 then (n.index, n) else acc.2)
  else acc

def countAndCand (s : SAT) (clause : List Nat) (conflict_level : Int) :
    Nat × Int × AssignedNode :=
  clause.foldl (count_cand_step s conflict_level) (0, -1, default)

/-- The 1-UIP resolution loop of `analyze_conflict` (lines 692-720); `none`
only when out of fuel. -/
def resolutionLoop (s : SAT) (conflict_level : Int) :
    Nat → List Nat → Option (List Nat × AssignedNode)
  | 0, _ => none
  | fuel+1, clause =>
    let r := countAndCand s clause conflict_level
    if r.1 = 1 then some (clause, r.2.2)
    else resolutionLoop s conflict_level fuel
      (binary_resolution s.num_vars clause (s.clauses.getD r.2.2.clause.toNat []) r.2.2.var.toNat)

/-- One VSIDS bump (lines 738-741): add `incr` to the literal's score and
propagate it into the priority queue. -/
def vsids_bump_step (acc : SAT) (l : Nat) : SAT :=
  { acc with
    lit_scores := acc.lit_scores.set l (acc.lit_scores.getD l 0 + acc.incr),
    pq := acc.pq.increase_update l acc.incr }

/-- One MINISAT bump (lines 745-748): add `incr` to the variable's score and
propagate it into the priority queue. -/
def minisat_bump_step (acc : SAT) (l : Nat) : SAT :=
  let v := get_var_from_literal acc.num_vars l
  { acc with
    var_scores := acc.var_scores.set v (acc.var_scores.getD v 0 + acc.incr),
    pq := acc.pq.increase_update v acc.incr }

/-- The heuristic update after storing a learned clause (lines 736-751). -/
def bump_scores (s : SAT) (clause : List Nat) : SAT :=
  if s.decider = "VSIDS" then
    let s1 := clause.foldl vsids_bump_step s
    { s1 with incr := s1.incr + 0.75 }
  else if s.decider = "MINISAT" then
    let s1 := clause.foldl minisat_bump_step s
    { s1 with incr := s1.incr / s1.decay }
  else s

/-- One step of the backtrack-level scan of `analyze_conflict` (lines
757-765): the accumulator holds the running maximum level over the literals
away from the conflict level, and the last literal seen at the conflict
level. -/
def bl_fold_step (s : SAT) (conflict_level : Int) (acc : Int × Int) (lit : Nat) : Int × Int :=
  let n := s.variable_to_assignment_nodes.getD (get_var_from_literal s.num_vars lit) default
  if n.level = conflict_level then (acc.1, Int.ofNat lit)
  else if n.level > acc.1 then (n.level, acc.2) else acc

/-- Lines 722-751: store the learned clause in the database, watch its first
two literals and bump the heuristic scores. -/
def store_learned (s0 : SAT) (w : List Nat) : SAT :=
  let clause_id := s0.num_clauses
  let s1 := { s0 with
    num_learned_clauses := s0.num_learned_clauses + 1,
    num_clauses := clause_id + 1,
    clauses := s0.clauses ++ [w] }
  let s2 := { s1 with
    literals_watching_c := resizeThenSet s1.literals_watching_c clause_id
      (w.getD 0 0, w.getD 1 0) (0, 0) }
  let s3 := { s2 with clauses_watched_by_l := pushWatch s2.clauses_watched_by_l (w.getD 0 0) clause_id }
  let s4 := { s3 with clauses_watched_by_l := pushWatch s3.clauses_watched_by_l (w.getD 1 0) clause_id }
  bump_scores s4 w

/-- Lines 753-772: the backtrack level (the running maximum, clamped from
`-1` to 0) and the pending node built from the last literal seen at the
conflict level. -/
def analyze_finish (s5 : SAT) (conflict_level : Int) (w : List Nat) (clause_id : Nat) :
    Int × AssignedNode :=
  let bl := w.foldl (bl_fold_step s5 conflict_level) (-1, -1)
  let backtrack_level := if bl.1 = -1 then 0 else bl.1
  let lit_at_conflict := bl.2.toNat
  (backtrack_level,
    ⟨Int.ofNat (get_var_from_literal s5.num_vars lit_at_conflict),
      !is_negative_literal s5.num_vars lit_at_conflict,
      backtrack_level, Int.ofNat clause_id, -1⟩)

/-- `SAT::analyze_conflict` (lines 681-781): pop the conflict node, run the
1-UIP loop, store the learned clause (when its size exceeds 1) with watches
and score bumps, and return the backtrack level, the pending node and the
updated solver; `none` only when out of fuel. -/
def SAT.analyze_conflict (s : SAT) (fuel : Nat) : Option (Int × AssignedNode × SAT) :=
  match s.assignment_stack.getLast? with
  | none => none
  | some conflict_node =>
    let s0 := { s with assignment_stack := s.assignment_stack.dropLast }
    let conflict_level := conflict_node.level
    if conflict_level = 0 then some (-1, default, s0)
    else
      match resolutionLoop s0 conflict_level fuel (s0.clauses.getD conflict_node.clause.toNat []) with
      | none => none
      | some (w, _) =>
        if 1 < w.length then
          let s5 := store_learned s0 w
          let r := analyze_finish s5 conflict_level w s0.num_clauses
          some (r.1, r.2, s5)
        else
          let lit := w.getD 0 0
          some (0, ⟨Int.ofNat (get_var_from_literal s0.num_vars lit),
            !is_negative_literal s0.num_vars lit, 0, -1, -1⟩, s0)

/-- The per-node priority-queue reinsertion of the backtrack loop (lines
795-801): the popped variable (VSIDS: both of its literals) re-enters the
queue with its current score; `s` supplies the decider, the score arrays and
`num_vars`, none of which the loop modifies. -/
def backtrack_reinsert (s : SAT) (q : PQ) (nd : AssignedNode) : PQ :=
  let var := nd.var.toNat
  if s.decider = "VSIDS" then
    (q.add var (s.lit_scores.getD var 0)).add (var + s.num_vars)
      (s.lit_scores.getD (var + s.num_vars) 0)
  else if s.decider = "MINISAT" then q.add var (s.var_scores.getD var 0)
  else q

/-- The popping loop of `SAT::backtrack` (lines 786-804).  Fuel dominates the
stack length. -/
def backtrackLoop : Nat → SAT → Int → SAT
  | 0, s, _ => s
  | fuel+1, s, backtrack_level =>
    match s.assignment_stack.getLast? with
    | none => s
    | some top =>
      if top.level ≤ backtrack_level then s
      else
        let s1 :=
          if top.is_valid then
            { s with is_var_assigned := s.is_var_assigned.set top.var.toNat false,
                     pq := backtrack_reinsert s s.pq top }
          else s
        backtrackLoop fuel { s1 with assignment_stack := s1.assignment_stack.dropLast }
          backtrack_level

/-- `SAT::backtrack` (lines 783-822). -/
def SAT.backtrack (s : SAT) (backtrack_level : Int) (node_to_add : Option AssignedNode) : SAT :=
  let s1 := { s with level := backtrack_level }
  let s2 := backtrackLoop s1.assignment_stack.length s1 backtrack_level
  match node_to_add with
  | none => s2
  | some node =>
    if node.is_valid then
      let s3 := assign_node s2 node
      let s4 :=
        if s3.decider = "VSIDS" then
          { s3 with pq := (s3.pq.remove node.var.toNat).remove (node.var.toNat + s3.num_vars) }
        else if s3.decider = "MINISAT" then
          { s3 with pq := s3.pq.remove node.var.toNat,
                    phase := s3.phase.set node.var.toNat (if node.value then 1 else 0) }
        else s3
      { s4 with num_implications := s4.num_implications + 1 }
    else s2

/-- The constructor's validity check (lines 322-325). -/
def sat_ctor_valid (decider restarter : String) : Bool :=
  (decider == "ORDERED" || decider == "VSIDS" || decider == "MINISAT") &&
  (restarter == "None" || restarter == "GEOMETRIC" || restarter == "LUBY")

/-- The exit code of `main` (lines 918-955) as a function of the argument
count, the configuration strings and whether the input file opens: fewer
than 5 argv entries return 1 (line 922); an invalid decider or restarter
makes the constructor throw, caught in `main`'s catch block, returning 1
(line 951); otherwise `main` reaches its final `return 0` (line 954) —
`SAT::solve` catches the exception `read_dimacs_cnf_file` throws when the
file cannot be opened (lines 829-834) and returns normally, so `file_opens`
never influences the exit code. -/
def main_exit_code (argc : Nat) (decider restarter : String) (_file_opens : Bool) : Int :=
  if argc < 5 then 1
  else if !sat_ctor_valid decider restarter then 1
  else 0

/-- Whether `SAT::solve` writes an assignment file (lines 899-911): only when
the final result is SAT. -/
def solve_writes_assignment (result : String) : Bool := result == "SAT"

/-! ### Spec-side notions used to compare against the code -/

/-- Modelled from the spec (§3): the assignment level recorded for the
variable of a literal. -/
def levelOf (s : SAT) (lit : Nat) : Int :=
  (s.variable_to_assignment_nodes.getD (get_var_from_literal s.num_vars lit) default).level

/-- Modelled from the spec (§5): the backjump level
`β = max \x7b level(var(ℓ)) : ℓ ∈ W, level(var(ℓ)) < conflict level \x7d`,
and `β = 0` when no such literal exists. -/
def specBacktrackLevel (s : SAT) (w : List Nat) (conflict_level : Int) : Int :=
  ((w.filter (fun lit => decide (levelOf s lit < conflict_level))).map
    (fun lit => levelOf s lit)).foldr max 0

/-- Modelled from the spec (§3): a literal is falsified when its variable is
assigned with the polarity making the literal false. -/
def lit_is_falsified (s : SAT) (lit : Nat) : Bool :=
  s.is_var_assigned.getD (get_var_from_literal s.num_vars lit) false &&
    !lit_true_under_assignment s lit

/-- Well-formedness of a clause database with watch structures, over the raw
fields: stored clauses are strictly sorted with at least two literals, every
stored clause's watch pair consists of two distinct literals of the clause,
and watch lists mention only stored clause ids. -/
abbrev WatchedWFRaw (clauses : List (List Nat)) (num : Nat)
    (lwc : List (Nat × Nat)) (cwbl : List (List Nat)) : Prop :=
  clauses.length = num ∧
  num ≤ lwc.length ∧
  (∀ c, c < num → (clauses.getD c []).Sorted (· < ·)) ∧
  (∀ c, c < num → 2 ≤ (clauses.getD c []).length) ∧
  (∀ c, c < num →
    (lwc.getD c (0, 0)).1 ∈ clauses.getD c [] ∧
    (lwc.getD c (0, 0)).2 ∈ clauses.getD c [] ∧
    (lwc.getD c (0, 0)).1 ≠ (lwc.getD c (0, 0)).2) ∧
  (∀ lst ∈ cwbl, ∀ id ∈ lst, id < num)

/-- `WatchedWFRaw` on a solver state's clause database and watches. -/
abbrev WatchedWF (s : SAT) : Prop :=
  WatchedWFRaw s.clauses s.num_clauses s.literals_watching_c s.clauses_watched_by_l


/-! ### Concrete runs used by witnesses and counterexamples -/

/-- A small ORDERED run: `p cnf 4 3` with clauses `(¬1 ∨ ¬2)`,
`(¬1 ∨ ¬3 ∨ 4)`, `(2 ∨ ¬3 ∨ ¬4)` (internally `[5,6]`, `[4,5,7]`,
`[2,7,8]`). -/
def exRead : SAT := read_dimacs "ORDERED" "None" 4 [[-1, -2], [-1, -3, 4], [2, -3, -4]]

/-- The same run after the initial BCP, the decision `x1 := true` (implying
`x2 := false`), the decision `x3 := true` (implying `x4 := true`) and the BCP
that then returns CONFLICT on clause 2. -/
def exConflictState : SAT :=
  ((SAT.decide ((SAT.decide (exRead.boolean_constraint_propogation 30 true).1).1.boolean_constraint_propogation 30 false).1).1.boolean_constraint_propogation 30 false).1

/-- The conflict analysis on that state: learns clause 3 = `[2, 5, 7]` with
watch pair `(2, 5)` and backjump level 1. -/
def exAnalysis : Int × AssignedNode × SAT :=
  (exConflictState.analyze_conflict 30).getD (0, default, exConflictState)

/-- After the backjump installing the pending node `x3 := false`. -/
def exAfterBackjump : SAT :=
  SAT.backtrack exAnalysis.2.2 exAnalysis.1 (some exAnalysis.2.1)

/-- The BCP following the backjump: returns NO_CONFLICT. -/
def exFinalBCP : SAT × Option String := exAfterBackjump.boolean_constraint_propogation 30 false

/-- The conflict state with its conflict node popped (the state on which the
1-UIP resolution loop of `analyze_conflict` runs). -/
def exPopped : SAT :=
  { exConflictState with assignment_stack := exConflictState.assignment_stack.dropLast }

/-- A GEOMETRIC-restart run brought one conflict short of the threshold: the
state of `p cnf 2 4` over all four binary clauses on `x1, x2` after the
decision `x1 := true`, with the conflict counter set to 511 (as after 511
recorded conflicts): the next BCP hits a conflict and restarts. -/
def exRestartState : SAT :=
  { (SAT.decide ((read_dimacs "ORDERED" "GEOMETRIC" 2
      [[1, 2], [-1, 2], [1, -2], [-1, -2]]).boolean_constraint_propogation 30 true).1).1 with
    conflicts_before_restart := 511 }


/-- A fresh 2-variable VSIDS solver whose literal score for literal 1 is
already above the `1e100` sentinel. -/
def exBigScoreState : SAT :=
  { initState "VSIDS" "None" 2 with lit_scores := [0, 2 * 10 ^ 100, 0, 0, 0, 0] }

/-! ## Theorems -/

/-! ### Generic list helpers -/

theorem getD_set_self {α : Type} (l : List α) (i : Nat) (a d : α) (h : i < l.length) :
    (l.set i a).getD i d = a := by
  induction l generalizing i with
  | nil => simp at h
  | cons x t ih =>
    cases i with
    | zero => simp [List.set, List.getD]
    | succ j =>
      simp only [List.set, List.getD_cons_succ]
      exact ih j (by simpa using h)

theorem getD_set_ne {α : Type} (l : List α) (i j : Nat) (a d : α) (h : i ≠ j) :
    (l.set i a).getD j d = l.getD j d := by
  induction l generalizing i j with
  | nil => simp [List.set]
  | cons x t ih =>
    cases i with
    | zero =>
      cases j with
      | zero => exact absurd rfl h
      | succ m => simp [List.set, List.getD]
    | succ n =>
      cases j with
      | zero => simp [List.set, List.getD]
      | succ m =>
        simp only [List.set, List.getD_cons_succ]
        exact ih n m (by omega)

theorem mem_uniqueAdj {a : Nat} : ∀ {l : List Nat}, a ∈ uniqueAdj l ↔ a ∈ l
  | [] => by simp [uniqueAdj]
  | [b] => by simp [uniqueAdj]
  | b :: c :: t => by
    by_cases h : b = c
    · simp only [uniqueAdj, if_pos h]
      rw [@mem_uniqueAdj a (c :: t)]
      subst h
      simp
    · simp only [uniqueAdj, if_neg h, List.mem_cons]
      rw [@mem_uniqueAdj a (c :: t)]
      simp

theorem uniqueAdj_sorted_lt : ∀ {l : List Nat}, l.Sorted (· ≤ ·) →
    (uniqueAdj l).Sorted (· < ·)
  | [] => by simp [uniqueAdj]
  | [a] => by simp [uniqueAdj]
  | a :: b :: t => by
    intro hs
    have hs2 : (b :: t).Sorted (· ≤ ·) := hs.tail
    have hab : a ≤ b := (List.sorted_cons.mp hs).1 b (by simp)
    by_cases h : a = b
    · simpa [uniqueAdj, if_pos h] using uniqueAdj_sorted_lt hs2
    · simp only [uniqueAdj, if_neg h]
      refine List.sorted_cons.mpr ⟨?_, uniqueAdj_sorted_lt hs2⟩
      intro x hx
      have hxmem : x ∈ b :: t := mem_uniqueAdj.mp hx
      have hab2 : a < b := lt_of_le_of_ne hab h
      rcases List.mem_cons.mp hxmem with rfl | hxt
      · exact hab2
      · have hbx : b ≤ x := (List.sorted_cons.mp hs2).1 x hxt
        omega

theorem sortNat_sorted (l : List Nat) : (sortNat l).Sorted (· ≤ ·) :=
  List.sorted_insertionSort _ _

theorem mem_sortNat {a : Nat} {l : List Nat} : a ∈ sortNat l ↔ a ∈ l :=
  (List.perm_insertionSort _ _).mem_iff

/-! ### Power-of-two helpers -/

theorem isPow2Fuel_iff : ∀ (f n : Nat), n ≤ f → 1 ≤ n →
    (isPow2Fuel f n = true ↔ ∃ k, n = 2 ^ k) := by
  intro f
  induction f with
  | zero => intro n h1 h2; omega
  | succ f ih =>
    intro n h1 h2
    match n, h2 with
    | 1, _ => simp [isPow2Fuel]; exact ⟨0, rfl⟩
    | m+2, _ =>
      have hne0 : ¬ (m+2 = 0) := by omega
      rw [show isPow2Fuel (f+1) (m+2) =
        (if m+2 = 0 then false else if (m+2) % 2 = 1 then false
          else isPow2Fuel f ((m+2) / 2)) from rfl]
      rw [if_neg hne0]
      by_cases hodd : (m+2) % 2 = 1
      · rw [if_pos hodd]
        simp only [Bool.false_eq_true, false_iff]
        rintro ⟨k, hk⟩
        match k with
        | 0 => omega
        | j+1 => rw [hk, pow_succ] at hodd; omega
      · rw [if_neg hodd]
        have hhalf : (m+2)/2 ≤ f := by omega
        have hhalf1 : 1 ≤ (m+2)/2 := by omega
        rw [ih _ hhalf hhalf1]
        constructor
        · rintro ⟨k, hk⟩
          refine ⟨k+1, ?_⟩
          have : (m+2) % 2 = 0 := by omega
          rw [pow_succ]
          omega
        · rintro ⟨k, hk⟩
          match k with
          | 0 => omega
          | j+1 =>
            refine ⟨j, ?_⟩
            rw [pow_succ] at hk
            omega

theorem isPow2_iff (n : Nat) (h : 1 ≤ n) : (isPow2 n = true ↔ ∃ k, n = 2 ^ k) :=
  isPow2Fuel_iff n n (le_refl n) h

theorem floorPow2Fuel_spec : ∀ (f n : Nat), n ≤ f → 1 ≤ n →
    (∃ k, floorPow2Fuel f n = 2 ^ k) ∧ floorPow2Fuel f n ≤ n ∧ n < 2 * floorPow2Fuel f n := by
  intro f
  induction f with
  | zero => intro n h1 h2; omega
  | succ f ih =>
    intro n h1 h2
    by_cases hle : n ≤ 1
    · have : n = 1 := by omega
      subst this
      refine ⟨⟨0, ?_⟩, ?_, ?_⟩ <;> simp [floorPow2Fuel]
    · have hrec := ih (n / 2) (by omega) (by omega)
      rw [show floorPow2Fuel (f+1) n =
        (if n ≤ 1 then 1 else 2 * floorPow2Fuel f (n / 2)) from rfl, if_neg hle]
      obtain ⟨⟨k, hk⟩, hlo, hhi⟩ := hrec
      refine ⟨⟨k+1, by rw [pow_succ]; omega⟩, by omega, by omega⟩

theorem floorPow2_spec (n : Nat) (h : 1 ≤ n) :
    (∃ k, floorPow2 n = 2 ^ k) ∧ floorPow2 n ≤ n ∧ n < 2 * floorPow2 n :=
  floorPow2Fuel_spec n n (le_refl n) h

/-- Uniqueness: any power of two in `(n/2, n]` is `floorPow2 n`. -/
theorem floorPow2_eq_of_pow (n k : Nat) (h1 : 2 ^ k ≤ n) (h2 : n < 2 ^ (k+1)) :
    floorPow2 n = 2 ^ k := by
  have hn : 1 ≤ n := le_trans (Nat.one_le_two_pow) h1
  obtain ⟨⟨j, hj⟩, hlo, hhi⟩ := floorPow2_spec n hn
  rw [hj]
  rw [hj] at hlo hhi
  rcases Nat.lt_trichotomy j k with hlt | heq | hgt
  · exfalso
    have : 2 ^ (j+1) ≤ 2 ^ k := Nat.pow_le_pow_right (by omega) (by omega)
    rw [pow_succ] at this
    omega
  · rw [heq]
  · exfalso
    have : 2 ^ (k+1) ≤ 2 ^ j := Nat.pow_le_pow_right (by omega) (by omega)
    rw [pow_succ] at this
    omega

/-! ### The Luby sequence -/

theorem lubySpecFuel_eq (i : Nat) : ∀ f g, i ≤ f → i ≤ g →
    lubySpecFuel f i = lubySpecFuel g i := by
  induction i using Nat.strong_induction_on with
  | _ i ih =>
    intro f g hf hg
    match i, f, g with
    | 0, 0, 0 => rfl
    | 0, 0, g+1 => simp [lubySpecFuel, isPow2, isPow2Fuel]
    | 0, f+1, 0 => simp [lubySpecFuel, isPow2, isPow2Fuel]
    | 0, f+1, g+1 => rfl
    | i+1, f+1, g+1 =>
      show (if isPow2 (i+1+1) then (i+1+1)/2 else lubySpecFuel f ((i+1) - floorPow2 (i+1) + 1)) =
        (if isPow2 (i+1+1) then (i+1+1)/2 else lubySpecFuel g ((i+1) - floorPow2 (i+1) + 1))
      by_cases hp : isPow2 (i+2) = true
      · simp [hp]
      · rw [if_neg hp, if_neg hp]
        have hi2 : 2 ≤ i + 1 := by
          rcases Nat.lt_or_ge (i+1) 2 with h | h
          · exfalso
            have : i = 0 := by omega
            subst this
            exact hp (by decide)
          · exact h
        obtain ⟨_, hlo, hhi⟩ := floorPow2_spec (i+1) (by omega)
        have harg : (i+1) - floorPow2 (i+1) + 1 < i + 1 := by
          have h2 : 2 ≤ floorPow2 (i+1) := by
            obtain ⟨⟨k, hk⟩, _, _⟩ := floorPow2_spec (i+1) (by omega)
            match k, hk with
            | 0, hk => omega
            | j+1, hk =>
              have : 2 ≤ 2 ^ (j+1) := by
                have := @Nat.one_le_two_pow j
                rw [pow_succ]
                omega
              omega
          omega
        exact ih _ harg f g (by omega) (by omega)

theorem lubySpec_unfold (i : Nat) (h : 1 ≤ i) :
    lubySpec i = if isPow2 (i+1) then (i+1)/2 else lubySpec (i - floorPow2 i + 1) := by
  match i, h with
  | i+1, _ =>
    show lubySpecFuel (i+1) (i+1) = _
    show (if isPow2 (i+1+1) then (i+1+1)/2 else lubySpecFuel i ((i+1) - floorPow2 (i+1) + 1)) = _
    by_cases hp : isPow2 (i+2) = true
    · simp [hp]
    · rw [if_neg hp, if_neg hp]
      have hi2 : 2 ≤ i + 1 := by
        rcases Nat.lt_or_ge (i+1) 2 with h | h
        · exfalso
          have : i = 0 := by omega
          subst this
          exact hp (by decide)
        · exact h
      have h2 : 2 ≤ floorPow2 (i+1) := by
        obtain ⟨⟨k, hk⟩, hlo, hhi⟩ := floorPow2_spec (i+1) (by omega)
        match k, hk with
        | 0, hk => omega
        | j+1, hk =>
          have : 2 ≤ 2 ^ (j+1) := by
            have := @Nat.one_le_two_pow j
            rw [pow_succ]
            omega
          omega
      obtain ⟨_, hlo, _⟩ := floorPow2_spec (i+1) (by omega)
      exact lubySpecFuel_eq _ _ _ (by omega) (by omega)

theorem floorPow2_two_le (n : Nat) (h : 2 ≤ n) : 2 ≤ floorPow2 n := by
  obtain ⟨⟨k, hk⟩, hlo, hhi⟩ := floorPow2_spec n (by omega)
  match k, hk with
  | 0, hk => omega
  | j+1, hk =>
    have : 2 ≤ 2 ^ (j+1) := by
      have := @Nat.one_le_two_pow j
      rw [pow_succ]
      omega
    omega

theorem luby_step (n : Nat) (st : LubyState) (hinv : lubyInv n st) :
    (get_next_luby_number st).1 = lubySpec (n+1) ∧
    lubyInv (n+1) (get_next_luby_number st).2 := by
  obtain ⟨hl, hm, hmi⟩ := hinv
  have hlen : st.l.length = n := by rw [hl]; simp
  have hspec : lubySpec (n+1) =
      if isPow2 (n+2) then (n+2)/2 else lubySpec ((n+1) - floorPow2 (n+1) + 1) :=
    lubySpec_unfold (n+1) (by omega)
  unfold get_next_luby_number
  rw [hlen]
  by_cases hp : isPow2 (n+2) = true
  · obtain ⟨k, hk⟩ := (isPow2_iff (n+2) (by omega)).mp hp
    have hk1 : 1 ≤ k := by
      match k, hk with
      | 0, hk => omega
      | j+1, hk => omega
    have hfl1 : floorPow2 (n+1) = 2 ^ (k-1) := by
      apply floorPow2_eq_of_pow
      · have : 2 * 2 ^ (k-1) = 2 ^ k := by
          rw [← pow_succ']
          congr 1
          omega
        omega
      · have : 2 ^ (k-1+1) = 2 ^ k := by congr 1; omega
        rw [this]
        omega
    have hfl2 : floorPow2 (n+2) = 2 ^ k := by
      apply floorPow2_eq_of_pow
      · omega
      · rw [pow_succ]; omega
    have hout : st.mult = (n+2)/2 := by
      rw [hm, hfl1]
      have : 2 * 2 ^ (k-1) = 2 ^ k := by
        rw [← pow_succ']
        congr 1
        omega
      omega
    simp only [if_pos hp]
    refine ⟨?_, ?_, ?_, ?_⟩
    · rw [hspec, if_pos hp, hout]
    · show st.l ++ [st.mult] = _
      rw [hl, hout, List.range_succ, List.map_append]
      simp only [List.map_cons, List.map_nil]
      rw [hspec, if_pos hp]
    · show st.mult * 2 = floorPow2 (n+1+1)
      rw [hm, hfl1, hfl2]
      rw [← pow_succ]
      congr 1
      omega
    · show n + 1 = floorPow2 (n+1+1) - 1
      rw [hfl2]
      omega
  · have hn1 : 1 ≤ n := by
      rcases Nat.eq_zero_or_pos n with rfl | h
      · exact absurd (by decide : isPow2 2 = true) hp
      · omega
    have hp2 : 2 ≤ floorPow2 (n+1) := floorPow2_two_le (n+1) (by omega)
    obtain ⟨⟨j, hj⟩, hlo, hhi⟩ := floorPow2_spec (n+1) (by omega)
    have hfl2 : floorPow2 (n+2) = floorPow2 (n+1) := by
      rw [hj]
      apply floorPow2_eq_of_pow
      · omega
      · rcases Nat.lt_or_ge (n+2) (2 ^ (j+1)) with h | h
        · exact h
        · exfalso
          have : n + 2 = 2 ^ (j+1) := by rw [pow_succ]; omega
          exact hp ((isPow2_iff (n+2) (by omega)).mpr ⟨j+1, this⟩)
    have hidx : n + 1 - st.minu - 1 = n + 1 - floorPow2 (n+1) := by
      rw [hmi]
      omega
    have hidxlt : n + 1 - floorPow2 (n+1) < n := by omega
    have hv : st.l.getD (n + 1 - st.minu - 1) 0 = lubySpec (n + 2 - floorPow2 (n+1)) := by
      rw [hidx, hl]
      rw [List.getD_eq_getElem?_getD]
      rw [List.getElem?_map]
      rw [List.getElem?_range hidxlt]
      simp only [Option.map_some', Option.getD_some]
      congr 1
      omega
    have hrec : lubySpec (n+1) = lubySpec (n + 2 - floorPow2 (n+1)) := by
      rw [hspec, if_neg hp]
      congr 1
      omega
    simp only [if_neg hp]
    refine ⟨?_, ?_, ?_, ?_⟩
    · rw [hv, hrec]
    · show st.l ++ [st.l.getD (n + 1 - st.minu - 1) 0] = _
      rw [hv, hl, List.range_succ, List.map_append]
      simp only [List.map_cons, List.map_nil]
      rw [hrec]
    · show st.mult = floorPow2 (n+1+1)
      rw [hm, hfl2]
    · show st.minu = floorPow2 (n+1+1) - 1
      rw [hmi, hfl2]

theorem lubyRun_inv : ∀ n, lubyInv n (lubyRun n) := by
  intro n
  induction n with
  | zero =>
    refine ⟨rfl, ?_, ?_⟩ <;> decide
  | succ n ih =>
    exact (luby_step n (lubyRun n) ih).2

/-- C4: for every `k ≥ 1`, the `k`-th call to
`LubyGenerator::get_next_luby_number` returns the `k`-th term of the Luby
sequence defined by the specification's recurrence, and the first fifteen
returned terms are 1, 1, 2, 1, 1, 2, 4, 1, 1, 2, 1, 1, 2, 4, 8. -/
theorem claim_C4_luby_generator_correct :
    (∀ k, 1 ≤ k → lubyOut k = lubySpec k) ∧
    (List.range 15).map (fun i => lubyOut (i+1)) =
      [1, 1, 2, 1, 1, 2, 4, 1, 1, 2, 1, 1, 2, 4, 8] := by
  constructor
  · intro k hk
    have h := (luby_step (k-1) (lubyRun (k-1)) (lubyRun_inv (k-1))).1
    unfold lubyOut
    rw [h]
    congr 1
    omega
  · decide

/-- Witness for C4 at `k = 7`. -/
theorem claim_C4_witness : 1 ≤ 7 ∧ lubyOut 7 = lubySpec 7 :=
  ⟨by decide, claim_C4_luby_generator_correct.1 7 (by decide)⟩

/-! ### Priority queue: swap lemmas -/

theorem PQ.swap_size (pq : PQ) (i j : Nat) : (pq.swap_nodes i j).size = pq.size := rfl

theorem PQ.swap_heap_length (pq : PQ) (i j : Nat) :
    (pq.swap_nodes i j).heap.length = pq.heap.length := by
  simp [PQ.swap_nodes]

theorem PQ.swap_indices_length (pq : PQ) (i j : Nat) :
    (pq.swap_nodes i j).indices.length = pq.indices.length := by
  simp [PQ.swap_nodes]

theorem PQ.swap_hver (pq : PQ) (i j : Nat) (hi : i < pq.heap.length)
    (hj : j < pq.heap.length) (p : Nat) :
    (pq.swap_nodes i j).hver p =
      if p = j then pq.hver i else if p = i then pq.hver j else pq.hver p := by
  show ((pq.heap.set i (pq.hver j)).set j (pq.hver i)).getD p (0, 0) = _
  by_cases hpj : p = j
  · subst hpj
    rw [if_pos rfl]
    exact getD_set_self _ _ _ _ (by simpa using hj)
  · rw [if_neg hpj, getD_set_ne _ _ _ _ _ (fun h => hpj h.symm)]
    by_cases hpi : p = i
    · subst hpi
      rw [if_pos rfl]
      exact getD_set_self _ _ _ _ hi
    · rw [if_neg hpi, getD_set_ne _ _ _ _ _ (fun h => hpi h.symm)]
      rfl

theorem PQ.swap_idx (pq : PQ) (i j : Nat) (hik : pq.hkey i < pq.indices.length)
    (hjk : pq.hkey j < pq.indices.length) (k : Nat) :
    (pq.swap_nodes i j).idx k =
      if k = pq.hkey i then Int.ofNat j else if k = pq.hkey j then Int.ofNat i
        else pq.idx k := by
  show ((pq.indices.set (pq.hkey j) (Int.ofNat i)).set (pq.hkey i)
      (Int.ofNat j)).getD k (-1) = _
  by_cases hka : k = pq.hkey i
  · subst hka
    rw [if_pos rfl]
    exact getD_set_self _ _ _ _ (by simpa using hik)
  · rw [if_neg hka, getD_set_ne _ _ _ _ _ (fun h => hka h.symm)]
    by_cases hkb : k = pq.hkey j
    · subst hkb
      rw [if_pos rfl]
      exact getD_set_self _ _ _ _ hjk
    · rw [if_neg hkb, getD_set_ne _ _ _ _ _ (fun h => hkb h.symm)]
      rfl

theorem PQ.swap_hkey (pq : PQ) (i j : Nat) (hi : i < pq.heap.length)
    (hj : j < pq.heap.length) (p : Nat) :
    (pq.swap_nodes i j).hkey p =
      if p = j then pq.hkey i else if p = i then pq.hkey j else pq.hkey p := by
  unfold PQ.hkey
  rw [PQ.swap_hver pq i j hi hj p]
  split
  · rfl
  · split <;> rfl

theorem PQ.swap_hscore (pq : PQ) (i j : Nat) (hi : i < pq.heap.length)
    (hj : j < pq.heap.length) (p : Nat) :
    (pq.swap_nodes i j).hscore p =
      if p = j then pq.hscore i else if p = i then pq.hscore j else pq.hscore p := by
  unfold PQ.hscore
  rw [PQ.swap_hver pq i j hi hj p]
  split
  · rfl
  · split <;> rfl

theorem PQ.key_inj (pq : PQ) (hb : pq.Basic) (i j : Nat) (hi : i < pq.size)
    (hj : j < pq.size) (hk : pq.hkey i = pq.hkey j) : i = j := by
  obtain ⟨hlen, hkb, hik, hki⟩ := hb
  have h1 := hik i hi
  have h2 := hik j hj
  rw [hk, h2] at h1
  exact (Int.ofNat_inj.mp h1).symm

theorem PQ.swap_basic (pq : PQ) (i j : Nat) (hb : pq.Basic) (hi : i < pq.size)
    (hj : j < pq.size) : (pq.swap_nodes i j).Basic := by
  have hlen := hb.1
  have hkb := hb.2.1
  have hik := hb.2.2.1
  have hki := hb.2.2.2
  have hih : i < pq.heap.length := lt_of_lt_of_le hi hlen
  have hjh : j < pq.heap.length := lt_of_lt_of_le hj hlen
  have hikl : pq.hkey i < pq.indices.length := hkb i hi
  have hjkl : pq.hkey j < pq.indices.length := hkb j hj
  have hkeyd := PQ.swap_hkey pq i j hih hjh
  have hidx := PQ.swap_idx pq i j hikl hjkl
  refine ⟨?_, ?_, ?_, ?_⟩
  · rw [PQ.swap_size, PQ.swap_heap_length]
    exact hlen
  · intro p hp
    rw [PQ.swap_size] at hp
    rw [PQ.swap_indices_length, hkeyd p]
    by_cases h1 : p = j
    · simp only [if_pos h1]; exact hikl
    · by_cases h2 : p = i
      · simp only [if_neg h1, if_pos h2]; exact hjkl
      · simp only [if_neg h1, if_neg h2]; exact hkb p hp
  · intro p hp
    rw [PQ.swap_size] at hp
    by_cases h1 : p = j
    · subst h1
      have e1 : (pq.swap_nodes i p).hkey p = pq.hkey i := by
        rw [hkeyd p, if_pos rfl]
      rw [e1, hidx, if_pos rfl]
    · by_cases h2 : p = i
      · subst h2
        have e1 : (pq.swap_nodes p j).hkey p = pq.hkey j := by
          rw [hkeyd p, if_neg h1, if_pos rfl]
        rw [e1, hidx]
        have hne : pq.hkey j ≠ pq.hkey p := by
          intro h
          exact h1 (PQ.key_inj pq hb j p hj hp h).symm
        rw [if_neg hne, if_pos rfl]
      · have e1 : (pq.swap_nodes i j).hkey p = pq.hkey p := by
          rw [hkeyd p, if_neg h1, if_neg h2]
        rw [e1, hidx]
        have hne1 : pq.hkey p ≠ pq.hkey i := fun h =>
          h2 (PQ.key_inj pq hb p i hp hi h)
        have hne2 : pq.hkey p ≠ pq.hkey j := fun h =>
          h1 (PQ.key_inj pq hb p j hp hj h)
        rw [if_neg hne1, if_neg hne2]
        exact hik p hp
  · intro k hk hkne
    rw [PQ.swap_indices_length] at hk
    rw [hidx] at hkne
    rw [PQ.swap_size, hidx]
    by_cases h1 : k = pq.hkey i
    · refine ⟨j, hj, ?_, ?_⟩
      · rw [if_pos h1]
      · rw [hkeyd j, if_pos rfl, h1]
    · by_cases h2 : k = pq.hkey j
      · refine ⟨i, hi, ?_, ?_⟩
        · rw [if_neg h1, if_pos h2]
        · have hij : i ≠ j := by
            intro h
            subst h
            exact h1 h2
          rw [hkeyd i, if_neg hij, if_pos rfl, h2]
      · rw [if_neg h1, if_neg h2] at hkne
        obtain ⟨p, hp, hpe, hpk⟩ := hki k hk hkne
        refine ⟨p, hp, ?_, ?_⟩
        · rw [if_neg h1, if_neg h2]
          exact hpe
        · have hpj : p ≠ j := by
            intro h
            subst h
            exact h2 hpk.symm
          have hpi : p ≠ i := by
            intro h
            subst h
            exact h1 hpk.symm
          rw [hkeyd p, if_neg hpj, if_neg hpi]
          exact hpk

/-! ### Priority queue: heapify -/

theorem PQ.maxChild_eq_or (pq : PQ) (i : Nat) :
    pq.maxChild i = i ∨ pq.maxChild i = 2*i+1 ∨ pq.maxChild i = 2*i+2 := by
  unfold PQ.maxChild
  split
  · right; right; rfl
  · unfold PQ.mc1
    split
    · right; left; rfl
    · left; rfl

theorem PQ.maxChild_lt_size (pq : PQ) (i : Nat) (h : pq.maxChild i ≠ i) :
    i < pq.maxChild i ∧ pq.maxChild i < pq.size := by
  unfold PQ.maxChild PQ.mc1 at *
  by_cases c1 : 2*i+1 < pq.size ∧ pq.hscore i < pq.hscore (2*i+1)
  · rw [if_pos c1] at *
    by_cases c2 : 2*i+2 < pq.size ∧ pq.hscore (2*i+1) < pq.hscore (2*i+2)
    · rw [if_pos c2]
      exact ⟨by omega, c2.1⟩
    · rw [if_neg c2]
      exact ⟨by omega, c1.1⟩
  · rw [if_neg c1] at *
    by_cases c2 : 2*i+2 < pq.size ∧ pq.hscore i < pq.hscore (2*i+2)
    · rw [if_pos c2]
      exact ⟨by omega, c2.1⟩
    · rw [if_neg c2] at h
      exact absurd rfl h

theorem PQ.maxChild_gt (pq : PQ) (i : Nat) (h : pq.maxChild i ≠ i) :
    pq.hscore i < pq.hscore (pq.maxChild i) := by
  unfold PQ.maxChild PQ.mc1 at *
  by_cases c1 : 2*i+1 < pq.size ∧ pq.hscore i < pq.hscore (2*i+1)
  · rw [if_pos c1] at *
    by_cases c2 : 2*i+2 < pq.size ∧ pq.hscore (2*i+1) < pq.hscore (2*i+2)
    · rw [if_pos c2]
      exact lt_trans c1.2 c2.2
    · rw [if_neg c2]
      exact c1.2
  · rw [if_neg c1] at *
    by_cases c2 : 2*i+2 < pq.size ∧ pq.hscore i < pq.hscore (2*i+2)
    · rw [if_pos c2]
      exact c2.2
    · rw [if_neg c2] at h
      exact absurd rfl h

theorem PQ.maxChild_children (pq : PQ) (i : Nat) (c : Nat)
    (hc : c = 2*i+1 ∨ c = 2*i+2) (hcs : c < pq.size) :
    pq.hscore c ≤ pq.hscore (pq.maxChild i) := by
  unfold PQ.maxChild PQ.mc1
  by_cases c1 : 2*i+1 < pq.size ∧ pq.hscore i < pq.hscore (2*i+1)
  · rw [if_pos c1]
    by_cases c2 : 2*i+2 < pq.size ∧ pq.hscore (2*i+1) < pq.hscore (2*i+2)
    · rw [if_pos c2]
      rcases hc with rfl | rfl
      · exact le_of_lt c2.2
      · exact le_refl _
    · rw [if_neg c2]
      rcases hc with rfl | rfl
      · exact le_refl _
      · exact not_lt.mp (fun hlt => c2 ⟨hcs, hlt⟩)
  · rw [if_neg c1]
    by_cases c2 : 2*i+2 < pq.size ∧ pq.hscore i < pq.hscore (2*i+2)
    · rw [if_pos c2]
      rcases hc with rfl | rfl
      · have hle : pq.hscore (2*i+1) ≤ pq.hscore i :=
          not_lt.mp (fun hlt => c1 ⟨hcs, hlt⟩)
        exact le_of_lt (lt_of_le_of_lt hle c2.2)
      · exact le_refl _
    · rw [if_neg c2]
      rcases hc with rfl | rfl
      · exact not_lt.mp (fun hlt => c1 ⟨hcs, hlt⟩)
      · exact not_lt.mp (fun hlt => c2 ⟨hcs, hlt⟩)

theorem PQ.parentIdx_eq (j i : Nat) (hj : 0 < j) :
    PQ.parentIdx j = i ↔ (j = 2*i+1 ∨ j = 2*i+2) := by
  unfold PQ.parentIdx
  omega

theorem PQ.heapify_size : ∀ (fuel : Nat) (pq : PQ) (i : Nat),
    (PQ.heapify fuel pq i).size = pq.size := by
  intro fuel
  induction fuel with
  | zero => intro pq i; rfl
  | succ fuel ih =>
    intro pq i
    show (if PQ.maxChild pq i = i then pq
      else PQ.heapify fuel (pq.swap_nodes (PQ.maxChild pq i) i) (PQ.maxChild pq i)).size = _
    split
    · rfl
    · rw [ih, PQ.swap_size]

theorem PQ.heapify_heap_length : ∀ (fuel : Nat) (pq : PQ) (i : Nat),
    (PQ.heapify fuel pq i).heap.length = pq.heap.length := by
  intro fuel
  induction fuel with
  | zero => intro pq i; rfl
  | succ fuel ih =>
    intro pq i
    show (if PQ.maxChild pq i = i then pq
      else PQ.heapify fuel (pq.swap_nodes (PQ.maxChild pq i) i) (PQ.maxChild pq i)).heap.length = _
    split
    · rfl
    · rw [ih, PQ.swap_heap_length]

theorem PQ.heapify_indices_length : ∀ (fuel : Nat) (pq : PQ) (i : Nat),
    (PQ.heapify fuel pq i).indices.length = pq.indices.length := by
  intro fuel
  induction fuel with
  | zero => intro pq i; rfl
  | succ fuel ih =>
    intro pq i
    show (if PQ.maxChild pq i = i then pq
      else PQ.heapify fuel (pq.swap_nodes (PQ.maxChild pq i) i) (PQ.maxChild pq i)).indices.length = _
    split
    · rfl
    · rw [ih, PQ.swap_indices_length]

theorem PQ.heapify_basic : ∀ (fuel : Nat) (pq : PQ) (i : Nat),
    pq.Basic → (PQ.heapify fuel pq i).Basic := by
  intro fuel
  induction fuel with
  | zero => intro pq i hb; exact hb
  | succ fuel ih =>
    intro pq i hb
    show (if PQ.maxChild pq i = i then pq
      else PQ.heapify fuel (pq.swap_nodes (PQ.maxChild pq i) i) (PQ.maxChild pq i)).Basic
    split
    · exact hb
    · rename_i hne
      obtain ⟨him, hms⟩ := PQ.maxChild_lt_size pq i hne
      exact ih _ _ (PQ.swap_basic pq _ i hb hms (lt_trans him hms))

theorem PQ.heapify_untouched : ∀ (fuel : Nat) (pq : PQ) (i p : Nat),
    pq.size ≤ pq.heap.length → p ≠ i → p < 2*i+1 →
    (PQ.heapify fuel pq i).hver p = pq.hver p := by
  intro fuel
  induction fuel with
  | zero => intro pq i p _ _ _; rfl
  | succ fuel ih =>
    intro pq i p hlen hpi hplt
    show (if PQ.maxChild pq i = i then pq
      else PQ.heapify fuel (pq.swap_nodes (PQ.maxChild pq i) i) (PQ.maxChild pq i)).hver p = _
    split
    · rfl
    · rename_i hne
      obtain ⟨him, hms⟩ := PQ.maxChild_lt_size pq i hne
      have hmh : PQ.maxChild pq i < pq.heap.length := lt_of_lt_of_le hms hlen
      have hih : i < pq.heap.length := lt_of_lt_of_le (lt_trans him hms) hlen
      have hm21 : 2*i+1 ≤ PQ.maxChild pq i := by
        rcases PQ.maxChild_eq_or pq i with h | h | h
        · exact absurd h hne
        · omega
        · omega
      have hpm : p ≠ PQ.maxChild pq i := by omega
      have hpm2 : p < 2 * PQ.maxChild pq i + 1 := by omega
      have hlen2 : (pq.swap_nodes (PQ.maxChild pq i) i).size ≤
          (pq.swap_nodes (PQ.maxChild pq i) i).heap.length := by
        rw [PQ.swap_size, PQ.swap_heap_length]; exact hlen
      rw [ih (pq.swap_nodes (PQ.maxChild pq i) i) (PQ.maxChild pq i) p hlen2 hpm hpm2]
      rw [PQ.swap_hver pq (PQ.maxChild pq i) i hmh hih p, if_neg hpi, if_neg hpm]

theorem PQ.heapify_score_le : ∀ (fuel : Nat) (pq : PQ) (i : Nat) (b : Rat),
    pq.size ≤ pq.heap.length →
    pq.hscore i ≤ b →
    (2*i+1 < pq.size → pq.hscore (2*i+1) ≤ b) →
    (2*i+2 < pq.size → pq.hscore (2*i+2) ≤ b) →
    (PQ.heapify fuel pq i).hscore i ≤ b := by
  intro fuel
  induction fuel with
  | zero => intro pq i b _ h _ _; exact h
  | succ fuel ih =>
    intro pq i b hlen hi hl hr
    show (if PQ.maxChild pq i = i then pq
      else PQ.heapify fuel (pq.swap_nodes (PQ.maxChild pq i) i) (PQ.maxChild pq i)).hscore i ≤ b
    split
    · exact hi
    · rename_i hne
      obtain ⟨him, hms⟩ := PQ.maxChild_lt_size pq i hne
      have hmh : PQ.maxChild pq i < pq.heap.length := lt_of_lt_of_le hms hlen
      have hih : i < pq.heap.length := lt_of_lt_of_le (lt_trans him hms) hlen
      have hm21 : 2*i+1 ≤ PQ.maxChild pq i := by
        rcases PQ.maxChild_eq_or pq i with h | h | h
        · exact absurd h hne
        · omega
        · omega
      have hlen2 : (pq.swap_nodes (PQ.maxChild pq i) i).size ≤
          (pq.swap_nodes (PQ.maxChild pq i) i).heap.length := by
        rw [PQ.swap_size, PQ.swap_heap_length]; exact hlen
      have huntouched := PQ.heapify_untouched fuel (pq.swap_nodes (PQ.maxChild pq i) i)
        (PQ.maxChild pq i) i hlen2 (by omega) (by omega)
      have hswap := PQ.swap_hver pq (PQ.maxChild pq i) i hmh hih i
      rw [if_pos rfl] at hswap
      unfold PQ.hscore
      rw [huntouched, hswap]
      show pq.hscore (PQ.maxChild pq i) ≤ b
      rcases PQ.maxChild_eq_or pq i with h | h | h
      · exact absurd h hne
      · rw [h]; exact hl (h ▸ hms)
      · rw [h]; exact hr (h ▸ hms)

theorem PQ.heapify_from : ∀ (fuel : Nat) (pq : PQ) (i : Nat),
    pq.size ≤ pq.heap.length → pq.size - i ≤ fuel → pq.HeapFromExcept i →
    (PQ.heapify fuel pq i).HeapFrom i := by
  intro fuel
  induction fuel with
  | zero =>
    intro pq i hlen hfuel hex j hj hj0 hpar
    exfalso
    rw [show PQ.heapify 0 pq i = pq from rfl] at hj
    have : PQ.parentIdx j < j := by unfold PQ.parentIdx; omega
    omega
  | succ fuel ih =>
    intro pq i hlen hfuel hex
    show (if PQ.maxChild pq i = i then pq
      else PQ.heapify fuel (pq.swap_nodes (PQ.maxChild pq i) i) (PQ.maxChild pq i)).HeapFrom i
    split
    · rename_i heq
      intro j hj hj0 hpar
      by_cases hpi : PQ.parentIdx j = i
      · rw [hpi]
        have hj2 : j = 2*i+1 ∨ j = 2*i+2 := (PQ.parentIdx_eq j i hj0).mp hpi
        have := PQ.maxChild_children pq i j hj2 hj
        rw [heq] at this
        exact this
      · exact hex j hj hj0 hpar hpi
    · rename_i hne
      obtain ⟨m, hm⟩ : ∃ m, PQ.maxChild pq i = m := ⟨_, rfl⟩
      rw [hm] at hne ⊢
      have hne' : PQ.maxChild pq i ≠ i := by rw [hm]; exact hne
      have hlt := PQ.maxChild_lt_size pq i hne'
      rw [hm] at hlt
      obtain ⟨him, hms⟩ := hlt
      have hgt := PQ.maxChild_gt pq i hne'
      rw [hm] at hgt
      have hchild : ∀ c, (c = 2*i+1 ∨ c = 2*i+2) → c < pq.size →
          pq.hscore c ≤ pq.hscore m := by
        intro c h1 h2
        have h3 := PQ.maxChild_children pq i c h1 h2
        rw [hm] at h3
        exact h3
      have hm2 : m = 2*i+1 ∨ m = 2*i+2 := by
        have h3 := PQ.maxChild_eq_or pq i
        rw [hm] at h3
        rcases h3 with h | h | h
        · exact absurd h hne
        · exact Or.inl h
        · exact Or.inr h
      have hmh : m < pq.heap.length := lt_of_lt_of_le hms hlen
      have hih : i < pq.heap.length := lt_of_lt_of_le (lt_trans him hms) hlen
      have hm21 : 2*i+1 ≤ m := by omega
      have hm22 : m ≤ 2*i+2 := by omega
      have hparm : PQ.parentIdx m = i := (PQ.parentIdx_eq m i (by omega)).mpr hm2
      have hlen2 : (pq.swap_nodes m i).size ≤ (pq.swap_nodes m i).heap.length := by
        rw [PQ.swap_size, PQ.swap_heap_length]; exact hlen
      have hsc := PQ.swap_hscore pq m i hmh hih
      have hsc_i : (pq.swap_nodes m i).hscore i = pq.hscore m := by
        rw [hsc i, if_pos rfl]
      have hsc_m : (pq.swap_nodes m i).hscore m = pq.hscore i := by
        rw [hsc m, if_neg (by omega : m ≠ i), if_pos rfl]
      have hsc_other : ∀ p, p ≠ i → p ≠ m →
          (pq.swap_nodes m i).hscore p = pq.hscore p := by
        intro p h1 h2
        rw [hsc p, if_neg h1, if_neg h2]
      have hex2 : (pq.swap_nodes m i).HeapFromExcept m := by
        intro j hj hj0 hpar hpne
        rw [PQ.swap_size] at hj
        have hpj : PQ.parentIdx j < j := by unfold PQ.parentIdx; omega
        rw [hsc_other j (by omega) (by omega), hsc_other _ (by omega) hpne]
        exact hex j hj hj0 (by omega) (by omega)
      have hres := ih (pq.swap_nodes m i) m hlen2 (by rw [PQ.swap_size]; omega) hex2
      have huntouch : ∀ p, p ≠ m → p < 2*m+1 →
          (PQ.heapify fuel (pq.swap_nodes m i) m).hscore p =
          (pq.swap_nodes m i).hscore p := by
        intro p h1 h2
        unfold PQ.hscore
        rw [PQ.heapify_untouched fuel _ _ p hlen2 h1 h2]
      have hres_i : (PQ.heapify fuel (pq.swap_nodes m i) m).hscore i = pq.hscore m := by
        rw [huntouch i (by omega) (by omega), hsc_i]
      have hsize_res : (PQ.heapify fuel (pq.swap_nodes m i) m).size = pq.size := by
        rw [PQ.heapify_size, PQ.swap_size]
      intro j hj hj0 hpar
      rw [hsize_res] at hj
      by_cases hcase : m ≤ PQ.parentIdx j
      · exact hres j (by rw [hsize_res]; exact hj) hj0 hcase
      · by_cases hpi : PQ.parentIdx j = i
        · have hj2 : j = 2*i+1 ∨ j = 2*i+2 := (PQ.parentIdx_eq j i hj0).mp hpi
          rw [hpi, hres_i]
          by_cases hjm : j = m
          · rw [hjm]
            apply PQ.heapify_score_le fuel (pq.swap_nodes m i) m (pq.hscore m) hlen2
            · rw [hsc_m]
              exact le_of_lt hgt
            · intro hcs
              rw [PQ.swap_size] at hcs
              rw [hsc_other _ (by omega) (by omega)]
              have hp1 : PQ.parentIdx (2*m+1) = m := by unfold PQ.parentIdx; omega
              have h5 := hex (2*m+1) hcs (by omega) (by omega) (by omega)
              rw [hp1] at h5
              exact h5
            · intro hcs
              rw [PQ.swap_size] at hcs
              rw [hsc_other _ (by omega) (by omega)]
              have hp1 : PQ.parentIdx (2*m+2) = m := by unfold PQ.parentIdx; omega
              have h5 := hex (2*m+2) hcs (by omega) (by omega) (by omega)
              rw [hp1] at h5
              exact h5
          · rw [huntouch j hjm (by omega), hsc_other j (by omega) hjm]
            exact hchild j hj2 hj
        · have hgt2 : i < PQ.parentIdx j := by omega
          have hlt2 : PQ.parentIdx j < m := by omega
          have hjgt : m < j := by
            have : 2 * (PQ.parentIdx j) + 1 ≤ j := by unfold PQ.parentIdx at *; omega
            omega
          have hjlt : j < 2*m+1 := by
            have : j ≤ 2 * (PQ.parentIdx j) + 2 := by unfold PQ.parentIdx at *; omega
            omega
          rw [huntouch j (by omega) hjlt, huntouch _ (by omega) (by omega),
            hsc_other j (by omega) (by omega), hsc_other _ (by omega) (by omega)]
          exact hex j hj hj0 (by omega) hpi

theorem PQ.heapify_all : ∀ (fuel : Nat) (pq : PQ) (i : Nat),
    pq.size ≤ pq.heap.length → pq.size - i ≤ fuel → pq.AlmostHeapAt i →
    (PQ.heapify fuel pq i).IsHeap := by
  intro fuel
  induction fuel with
  | zero =>
    intro pq i hlen hfuel hal j hj hj0
    rw [show PQ.heapify 0 pq i = pq from rfl] at hj ⊢
    have hpj : PQ.parentIdx j < j := by unfold PQ.parentIdx; omega
    exact hal.1 j hj hj0 (by omega)
  | succ fuel ih =>
    intro pq i hlen hfuel hal
    show (if PQ.maxChild pq i = i then pq
      else PQ.heapify fuel (pq.swap_nodes (PQ.maxChild pq i) i) (PQ.maxChild pq i)).IsHeap
    split
    · rename_i heq
      intro j hj hj0
      by_cases hpi : PQ.parentIdx j = i
      · rw [hpi]
        have hj2 : j = 2*i+1 ∨ j = 2*i+2 := (PQ.parentIdx_eq j i hj0).mp hpi
        have h3 := PQ.maxChild_children pq i j hj2 hj
        rw [heq] at h3
        exact h3
      · exact hal.1 j hj hj0 hpi
    · rename_i hne
      obtain ⟨m, hm⟩ : ∃ m, PQ.maxChild pq i = m := ⟨_, rfl⟩
      rw [hm] at hne ⊢
      have hne' : PQ.maxChild pq i ≠ i := by rw [hm]; exact hne
      have hlt := PQ.maxChild_lt_size pq i hne'
      rw [hm] at hlt
      obtain ⟨him, hms⟩ := hlt
      have hgt := PQ.maxChild_gt pq i hne'
      rw [hm] at hgt
      have hchild : ∀ c, (c = 2*i+1 ∨ c = 2*i+2) → c < pq.size →
          pq.hscore c ≤ pq.hscore m := by
        intro c h1 h2
        have h3 := PQ.maxChild_children pq i c h1 h2
        rw [hm] at h3
        exact h3
      have hm2 : m = 2*i+1 ∨ m = 2*i+2 := by
        have h3 := PQ.maxChild_eq_or pq i
        rw [hm] at h3
        rcases h3 with h | h | h
        · exact absurd h hne
        · exact Or.inl h
        · exact Or.inr h
      have hmh : m < pq.heap.length := lt_of_lt_of_le hms hlen
      have hih : i < pq.heap.length := lt_of_lt_of_le (lt_trans him hms) hlen
      have hm21 : 2*i+1 ≤ m := by omega
      have hm22 : m ≤ 2*i+2 := by omega
      have hparm : PQ.parentIdx m = i := (PQ.parentIdx_eq m i (by omega)).mpr hm2
      have hlen2 : (pq.swap_nodes m i).size ≤ (pq.swap_nodes m i).heap.length := by
        rw [PQ.swap_size, PQ.swap_heap_length]; exact hlen
      have hsc := PQ.swap_hscore pq m i hmh hih
      have hsc_i : (pq.swap_nodes m i).hscore i = pq.hscore m := by
        rw [hsc i, if_pos rfl]
      have hsc_m : (pq.swap_nodes m i).hscore m = pq.hscore i := by
        rw [hsc m, if_neg (by omega : m ≠ i), if_pos rfl]
      have hsc_other : ∀ p, p ≠ i → p ≠ m →
          (pq.swap_nodes m i).hscore p = pq.hscore p := by
        intro p h1 h2
        rw [hsc p, if_neg h1, if_neg h2]
      have hal2 : (pq.swap_nodes m i).AlmostHeapAt m := by
        constructor
        · intro j hj hj0 hpne
          rw [PQ.swap_size] at hj
          have hpj : PQ.parentIdx j < j := by unfold PQ.parentIdx; omega
          by_cases hjm : j = m
          · rw [hjm, hparm, hsc_m, hsc_i]
            exact le_of_lt hgt
          · by_cases hji : j = i
            · rw [hji, hsc_i]
              have hpar_i : PQ.parentIdx i < i := by
                unfold PQ.parentIdx
                omega
              rw [hsc_other (PQ.parentIdx i) (by omega) (by omega)]
              exact hal.2 (by omega) m hms (by omega) hparm
            · by_cases hpari : PQ.parentIdx j = i
              · rw [hpari, hsc_other j hji hjm, hsc_i]
                have hj2 : j = 2*i+1 ∨ j = 2*i+2 := (PQ.parentIdx_eq j i hj0).mp hpari
                exact hchild j hj2 hj
              · rw [hsc_other j hji hjm, hsc_other _ hpari hpne]
                exact hal.1 j hj hj0 hpari
        · intro hm0 c hc hc0 hcpar
          rw [PQ.swap_size] at hc
          have hcgt : m < c := by
            have : 2*m+1 ≤ c := by
              rcases (PQ.parentIdx_eq c m hc0).mp hcpar with h | h <;> omega
            omega
          rw [hparm, hsc_i, hsc_other c (by omega) (by omega)]
          have h5 := hal.1 c hc hc0 (by rw [hcpar]; omega)
          rw [hcpar] at h5
          exact h5
      have hres := ih (pq.swap_nodes m i) m hlen2 (by rw [PQ.swap_size]; omega) hal2
      exact hres

/-! ### Priority queue: bubble-up -/

theorem PQ.bubble_size : ∀ (fuel : Nat) (pq : PQ) (pos : Nat),
    (PQ.bubble_up fuel pq pos).size = pq.size := by
  intro fuel
  induction fuel with
  | zero => intro pq pos; rfl
  | succ fuel ih =>
    intro pq pos
    show (if pos = 0 then pq else
      if pq.hscore ((pos-1)/2) < pq.hscore pos
      then PQ.bubble_up fuel (pq.swap_nodes pos ((pos-1)/2)) ((pos-1)/2) else pq).size = _
    split
    · rfl
    · split
      · rw [ih, PQ.swap_size]
      · rfl

theorem PQ.bubble_heap_length : ∀ (fuel : Nat) (pq : PQ) (pos : Nat),
    (PQ.bubble_up fuel pq pos).heap.length = pq.heap.length := by
  intro fuel
  induction fuel with
  | zero => intro pq pos; rfl
  | succ fuel ih =>
    intro pq pos
    show (if pos = 0 then pq else
      if pq.hscore ((pos-1)/2) < pq.hscore pos
      then PQ.bubble_up fuel (pq.swap_nodes pos ((pos-1)/2)) ((pos-1)/2) else pq).heap.length = _
    split
    · rfl
    · split
      · rw [ih, PQ.swap_heap_length]
      · rfl

theorem PQ.bubble_indices_length : ∀ (fuel : Nat) (pq : PQ) (pos : Nat),
    (PQ.bubble_up fuel pq pos).indices.length = pq.indices.length := by
  intro fuel
  induction fuel with
  | zero => intro pq pos; rfl
  | succ fuel ih =>
    intro pq pos
    show (if pos = 0 then pq else
      if pq.hscore ((pos-1)/2) < pq.hscore pos
      then PQ.bubble_up fuel (pq.swap_nodes pos ((pos-1)/2)) ((pos-1)/2) else pq).indices.length = _
    split
    · rfl
    · split
      · rw [ih, PQ.swap_indices_length]
      · rfl

theorem PQ.bubble_basic : ∀ (fuel : Nat) (pq : PQ) (pos : Nat),
    pq.Basic → pos < pq.size → (PQ.bubble_up fuel pq pos).Basic := by
  intro fuel
  induction fuel with
  | zero => intro pq pos hb _; exact hb
  | succ fuel ih =>
    intro pq pos hb hpos
    show (if pos = 0 then pq else
      if pq.hscore ((pos-1)/2) < pq.hscore pos
      then PQ.bubble_up fuel (pq.swap_nodes pos ((pos-1)/2)) ((pos-1)/2) else pq).Basic
    split
    · exact hb
    · rename_i hpos0
      split
      · apply ih
        · exact PQ.swap_basic pq pos ((pos-1)/2) hb hpos (by omega)
        · rw [PQ.swap_size]
          omega
      · exact hb

theorem PQ.bubble_correct : ∀ (fuel : Nat) (pq : PQ) (pos : Nat),
    pq.size ≤ pq.heap.length → pos ≤ fuel → pos < pq.size → pq.UpInvAt pos →
    (PQ.bubble_up fuel pq pos).IsHeap := by
  intro fuel
  induction fuel with
  | zero =>
    intro pq pos hlen hf hpos hup
    have hpos0 : pos = 0 := by omega
    subst hpos0
    intro j hj hj0
    exact hup.1 j hj hj0 (by omega)
  | succ fuel ih =>
    intro pq pos hlen hf hpos hup
    show (if pos = 0 then pq else
      if pq.hscore ((pos-1)/2) < pq.hscore pos
      then PQ.bubble_up fuel (pq.swap_nodes pos ((pos-1)/2)) ((pos-1)/2) else pq).IsHeap
    split
    · rename_i hpos0
      subst hpos0
      intro j hj hj0
      exact hup.1 j hj hj0 (by omega)
    · rename_i hpos0
      obtain ⟨par, hpar⟩ : ∃ p, (pos-1)/2 = p := ⟨_, rfl⟩
      have hparlt : par < pos := by omega
      have hparpi : PQ.parentIdx pos = par := by unfold PQ.parentIdx; omega
      rw [hpar]
      split
      · rename_i hlt
        have hparh : par < pq.heap.length := by omega
        have hposh : pos < pq.heap.length := by omega
        have hsc := PQ.swap_hscore pq pos par hposh hparh
        have hsc_par : (pq.swap_nodes pos par).hscore par = pq.hscore pos := by
          rw [hsc par, if_pos rfl]
        have hsc_pos : (pq.swap_nodes pos par).hscore pos = pq.hscore par := by
          rw [hsc pos, if_neg (by omega : pos ≠ par), if_pos rfl]
        have hsc_other : ∀ p, p ≠ par → p ≠ pos →
            (pq.swap_nodes pos par).hscore p = pq.hscore p := by
          intro p h1 h2
          rw [hsc p, if_neg h1, if_neg h2]
        apply ih (pq.swap_nodes pos par) par
        · rw [PQ.swap_size, PQ.swap_heap_length]
          exact hlen
        · omega
        · rw [PQ.swap_size]
          omega
        · constructor
          · intro j hj hj0 hjpar
            rw [PQ.swap_size] at hj
            have hpj : PQ.parentIdx j < j := by unfold PQ.parentIdx; omega
            by_cases hjpos : j = pos
            · rw [hjpos, hparpi, hsc_pos, hsc_par]
              exact le_of_lt hlt
            · by_cases hparj : PQ.parentIdx j = par
              · -- sibling of pos under par
                rw [hparj, hsc_par, hsc_other j hjpar hjpos]
                have h5 := hup.1 j hj hj0 hjpos
                rw [hparj] at h5
                exact le_trans h5 (le_of_lt hlt)
              · by_cases hparpos : PQ.parentIdx j = pos
                · -- former child of pos
                  rw [hparpos, hsc_pos, hsc_other j hjpar hjpos]
                  have h5 := hup.2 (by omega) j hj hj0 hparpos
                  rw [hparpi] at h5
                  exact h5
                · rw [hsc_other j hjpar hjpos, hsc_other _ hparj hparpos]
                  exact hup.1 j hj hj0 hjpos
          · intro hpar0 c hc hc0 hcpar
            rw [PQ.swap_size] at hc
            have hcgt : PQ.parentIdx par < par := by unfold PQ.parentIdx; omega
            have hppp : PQ.parentIdx par ≠ par := by omega
            have hppp2 : PQ.parentIdx par ≠ pos := by omega
            rw [hsc_other (PQ.parentIdx par) hppp hppp2]
            by_cases hcpos : c = pos
            · rw [hcpos, hsc_pos]
              have h5 := hup.1 par (by omega) (by omega) (by omega)
              exact h5
            · -- c is the sibling of pos
              have hcne : c ≠ par := by
                have : par < c := by
                  have : 2*par+1 ≤ c := by
                    rcases (PQ.parentIdx_eq c par hc0).mp hcpar with h | h <;> omega
                  omega
                omega
              rw [hsc_other c hcne hcpos]
              have h5 := hup.1 c hc hc0 hcpos
              rw [hcpar] at h5
              have h6 := hup.1 par (by omega) (by omega) (by omega)
              exact le_trans h5 h6
      · rename_i hnlt
        intro j hj hj0
        by_cases hjpos : j = pos
        · rw [hjpos, hparpi]
          exact not_lt.mp hnlt
        · exact hup.1 j hj hj0 hjpos

/-! ### Priority queue: the five operations preserve the invariant -/

theorem PQ.increase_update_inv (pq : PQ) (key : Nat) (v : Rat)
    (h : pq.Inv) (hv : 0 ≤ v) : (pq.increase_update key v).Inv := by
  obtain ⟨⟨hlen, hkb, hik, hki⟩, hheap⟩ := h
  by_cases hguard : pq.indices.length ≤ key ∨ pq.idx key = -1
  · unfold PQ.increase_update
    rw [if_pos hguard]
    exact ⟨⟨hlen, hkb, hik, hki⟩, hheap⟩
  · have hguard2 := hguard
    push_neg at hguard2
    obtain ⟨hkey, hne⟩ := hguard2
    obtain ⟨p, hp, hpe, hpk⟩ := hki key (by omega) hne
    have htn : (pq.idx key).toNat = p := by rw [hpe]; rfl
    have hph : p < pq.heap.length := lt_of_lt_of_le hp hlen
    have hresult : pq.increase_update key v =
        PQ.bubble_up p { pq with heap := pq.heap.set p (pq.hscore p + v, pq.hkey p) } p := by
      unfold PQ.increase_update
      rw [if_neg hguard, htn]
    rw [hresult]
    have hver1 : ∀ q,
        ({ pq with heap := pq.heap.set p (pq.hscore p + v, pq.hkey p) } : PQ).hver q =
        if q = p then (pq.hscore p + v, pq.hkey p) else pq.hver q := by
      intro q
      show (pq.heap.set p (pq.hscore p + v, pq.hkey p)).getD q (0, 0) = _
      by_cases hq : q = p
      · subst hq
        rw [if_pos rfl]
        exact getD_set_self _ _ _ _ hph
      · rw [if_neg hq, getD_set_ne _ _ _ _ _ (fun hh => hq hh.symm)]
        rfl
    have hkey1 : ∀ q,
        ({ pq with heap := pq.heap.set p (pq.hscore p + v, pq.hkey p) } : PQ).hkey q =
        pq.hkey q := by
      intro q
      have h9 := congrArg Prod.snd (hver1 q)
      by_cases hq : q = p
      · subst hq
        rw [if_pos rfl] at h9
        exact h9
      · rw [if_neg hq] at h9
        exact h9
    have hscore1 : ∀ q, q ≠ p →
        ({ pq with heap := pq.heap.set p (pq.hscore p + v, pq.hkey p) } : PQ).hscore q =
        pq.hscore q := by
      intro q hq
      have h9 := congrArg Prod.fst (hver1 q)
      rw [if_neg hq] at h9
      exact h9
    have hscorep :
        ({ pq with heap := pq.heap.set p (pq.hscore p + v, pq.hkey p) } : PQ).hscore p =
        pq.hscore p + v := by
      have h9 := congrArg Prod.fst (hver1 p)
      rw [if_pos rfl] at h9
      exact h9
    have hbasic1 :
        ({ pq with heap := pq.heap.set p (pq.hscore p + v, pq.hkey p) } : PQ).Basic := by
      refine ⟨?_, ?_, ?_, ?_⟩
      · show pq.size ≤ (pq.heap.set p _).length
        rw [List.length_set]
        exact hlen
      · intro q hq
        rw [hkey1 q]
        exact hkb q hq
      · intro q hq
        show ({ pq with heap := pq.heap.set p (pq.hscore p + v, pq.hkey p) } : PQ).idx _ =
          Int.ofNat q
        rw [hkey1 q]
        exact hik q hq
      · intro k hk hkne
        obtain ⟨q, hq, hqe, hqk⟩ := hki k hk hkne
        exact ⟨q, hq, hqe, by rw [hkey1 q]; exact hqk⟩
    have hup :
        ({ pq with heap := pq.heap.set p (pq.hscore p + v, pq.hkey p) } : PQ).UpInvAt p := by
      constructor
      · intro j hj hj0 hjp
        rw [hscore1 j hjp]
        by_cases hpar : PQ.parentIdx j = p
        · rw [hpar, hscorep]
          have h5 := hheap j hj hj0
          rw [hpar] at h5
          linarith
        · rw [hscore1 _ hpar]
          exact hheap j hj hj0
      · intro hp0 c hc hc0 hcpar
        have hcgt : p < c := by
          have h7 : 2*p+1 ≤ c := by
            rcases (PQ.parentIdx_eq c p hc0).mp hcpar with h5 | h5 <;> omega
          omega
        have hparp : PQ.parentIdx p < p := by unfold PQ.parentIdx; omega
        rw [hscore1 c (by omega), hscore1 _ (by omega)]
        have h5 := hheap c hc hc0
        rw [hcpar] at h5
        have h6 := hheap p hp hp0
        exact le_trans h5 h6
    constructor
    · exact PQ.bubble_basic p _ p hbasic1 hp
    · exact PQ.bubble_correct p _ p (by rw [List.length_set] at *; exact hlen)
        (le_refl p) hp hup

theorem PQ.add_aux (pq : PQ) (key : Nat) (v : Rat) (heap2 : List (Rat × Nat))
    (hh : ∀ q, heap2.getD q (0, 0) = if q = pq.size then ((0 : Rat), key) else pq.hver q)
    (hhl : pq.size + 1 ≤ heap2.length)
    (h : pq.Inv) (hkey : key < pq.indices.length) (habs : pq.idx key = -1)
    (hv : 0 ≤ v) :
    (PQ.increase_update ⟨heap2, pq.indices.set key (Int.ofNat pq.size), pq.size + 1⟩
      key v).Inv := by
  obtain ⟨⟨hlen, hkb, hik, hki⟩, hheap⟩ := h
  have hidx2 : ∀ k, (⟨heap2, pq.indices.set key (Int.ofNat pq.size),
      pq.size + 1⟩ : PQ).idx k = if k = key then Int.ofNat pq.size else pq.idx k := by
    intro k
    show (pq.indices.set key (Int.ofNat pq.size)).getD k (-1) = _
    by_cases hk : k = key
    · subst hk
      rw [if_pos rfl]
      exact getD_set_self _ _ _ _ hkey
    · rw [if_neg hk, getD_set_ne _ _ _ _ _ (fun hq => hk hq.symm)]
      rfl
  have hkey2 : ∀ q, (⟨heap2, pq.indices.set key (Int.ofNat pq.size),
      pq.size + 1⟩ : PQ).hkey q = if q = pq.size then key else pq.hkey q := by
    intro q
    have h9 := congrArg Prod.snd (hh q)
    by_cases hq : q = pq.size
    · rw [if_pos hq] at h9
      rw [if_pos hq]
      exact h9
    · rw [if_neg hq] at h9
      rw [if_neg hq]
      exact h9
  have hkeyne : ∀ p, p < pq.size → pq.hkey p ≠ key := by
    intro p hp hcon
    have h9 := hik p hp
    rw [hcon, habs] at h9
    have h10 : (-1 : Int) = (p : Int) := h9
    omega
  have hbasic2 : (⟨heap2, pq.indices.set key (Int.ofNat pq.size),
      pq.size + 1⟩ : PQ).Basic := by
    refine ⟨hhl, ?_, ?_, ?_⟩
    · intro p hp
      have hp2 : p < pq.size + 1 := hp
      show _ < (pq.indices.set key (Int.ofNat pq.size)).length
      rw [List.length_set, hkey2 p]
      by_cases hps : p = pq.size
      · rw [if_pos hps]
        exact hkey
      · rw [if_neg hps]
        exact hkb p (by omega)
    · intro p hp
      have hp2 : p < pq.size + 1 := hp
      rw [hkey2 p, hidx2]
      by_cases hps : p = pq.size
      · rw [if_pos hps, if_pos rfl, hps]
      · rw [if_neg hps, if_neg (hkeyne p (by omega))]
        exact hik p (by omega)
    · intro k hk hkne
      have hk2 : k < (pq.indices.set key (Int.ofNat pq.size)).length := hk
      rw [List.length_set] at hk2
      rw [hidx2] at hkne
      rw [hidx2]
      by_cases hkk : k = key
      · refine ⟨pq.size, show pq.size < pq.size + 1 by omega, by rw [if_pos hkk], ?_⟩
        rw [hkey2, if_pos rfl, hkk]
      · rw [if_neg hkk] at hkne
        obtain ⟨p, hp, hpe, hpk⟩ := hki k hk2 hkne
        refine ⟨p, show p < pq.size + 1 by omega, by rw [if_neg hkk]; exact hpe, ?_⟩
        rw [hkey2, if_neg (by omega : p ≠ pq.size)]
        exact hpk
  have hguard2 : ¬((⟨heap2, pq.indices.set key (Int.ofNat pq.size),
      pq.size + 1⟩ : PQ).indices.length ≤ key ∨
      (⟨heap2, pq.indices.set key (Int.ofNat pq.size), pq.size + 1⟩ : PQ).idx key
        = -1) := by
    push_neg
    constructor
    · show key < (pq.indices.set key (Int.ofNat pq.size)).length
      rw [List.length_set]
      exact hkey
    · rw [hidx2, if_pos rfl]
      intro hcon
      have h11 : (pq.size : Int) = -1 := hcon
      omega
  have htn2 : ((⟨heap2, pq.indices.set key (Int.ofNat pq.size),
      pq.size + 1⟩ : PQ).idx key).toNat = pq.size := by
    rw [hidx2, if_pos rfl]
    rfl
  unfold PQ.increase_update
  rw [if_neg hguard2, htn2]
  have hh2 : heap2.getD pq.size (0, 0) = ((0 : Rat), key) := by
    rw [hh pq.size, if_pos rfl]
  show (PQ.bubble_up pq.size
    ⟨heap2.set pq.size ((heap2.getD pq.size (0, 0)).1 + v, (heap2.getD pq.size (0, 0)).2),
     pq.indices.set key (Int.ofNat pq.size), pq.size + 1⟩ pq.size).Inv
  rw [hh2]
  show (PQ.bubble_up pq.size
    ⟨heap2.set pq.size (0 + v, key),
     pq.indices.set key (Int.ofNat pq.size), pq.size + 1⟩ pq.size).Inv
  have hsize_h2 : pq.size < heap2.length := by omega
  have hver4 : ∀ q, (⟨heap2.set pq.size (0 + v, key),
      pq.indices.set key (Int.ofNat pq.size), pq.size + 1⟩ : PQ).hver q =
      if q = pq.size then (0 + v, key) else pq.hver q := by
    intro q
    show (heap2.set pq.size (0 + v, key)).getD q (0, 0) = _
    by_cases hq : q = pq.size
    · subst hq
      rw [if_pos rfl]
      exact getD_set_self _ _ _ _ hsize_h2
    · rw [if_neg hq, getD_set_ne _ _ _ _ _ (fun hq2 => hq hq2.symm), hh q, if_neg hq]
  have hidx4 : ∀ k, (⟨heap2.set pq.size (0 + v, key),
      pq.indices.set key (Int.ofNat pq.size), pq.size + 1⟩ : PQ).idx k =
      if k = key then Int.ofNat pq.size else pq.idx k := fun k => hidx2 k
  have hkey4 : ∀ q, (⟨heap2.set pq.size (0 + v, key),
      pq.indices.set key (Int.ofNat pq.size), pq.size + 1⟩ : PQ).hkey q =
      if q = pq.size then key else pq.hkey q := by
    intro q
    have h9 := congrArg Prod.snd (hver4 q)
    by_cases hq : q = pq.size
    · rw [if_pos hq] at h9
      rw [if_pos hq]
      exact h9
    · rw [if_neg hq] at h9
      rw [if_neg hq]
      exact h9
  have hscore4 : ∀ q, q ≠ pq.size → (⟨heap2.set pq.size (0 + v, key),
      pq.indices.set key (Int.ofNat pq.size), pq.size + 1⟩ : PQ).hscore q =
      pq.hscore q := by
    intro q hq
    have h9 := congrArg Prod.fst (hver4 q)
    rw [if_neg hq] at h9
    exact h9
  have hbasic4 : (⟨heap2.set pq.size (0 + v, key),
      pq.indices.set key (Int.ofNat pq.size), pq.size + 1⟩ : PQ).Basic := by
    refine ⟨?_, ?_, ?_, ?_⟩
    · show pq.size + 1 ≤ (heap2.set pq.size (0 + v, key)).length
      rw [List.length_set]
      exact hhl
    · intro p hp
      have hp2 : p < pq.size + 1 := hp
      show _ < (pq.indices.set key (Int.ofNat pq.size)).length
      rw [List.length_set, hkey4 p]
      by_cases hps : p = pq.size
      · rw [if_pos hps]
        exact hkey
      · rw [if_neg hps]
        exact hkb p (by omega)
    · intro p hp
      have hp2 : p < pq.size + 1 := hp
      rw [hkey4 p, hidx4]
      by_cases hps : p = pq.size
      · rw [if_pos hps, if_pos rfl, hps]
      · rw [if_neg hps, if_neg (hkeyne p (by omega))]
        exact hik p (by omega)
    · intro k hk hkne
      have hk2 : k < (pq.indices.set key (Int.ofNat pq.size)).length := hk
      rw [List.length_set] at hk2
      rw [hidx4] at hkne
      rw [hidx4]
      by_cases hkk : k = key
      · refine ⟨pq.size, show pq.size < pq.size + 1 by omega, by rw [if_pos hkk], ?_⟩
        rw [hkey4, if_pos rfl, hkk]
      · rw [if_neg hkk] at hkne
        obtain ⟨p, hp, hpe, hpk⟩ := hki k hk2 hkne
        refine ⟨p, show p < pq.size + 1 by omega, by rw [if_neg hkk]; exact hpe, ?_⟩
        rw [hkey4, if_neg (by omega : p ≠ pq.size)]
        exact hpk
  have hup4 : (⟨heap2.set pq.size (0 + v, key),
      pq.indices.set key (Int.ofNat pq.size), pq.size + 1⟩ : PQ).UpInvAt pq.size := by
    constructor
    · intro j hj hj0 hjs
      have hj2 : j < pq.size + 1 := hj
      have hjlt : j < pq.size := by omega
      have hpj : PQ.parentIdx j < j := by unfold PQ.parentIdx; omega
      rw [hscore4 j hjs, hscore4 _ (by omega)]
      exact hheap j hjlt hj0
    · intro hs0 c hc hc0 hcpar
      exfalso
      have hc2 : c < pq.size + 1 := hc
      have : 2 * pq.size + 1 ≤ c := by
        rcases (PQ.parentIdx_eq c pq.size hc0).mp hcpar with h5 | h5 <;> omega
      omega
  constructor
  · exact PQ.bubble_basic pq.size _ pq.size hbasic4
      (show pq.size < pq.size + 1 by omega)
  · apply PQ.bubble_correct pq.size _ pq.size
    · show pq.size + 1 ≤ (heap2.set pq.size (0 + v, key)).length
      rw [List.length_set]
      exact hhl
    · exact le_refl _
    · show pq.size < pq.size + 1
      omega
    · exact hup4

theorem PQ.add_inv (pq : PQ) (key : Nat) (v : Rat) (h : pq.Inv)
    (hkey : key < pq.indices.length) (habs : pq.idx key = -1) (hv : 0 ≤ v) :
    (pq.add key v).Inv := by
  by_cases hc : pq.size = pq.heap.length
  · have hresult : pq.add key v =
        PQ.increase_update ⟨pq.heap ++ [((0 : Rat), key)],
          pq.indices.set key (Int.ofNat pq.size), pq.size + 1⟩ key v := by
      unfold PQ.add
      rw [if_pos hc]
    rw [hresult]
    apply PQ.add_aux pq key v _ _ _ h hkey habs hv
    · intro q
      by_cases hq : q = pq.size
      · subst hq
        rw [if_pos rfl, List.getD_eq_getElem?_getD,
          List.getElem?_append_right (by omega), hc]
        simp
      · rw [if_neg hq]
        rcases Nat.lt_or_ge q pq.size with hqlt | hqge
        · rw [List.getD_eq_getElem?_getD, List.getElem?_append,
            if_pos (show q < pq.heap.length by omega)]
          unfold PQ.hver
          rw [List.getD_eq_getElem?_getD]
        · have hq2 : pq.heap.length < q := by omega
          rw [List.getD_eq_getElem?_getD, List.getElem?_eq_none (by simp; omega)]
          show ((0 : Rat), (0 : Nat)) = pq.hver q
          unfold PQ.hver
          rw [List.getD_eq_getElem?_getD, List.getElem?_eq_none (by omega)]
          rfl
    · rw [List.length_append, List.length_singleton]
      omega
  · have hlt : pq.size < pq.heap.length := lt_of_le_of_ne h.1.1 hc
    have hresult : pq.add key v =
        PQ.increase_update ⟨pq.heap.set pq.size ((0 : Rat), key),
          pq.indices.set key (Int.ofNat pq.size), pq.size + 1⟩ key v := by
      unfold PQ.add
      rw [if_neg hc]
    rw [hresult]
    apply PQ.add_aux pq key v _ _ _ h hkey habs hv
    · intro q
      by_cases hq : q = pq.size
      · subst hq
        rw [if_pos rfl]
        exact getD_set_self _ _ _ _ hlt
      · rw [if_neg hq, getD_set_ne _ _ _ _ _ (fun hq2 => hq hq2.symm)]
        rfl
    · rw [List.length_set]
      omega

theorem PQ.remove_inv (pq : PQ) (key : Nat) (h : pq.Inv) : (pq.remove key).Inv := by
  obtain ⟨⟨hlen, hkb, hik, hki⟩, hheap⟩ := h
  by_cases hguard : pq.indices.length ≤ key ∨ pq.idx key = -1
  · unfold PQ.remove
    rw [if_pos hguard]
    exact ⟨⟨hlen, hkb, hik, hki⟩, hheap⟩
  · have hguard2 := hguard
    push_neg at hguard2
    obtain ⟨hkey, hne⟩ := hguard2
    obtain ⟨p, hp, hpe, hpk⟩ := hki key (by omega) hne
    have htn : (pq.idx key).toNat = p := by rw [hpe]; rfl
    have hs1 : 1 ≤ pq.size := by omega
    set pq1 := pq.swap_nodes p (pq.size - 1) with hpq1
    set pq2 : PQ := ⟨pq1.heap, pq1.indices.set key (-1), pq.size - 1⟩ with hpq2
    have hresult : pq.remove key =
        if p < pq2.size then
          (if pq.hscore p < pq2.hscore p then PQ.bubble_up p pq2 p
           else PQ.heapify pq2.size pq2 p)
        else pq2 := by
      unfold PQ.remove
      rw [if_neg hguard, htn]
    have hbasic1 : pq1.Basic :=
      PQ.swap_basic pq p (pq.size - 1) ⟨hlen, hkb, hik, hki⟩ hp (by omega)
    have hsize1 : pq1.size = pq.size := PQ.swap_size pq p (pq.size - 1)
    have hheaplen1 : pq1.heap.length = pq.heap.length := PQ.swap_heap_length _ _ _
    have hidxlen1 : pq1.indices.length = pq.indices.length := PQ.swap_indices_length _ _ _
    have hph : p < pq.heap.length := by omega
    have hlasth : pq.size - 1 < pq.heap.length := by omega
    have hver1 := PQ.swap_hver pq p (pq.size - 1) hph hlasth
    have hkey1 := PQ.swap_hkey pq p (pq.size - 1) hph hlasth
    have hscored1 := PQ.swap_hscore pq p (pq.size - 1) hph hlasth
    have hkeylast : pq1.hkey (pq.size - 1) = key := by
      rw [hkey1 (pq.size - 1), if_pos rfl, hpk]
    have hpq2size : pq2.size = pq.size - 1 := rfl
    have hpq2idxlen : pq2.indices.length = pq.indices.length := by
      show (pq1.indices.set key (-1)).length = _
      rw [List.length_set, hidxlen1]
    have hkey2 : ∀ q, pq2.hkey q = pq1.hkey q := fun q => rfl
    have hscore2 : ∀ q, pq2.hscore q = pq1.hscore q := fun q => rfl
    have hidx2 : ∀ k, pq2.idx k = if k = key then -1 else pq1.idx k := by
      intro k
      show (pq1.indices.set key (-1)).getD k (-1) = _
      by_cases hk : k = key
      · subst hk
        rw [if_pos rfl]
        exact getD_set_self _ _ _ _ (by rw [hidxlen1]; exact hkey)
      · rw [if_neg hk, getD_set_ne _ _ _ _ _ (fun hq => hk hq.symm)]
        rfl
    have hbasic2 : pq2.Basic := by
      refine ⟨?_, ?_, ?_, ?_⟩
      · show pq.size - 1 ≤ pq1.heap.length
        omega
      · intro q hq
        have hq2 : q < pq.size - 1 := hq
        rw [hpq2idxlen, hkey2 q]
        have h9 := hbasic1.2.1 q (by omega)
        rw [hidxlen1] at h9
        exact h9
      · intro q hq
        have hq2 : q < pq.size - 1 := hq
        rw [hkey2 q, hidx2]
        have hkne : pq1.hkey q ≠ key := by
          intro hcon
          rw [← hkeylast] at hcon
          have h9 := PQ.key_inj pq1 hbasic1 q (pq.size - 1) (by omega) (by omega) hcon
          omega
        rw [if_neg hkne]
        exact hbasic1.2.2.1 q (by omega)
      · intro k hk hkne2
        have hk2 : k < pq.indices.length := by rw [← hpq2idxlen]; exact hk
        rw [hidx2] at hkne2
        by_cases hkk : k = key
        · rw [if_pos hkk] at hkne2
          exact absurd rfl hkne2
        · rw [if_neg hkk] at hkne2
          obtain ⟨q, hq, hqe, hqk⟩ := hbasic1.2.2.2 k (by omega) hkne2
          have hqlast : q ≠ pq.size - 1 := by
            intro hcon
            rw [hcon, hkeylast] at hqk
            exact hkk hqk.symm
          refine ⟨q, ?_, ?_, ?_⟩
          · show q < pq.size - 1
            omega
          · rw [hidx2, if_neg hkk]
            exact hqe
          · rw [hkey2 q]
            exact hqk
    rw [hresult]
    by_cases hpos : p < pq2.size
    · have hpos2 : p < pq.size - 1 := hpos
      have hrepl : pq2.hscore p = pq.hscore (pq.size - 1) := by
        rw [hscore2 p, hscored1 p, if_neg (by omega : p ≠ pq.size - 1), if_pos rfl]
      have hsc2_other : ∀ q, q ≠ p → q < pq.size - 1 → pq2.hscore q = pq.hscore q := by
        intro q h1 h2
        rw [hscore2 q, hscored1 q, if_neg (by omega : q ≠ pq.size - 1), if_neg h1]
      rw [if_pos hpos]
      split
      · rename_i hlt
        -- replacement score exceeds the removed score: sift up
        constructor
        · exact PQ.bubble_basic p pq2 p hbasic2 hpos
        · apply PQ.bubble_correct p pq2 p
          · show pq.size - 1 ≤ pq1.heap.length
            omega
          · exact le_refl p
          · exact hpos
          · constructor
            · intro j hj hj0 hjp
              have hj2 : j < pq.size - 1 := hj
              have hpj : PQ.parentIdx j < j := by unfold PQ.parentIdx; omega
              rw [hsc2_other j hjp (by omega)]
              by_cases hpar : PQ.parentIdx j = p
              · rw [hpar, hrepl]
                have h9 := hheap j (by omega) hj0
                rw [hpar] at h9
                have h10 : pq.hscore p < pq.hscore (pq.size - 1) := by
                  rw [hrepl] at hlt
                  exact hlt
                linarith
              · rw [hsc2_other _ hpar (by omega)]
                exact hheap j (by omega) hj0
            · intro hp0 c hc hc0 hcpar
              have hc2 : c < pq.size - 1 := hc
              have hcgt : p < c := by
                have h9 : 2*p+1 ≤ c := by
                  rcases (PQ.parentIdx_eq c p hc0).mp hcpar with h5 | h5 <;> omega
                omega
              have hparp : PQ.parentIdx p < p := by unfold PQ.parentIdx; omega
              rw [hsc2_other c (by omega) (by omega),
                hsc2_other _ (by omega) (by omega)]
              have h9 := hheap c (by omega) hc0
              rw [hcpar] at h9
              have h10 := hheap p (by omega) hp0
              exact le_trans h9 h10
      · rename_i hnlt
        -- replacement is not larger: sift down
        constructor
        · exact PQ.heapify_basic pq2.size pq2 p hbasic2
        · apply PQ.heapify_all pq2.size pq2 p
          · show pq.size - 1 ≤ pq1.heap.length
            omega
          · exact Nat.sub_le _ _
          · constructor
            · intro j hj hj0 hjpar
              have hj2 : j < pq.size - 1 := hj
              have hpj : PQ.parentIdx j < j := by unfold PQ.parentIdx; omega
              by_cases hjp : j = p
              · have hp0 : 0 < p := by omega
                have hparp_lt : PQ.parentIdx p < p := by unfold PQ.parentIdx; omega
                have hparp2 : PQ.parentIdx p < pq.size - 1 := by omega
                rw [hjp, hrepl, hsc2_other (PQ.parentIdx p) (by omega) hparp2]
                have h9 : pq2.hscore p ≤ pq.hscore p := not_lt.mp hnlt
                rw [hrepl] at h9
                have h10 := hheap p (by omega) hp0
                exact le_trans h9 h10
              · rw [hsc2_other j hjp (by omega), hsc2_other _ hjpar (by omega)]
                exact hheap j (by omega) hj0
            · intro hp0 c hc hc0 hcpar
              have hc2 : c < pq.size - 1 := hc
              have hcgt : p < c := by
                have h9 : 2*p+1 ≤ c := by
                  rcases (PQ.parentIdx_eq c p hc0).mp hcpar with h5 | h5 <;> omega
                omega
              have hparp : PQ.parentIdx p < p := by unfold PQ.parentIdx; omega
              rw [hsc2_other c (by omega) (by omega),
                hsc2_other _ (by omega) (by omega)]
              have h9 := hheap c (by omega) hc0
              rw [hcpar] at h9
              have h10 := hheap p (by omega) hp0
              exact le_trans h9 h10
    · rw [if_neg hpos]
      have hpeq : p = pq.size - 1 := by
        have h9 : ¬ p < pq.size - 1 := hpos
        omega
      refine ⟨hbasic2, ?_⟩
      intro j hj hj0
      have hj2 : j < pq.size - 1 := hj
      have hpj : PQ.parentIdx j < j := by unfold PQ.parentIdx; omega
      have hsc_eq : ∀ q, q < pq.size - 1 → pq2.hscore q = pq.hscore q := by
        intro q hq
        rw [hscore2 q, hscored1 q, if_neg (by omega : q ≠ pq.size - 1),
          if_neg (by omega : q ≠ p)]
      rw [hsc_eq j (by omega), hsc_eq _ (by omega)]
      exact hheap j (by omega) hj0

theorem PQ.get_top_inv (pq : PQ) (h : pq.Inv) : (PQ.get_top pq).2.Inv := by
  obtain ⟨⟨hlen, hkb, hik, hki⟩, hheap⟩ := h
  by_cases hsz : pq.size = 0
  · unfold PQ.get_top
    rw [if_pos hsz]
    exact ⟨⟨hlen, hkb, hik, hki⟩, hheap⟩
  · set pq1 := pq.swap_nodes 0 (pq.size - 1) with hpq1
    set pq2 : PQ :=
      ⟨pq1.heap, pq1.indices.set (pq1.hkey (pq.size - 1)) (-1), pq.size - 1⟩ with hpq2
    have hresult : (PQ.get_top pq).2 =
        if 0 < pq2.size then PQ.heapify pq2.size pq2 0 else pq2 := by
      unfold PQ.get_top
      rw [if_neg hsz]
    have hs1 : 1 ≤ pq.size := by omega
    have hbasic1 : pq1.Basic :=
      PQ.swap_basic pq 0 (pq.size - 1) ⟨hlen, hkb, hik, hki⟩ (by omega) (by omega)
    have hsize1 : pq1.size = pq.size := PQ.swap_size pq 0 (pq.size - 1)
    have hheaplen1 : pq1.heap.length = pq.heap.length := PQ.swap_heap_length _ _ _
    have hidxlen1 : pq1.indices.length = pq.indices.length := PQ.swap_indices_length _ _ _
    have h0h : 0 < pq.heap.length := by omega
    have hlasth : pq.size - 1 < pq.heap.length := by omega
    have hkey1 := PQ.swap_hkey pq 0 (pq.size - 1) h0h hlasth
    have hscored1 := PQ.swap_hscore pq 0 (pq.size - 1) h0h hlasth
    have hkeylast : pq1.hkey (pq.size - 1) = pq.hkey 0 := by
      rw [hkey1 (pq.size - 1), if_pos rfl]
    have hkeylastlen : pq1.hkey (pq.size - 1) < pq1.indices.length := by
      rw [hkeylast, hidxlen1]
      exact hkb 0 (by omega)
    have hpq2size : pq2.size = pq.size - 1 := rfl
    have hpq2idxlen : pq2.indices.length = pq.indices.length := by
      show (pq1.indices.set _ (-1)).length = _
      rw [List.length_set, hidxlen1]
    have hkey2 : ∀ q, pq2.hkey q = pq1.hkey q := fun q => rfl
    have hscore2 : ∀ q, pq2.hscore q = pq1.hscore q := fun q => rfl
    have hidx2 : ∀ k, pq2.idx k =
        if k = pq1.hkey (pq.size - 1) then -1 else pq1.idx k := by
      intro k
      show (pq1.indices.set (pq1.hkey (pq.size - 1)) (-1)).getD k (-1) = _
      by_cases hk : k = pq1.hkey (pq.size - 1)
      · subst hk
        rw [if_pos rfl]
        exact getD_set_self _ _ _ _ hkeylastlen
      · rw [if_neg hk, getD_set_ne _ _ _ _ _ (fun hq => hk hq.symm)]
        rfl
    have hbasic2 : pq2.Basic := by
      refine ⟨?_, ?_, ?_, ?_⟩
      · show pq.size - 1 ≤ pq1.heap.length
        omega
      · intro q hq
        have hq2 : q < pq.size - 1 := hq
        rw [hpq2idxlen, hkey2 q]
        have h9 := hbasic1.2.1 q (by omega)
        rw [hidxlen1] at h9
        exact h9
      · intro q hq
        have hq2 : q < pq.size - 1 := hq
        rw [hkey2 q, hidx2]
        have hkne : pq1.hkey q ≠ pq1.hkey (pq.size - 1) := by
          intro hcon
          have h9 := PQ.key_inj pq1 hbasic1 q (pq.size - 1) (by omega) (by omega) hcon
          omega
        rw [if_neg hkne]
        exact hbasic1.2.2.1 q (by omega)
      · intro k hk hkne2
        have hk2 : k < pq.indices.length := by rw [← hpq2idxlen]; exact hk
        rw [hidx2] at hkne2
        by_cases hkk : k = pq1.hkey (pq.size - 1)
        · rw [if_pos hkk] at hkne2
          exact absurd rfl hkne2
        · rw [if_neg hkk] at hkne2
          obtain ⟨q, hq, hqe, hqk⟩ := hbasic1.2.2.2 k (by omega) hkne2
          have hqlast : q ≠ pq.size - 1 := by
            intro hcon
            rw [hcon] at hqk
            exact hkk hqk.symm
          refine ⟨q, ?_, ?_, ?_⟩
          · show q < pq.size - 1
            omega
          · rw [hidx2, if_neg hkk]
            exact hqe
          · rw [hkey2 q]
            exact hqk
    rw [hresult]
    by_cases hpos : 0 < pq2.size
    · have hpos2 : 0 < pq.size - 1 := hpos
      rw [if_pos hpos]
      have hsc_eq : ∀ q, q ≠ 0 → q < pq.size - 1 → pq2.hscore q = pq.hscore q := by
        intro q h1 h2
        rw [hscore2 q, hscored1 q, if_neg (by omega : q ≠ pq.size - 1), if_neg h1]
      constructor
      · exact PQ.heapify_basic pq2.size pq2 0 hbasic2
      · apply PQ.heapify_all pq2.size pq2 0
        · show pq.size - 1 ≤ pq1.heap.length
          omega
        · exact Nat.sub_le _ _
        · constructor
          · intro j hj hj0 hjpar
            have hj2 : j < pq.size - 1 := hj
            have hpj : PQ.parentIdx j < j := by unfold PQ.parentIdx; omega
            rw [hsc_eq j (by omega) (by omega), hsc_eq _ hjpar (by omega)]
            exact hheap j (by omega) hj0
          · intro h00
            exact absurd h00 (lt_irrefl 0)
    · rw [if_neg hpos]
      refine ⟨hbasic2, ?_⟩
      intro j hj hj0
      have hj2 : j < pq.size - 1 := hj
      omega

theorem getD_map_range {α : Type} (f : Nat → α) (n i : Nat) (d : α) (h : i < n) :
    ((List.range n).map f).getD i d = f i := by
  rw [List.getD_eq_getElem?_getD, List.getElem?_map, List.getElem?_range h]
  rfl

theorem getD_map_range_ge {α : Type} (f : Nat → α) (n i : Nat) (d : α) (h : n ≤ i) :
    ((List.range n).map f).getD i d = d := by
  rw [List.getD_eq_getElem?_getD, List.getElem?_eq_none (by simpa using h)]
  rfl

theorem PQ.heapFrom_zero (pq : PQ) (h : pq.HeapFrom 0) : pq.IsHeap :=
  fun j hj hj0 => h j hj hj0 (Nat.zero_le _)

theorem PQ.buildLoop_inv : ∀ (k : Nat) (pq : PQ),
    pq.Basic → pq.HeapFrom k →
    (PQ.buildLoop k pq).Basic ∧ (PQ.buildLoop k pq).HeapFrom 0 := by
  intro k
  induction k with
  | zero => intro pq hb hh; exact ⟨hb, hh⟩
  | succ k ih =>
    intro pq hb hh
    show (PQ.buildLoop k (PQ.heapify pq.size pq k)).Basic ∧
      (PQ.buildLoop k (PQ.heapify pq.size pq k)).HeapFrom 0
    apply ih
    · exact PQ.heapify_basic _ _ _ hb
    · apply PQ.heapify_from
      · exact hb.1
      · exact Nat.sub_le _ _
      · intro j hj hj0 hpar hpne
        exact hh j hj hj0 (by omega)

theorem PQ.init_inv (sl : List Rat) (mx : Nat) (hmx : sl.length ≤ mx + 1) :
    (PQ.init sl mx).Inv := by
  set n := sl.length - 1 with hn
  set heap0 := (List.range n).map (fun j => (sl.getD (j+1) 0, j+1)) with hheap0
  set ind0 := (List.range (mx + 1)).map
      (fun k => if 1 ≤ k ∧ k < sl.length then (Int.ofNat (k-1)) else (-1 : Int))
    with hind0
  have hresult : PQ.init sl mx = PQ.buildLoop (n / 2) ⟨heap0, ind0, n⟩ := by
    unfold PQ.init
    rfl
  have hlen0 : heap0.length = n := by
    rw [hheap0]
    simp
  have hilen0 : ind0.length = mx + 1 := by
    rw [hind0]
    simp
  have hver0 : ∀ p, p < n → (⟨heap0, ind0, n⟩ : PQ).hver p = (sl.getD (p+1) 0, p+1) := by
    intro p hp
    show heap0.getD p (0, 0) = _
    rw [hheap0]
    exact getD_map_range _ n p _ hp
  have hkey0 : ∀ p, p < n → (⟨heap0, ind0, n⟩ : PQ).hkey p = p + 1 := by
    intro p hp
    have h9 := congrArg Prod.snd (hver0 p hp)
    exact h9
  have hidx0 : ∀ k, (⟨heap0, ind0, n⟩ : PQ).idx k =
      if 1 ≤ k ∧ k < sl.length then Int.ofNat (k-1) else -1 := by
    intro k
    show ind0.getD k (-1) = _
    rcases Nat.lt_or_ge k (mx + 1) with hk | hk
    · rw [hind0]
      exact getD_map_range _ _ k _ hk
    · rw [hind0, getD_map_range_ge _ _ k _ (by omega)]
      have hout : ¬(1 ≤ k ∧ k < sl.length) := by omega
      rw [if_neg hout]
  have hbasic0 : (⟨heap0, ind0, n⟩ : PQ).Basic := by
    refine ⟨?_, ?_, ?_, ?_⟩
    · show n ≤ heap0.length
      rw [hlen0]
    · intro p hp
      have hp2 : p < n := hp
      show _ < ind0.length
      rw [hkey0 p hp2, hilen0]
      omega
    · intro p hp
      have hp2 : p < n := hp
      rw [hkey0 p hp2, hidx0]
      rw [if_pos (by omega : 1 ≤ p + 1 ∧ p + 1 < sl.length)]
      simp
    · intro k hk hkne
      have hk2 : k < mx + 1 := by rw [← hilen0]; exact hk
      rw [hidx0] at hkne
      by_cases hcond : 1 ≤ k ∧ k < sl.length
      · refine ⟨k - 1, ?_, ?_, ?_⟩
        · show k - 1 < n
          omega
        · rw [hidx0, if_pos hcond]
        · rw [hkey0 (k-1) (by omega)]
          omega
      · rw [if_neg hcond] at hkne
        exact absurd rfl hkne
  have hfrom0 : (⟨heap0, ind0, n⟩ : PQ).HeapFrom (n / 2) := by
    intro j hj hj0 hpar
    exfalso
    have hj2 : j < n := hj
    have : PQ.parentIdx j = (j - 1) / 2 := rfl
    rw [this] at hpar
    omega
  rw [hresult]
  obtain ⟨hb, hf⟩ := PQ.buildLoop_inv (n / 2) ⟨heap0, ind0, n⟩ hbasic0 hfrom0
  exact ⟨hb, PQ.heapFrom_zero _ hf⟩

/-- C7: every PriorityQueue operation (init, get_top, increase_update,
remove, add) preserves invariants PQ1 (an `indices` entry that is not `-1`
points to the live heap slot holding that key, and every live heap slot is
pointed back to) and PQ2 (the first `size` heap entries form a binary
max-heap on score); in particular remove's repair after swapping the last
element into the hole — sift up when the moved element's score exceeds the
removed element's score, otherwise sift down — restores the max-heap
property, and init establishes the invariants. -/
theorem claim_C7_priority_queue_invariants :
    (∀ (sl : List Rat) (mx : Nat), sl.length ≤ mx + 1 → (PQ.init sl mx).Inv) ∧
    (∀ pq : PQ, pq.Inv → (PQ.get_top pq).2.Inv) ∧
    (∀ (pq : PQ) (k : Nat) (v : Rat), pq.Inv → 0 ≤ v → (pq.increase_update k v).Inv) ∧
    (∀ (pq : PQ) (k : Nat), pq.Inv → (pq.remove k).Inv) ∧
    (∀ (pq : PQ) (k : Nat) (v : Rat), pq.Inv → k < pq.indices.length →
      pq.idx k = -1 → 0 ≤ v → (pq.add k v).Inv) :=
  ⟨PQ.init_inv,
   PQ.get_top_inv,
   fun pq k v h hv => PQ.increase_update_inv pq k v h hv,
   fun pq k h => PQ.remove_inv pq k h,
   fun pq k v h h1 h2 hv => PQ.add_inv pq k v h h1 h2 hv⟩

/-- Witness for C7: a concrete three-element queue satisfying the invariant,
and the invariant after removing the key at an interior position. -/
theorem claim_C7_witness :
    PQ.Inv ⟨[(5, 1), (3, 2), (4, 3)], [-1, 0, 1, 2], 3⟩ ∧
    (PQ.remove ⟨[(5, 1), (3, 2), (4, 3)], [-1, 0, 1, 2], 3⟩ 2).Inv :=
  ⟨by decide, claim_C7_priority_queue_invariants.2.2.2.1 _ 2 (by decide)⟩

/-! ### Claim C9: exit codes -/

/-- C9 (code_bug): the spec requires a nonzero exit code when the input file
cannot be opened, but `SAT::solve` catches the file-open exception thrown by
`read_dimacs_cnf_file` and returns normally (lines 829-834), so `main`
reaches its final `return 0`: with 5 arguments and the valid configuration
`ORDERED`/`None`, the exit code is 0 even when the file does not open.
Argument errors and an invalid configuration do exit with 1, as specified. -/
theorem claim_C9_exit_code_on_file_error :
    main_exit_code 5 "ORDERED" "None" false = 0 ∧
    main_exit_code 4 "ORDERED" "None" true = 1 ∧
    main_exit_code 5 "BOGUS" "None" true = 1 := by decide

/-! ### Claim C10: VSIDS priority-queue keys -/

/-- C10 (code_bug): `PriorityQueue::init` seeded from the literal-score
array (of size `2N + 2`) inserts the keys `1 .. 2N + 1`, not `1 .. 2N`.  On
`p cnf 1 1` with the unit clause `1` (so `N = 1`), after reading, the bogus
key `3 = 2N + 1` is the only live key in the queue; `decide` pops it and
decodes variable `3 - N = 2 > N`, so the subsequent accesses to the
per-variable arrays (`_is_var_assigned`, `_variable_to_assignment_nodes`,
both of length `N + 1 = 2`) are out of bounds in the C++. -/
theorem claim_C10_vsids_key_out_of_range :
    (read_dimacs "VSIDS" "None" 1 [[1]]).num_vars = 1 ∧
    (read_dimacs "VSIDS" "None" 1 [[1]]).is_var_assigned.length = 2 ∧
    (read_dimacs "VSIDS" "None" 1 [[1]]).pq.size = 1 ∧
    (read_dimacs "VSIDS" "None" 1 [[1]]).pq.hkey 0 = 3 ∧
    (SAT.decide (read_dimacs "VSIDS" "None" 1 [[1]])).2 = 2 := by decide

/-! ### Claim C6, counterexample -/

/-- C6 counterexample: `backtrack` does not leave saved phases unchanged.
With the MINISAT decider, installing the pending node sets the variable's
saved phase to the pushed value (cdcl_solver.cpp line 818): backjumping the
freshly initialised 2-variable MINISAT solver to level 0 with the pending
node `x1 := true` flips `phase[1]` from 0 to 1. -/
theorem claim_C6_counterexample :
    (initState "MINISAT" "None" 2).phase.getD 1 0 = 0 ∧
    (SAT.backtrack (initState "MINISAT" "None" 2) 0
      (some ⟨1, true, 0, 5, -1⟩)).phase.getD 1 0 = 1 := by decide

/-! ### Claim C5: restart policy -/

/-- C5: with a restarter configured, each conflict detected during BCP
increments the conflict counter (BCP returns CONFLICT while the incremented
counter stays below the threshold); once the counter reaches the threshold
BCP returns RESTART instead, the counter resets to 0 and the threshold
advances — multiplied by 2 for GEOMETRIC (initial threshold 512,
multiplier 2), `512 ×` the next Luby number for LUBY (initial threshold
`512 × luby(1)`).  Concretely, the GEOMETRIC run `exRestartState` at
counter 511 and threshold 512 restarts with threshold 1024. -/
theorem claim_C5_restart_policy :
    (∀ d nv, (initState d "GEOMETRIC" nv).conflict_limit = 512 ∧
      (initState d "GEOMETRIC" nv).limit_mult = 2) ∧
    (∀ d nv, (initState d "LUBY" nv).conflict_limit = 512 * lubyOut 1) ∧
    (∀ s : SAT, s.restarter ≠ "None" →
      s.conflicts_before_restart + 1 < s.conflict_limit →
      handle_conflict_restart s =
        ({ s with conflicts_before_restart := s.conflicts_before_restart + 1 }, false)) ∧
    (∀ s : SAT, s.restarter = "GEOMETRIC" →
      s.conflict_limit ≤ s.conflicts_before_restart + 1 →
      handle_conflict_restart s =
        ({ s with restarts := s.restarts + 1, conflicts_before_restart := 0,
                  conflict_limit := s.conflict_limit * s.limit_mult }, true)) ∧
    (∀ s : SAT, s.restarter = "LUBY" →
      s.conflict_limit ≤ s.conflicts_before_restart + 1 →
      handle_conflict_restart s =
        ({ s with restarts := s.restarts + 1, conflicts_before_restart := 0,
                  conflict_limit := s.luby_base * (get_next_luby_number s.luby).1,
                  luby := (get_next_luby_number s.luby).2 }, true)) ∧
    ((exRestartState.boolean_constraint_propogation 30 false).2 = some "RESTART" ∧
      (exRestartState.boolean_constraint_propogation 30 false).1.conflicts_before_restart = 0 ∧
      (exRestartState.boolean_constraint_propogation 30 false).1.conflict_limit = 1024 ∧
      (exRestartState.boolean_constraint_propogation 30 false).1.restarts = 1 ∧
      exRestartState.conflict_limit = 512 ∧ exRestartState.conflicts_before_restart = 511) := by
  refine ⟨?_, ?_, ?_, ?_, ?_, by decide⟩
  · intro d nv
    constructor
    · show (if ("GEOMETRIC" : String) = "GEOMETRIC" then 512
        else if ("GEOMETRIC" : String) = "LUBY" then
          512 * (get_next_luby_number LubyState.reset).1 else 0) = 512
      rw [if_pos rfl]
    · rfl
  · intro d nv
    show (if ("LUBY" : String) = "GEOMETRIC" then 512
        else if ("LUBY" : String) = "LUBY" then
          512 * (get_next_luby_number LubyState.reset).1 else 0) = 512 * lubyOut 1
    rw [if_neg (by decide), if_pos rfl]
    rfl
  · intro s h1 h2
    unfold handle_conflict_restart
    rw [if_neg h1, if_neg (by omega)]
  · intro s h1 h2
    unfold handle_conflict_restart
    rw [if_neg (by rw [h1]; decide), if_pos h2]
    have h1' : ({ s with restarts := s.restarts + 1, conflicts_before_restart := 0 } : SAT).restarter = "GEOMETRIC" := h1
    rw [if_pos h1']
  · intro s h1 h2
    unfold handle_conflict_restart
    rw [if_neg (by rw [h1]; decide), if_pos h2]
    have h1' : ({ s with restarts := s.restarts + 1, conflicts_before_restart := 0 } : SAT).restarter = "LUBY" := h1
    rw [if_neg (by rw [h1']; decide), if_pos h1']

/-- Witness for C5: the GEOMETRIC threshold-advance case applied to the
concrete state `exRestartState`. -/
theorem claim_C5_witness :
    exRestartState.restarter = "GEOMETRIC" ∧
    exRestartState.conflict_limit ≤ exRestartState.conflicts_before_restart + 1 ∧
    handle_conflict_restart exRestartState =
      ({ exRestartState with restarts := exRestartState.restarts + 1, conflicts_before_restart := 0, conflict_limit := exRestartState.conflict_limit * exRestartState.limit_mult }, true) :=
  ⟨by decide, by decide, claim_C5_restart_policy.2.2.2.1 exRestartState (by decide) (by decide)⟩

/-! ### Claim C8: score bumps -/

/-- A fold invariant: any property preserved by each step holds of the
result. -/
theorem foldl_invariant {α β : Type} (f : α → β → α) (P : α → Prop)
    (hf : ∀ a x, P a → P (f a x)) : ∀ (l : List β) (a : α), P a → P (List.foldl f a l)
  | [], _, ha => ha
  | x :: t, a, ha => foldl_invariant f P hf t (f a x) (hf a x ha)

/-- Pointwise effect of the VSIDS bump fold on `lit_scores`, with frame
facts. -/
theorem vsids_bump_fold (l0 : Nat) :
    ∀ (w : List Nat) (s : SAT), w.Nodup →
      (List.foldl vsids_bump_step s w).lit_scores.getD l0 0 =
        s.lit_scores.getD l0 0 +
          (if l0 ∈ w ∧ l0 < s.lit_scores.length then s.incr else 0) ∧
      (List.foldl vsids_bump_step s w).incr = s.incr ∧
      (List.foldl vsids_bump_step s w).var_scores = s.var_scores ∧
      (List.foldl vsids_bump_step s w).lit_scores.length = s.lit_scores.length
  | [], s, _ => by simp
  | x :: t, s, hnd => by
    have hx : x ∉ t := (List.nodup_cons.mp hnd).1
    have ht : t.Nodup := (List.nodup_cons.mp hnd).2
    have hstep : List.foldl vsids_bump_step s (x :: t) =
        List.foldl vsids_bump_step (vsids_bump_step s x) t := rfl
    obtain ⟨h1, h2, h3, h4⟩ := vsids_bump_fold l0 t (vsids_bump_step s x) ht
    rw [hstep, h1, h2, h3, h4]
    have hincr : (vsids_bump_step s x).incr = s.incr := rfl
    have hvs : (vsids_bump_step s x).var_scores = s.var_scores := rfl
    have hlen : (vsids_bump_step s x).lit_scores.length = s.lit_scores.length := by
      show (s.lit_scores.set x _).length = _
      rw [List.length_set]
    rw [hincr, hvs, hlen]
    refine ⟨?_, rfl, rfl, rfl⟩
    by_cases hmem : l0 = x
    · subst hmem
      rw [if_neg (fun hc => hx hc.1)]
      by_cases hlt : l0 < s.lit_scores.length
      · have hset : (vsids_bump_step s l0).lit_scores.getD l0 0 =
            s.lit_scores.getD l0 0 + s.incr := by
          show ((s.lit_scores.set l0 _).getD l0 0) = _
          rw [getD_set_self _ _ _ _ hlt]
        rw [hset, if_pos ⟨List.mem_cons_self l0 t, hlt⟩, add_zero]
      · have hoob : s.lit_scores.length ≤ l0 := Nat.le_of_not_lt hlt
        have hset : (vsids_bump_step s l0).lit_scores.getD l0 0 =
            s.lit_scores.getD l0 0 := by
          show ((s.lit_scores.set l0 _).getD l0 0) = _
          rw [List.set_eq_of_length_le hoob]
        rw [hset, if_neg (fun hc => hlt hc.2), add_zero]
    · have hset : (vsids_bump_step s x).lit_scores.getD l0 0 = s.lit_scores.getD l0 0 := by
        show ((s.lit_scores.set x _).getD l0 0) = _
        exact getD_set_ne _ _ _ _ _ (fun h => hmem (h ▸ rfl))
      rw [hset]
      by_cases hmt : l0 ∈ t ∧ l0 < s.lit_scores.length
      · rw [if_pos hmt, if_pos ⟨List.mem_cons_of_mem x hmt.1, hmt.2⟩]
      · rw [if_neg hmt, if_neg (fun hc => hmt ⟨(List.mem_cons.mp hc.1).resolve_left hmem, hc.2⟩)]

/-- Pointwise effect of the MINISAT bump fold on `var_scores`, with frame
facts. -/
theorem minisat_bump_fold (v0 nv : Nat) :
    ∀ (w : List Nat) (s : SAT), s.num_vars = nv →
      (w.map (get_var_from_literal nv)).Nodup →
      (List.foldl minisat_bump_step s w).var_scores.getD v0 0 =
        s.var_scores.getD v0 0 +
          (if v0 ∈ w.map (get_var_from_literal nv) ∧ v0 < s.var_scores.length
           then s.incr else 0) ∧
      (List.foldl minisat_bump_step s w).incr = s.incr ∧
      (List.foldl minisat_bump_step s w).lit_scores = s.lit_scores ∧
      (List.foldl minisat_bump_step s w).var_scores.length = s.var_scores.length ∧
      (List.foldl minisat_bump_step s w).decay = s.decay
  | [], s, _, _ => by simp
  | x :: t, s, hnv, hnd => by
    have hnd' : (get_var_from_literal nv x :: t.map (get_var_from_literal nv)).Nodup := by
      simpa only [List.map_cons] using hnd
    have hx : get_var_from_literal nv x ∉ t.map (get_var_from_literal nv) :=
      (List.nodup_cons.mp hnd').1
    have ht : (t.map (get_var_from_literal nv)).Nodup := (List.nodup_cons.mp hnd').2
    have hstep : List.foldl minisat_bump_step s (x :: t) =
        List.foldl minisat_bump_step (minisat_bump_step s x) t := rfl
    have hnv' : (minisat_bump_step s x).num_vars = nv := hnv
    obtain ⟨h1, h2, h3, h4, h5⟩ := minisat_bump_fold v0 nv t (minisat_bump_step s x) hnv' ht
    rw [hstep, h1, h2, h3, h4, h5]
    have hincr : (minisat_bump_step s x).incr = s.incr := rfl
    have hls : (minisat_bump_step s x).lit_scores = s.lit_scores := rfl
    have hdec : (minisat_bump_step s x).decay = s.decay := rfl
    have hlen : (minisat_bump_step s x).var_scores.length = s.var_scores.length := by
      show (s.var_scores.set _ _).length = _
      rw [List.length_set]
    rw [hincr, hls, hdec, hlen]
    refine ⟨?_, rfl, rfl, rfl, rfl⟩
    have hxv : get_var_from_literal s.num_vars x = get_var_from_literal nv x := by rw [hnv]
    have hhead : get_var_from_literal nv x ∈ (x :: t).map (get_var_from_literal nv) := by
      simp
    by_cases hmem : v0 = get_var_from_literal nv x
    · rw [if_neg (fun hc => hx (hmem ▸ hc.1))]
      by_cases hlt : v0 < s.var_scores.length
      · have hset : (minisat_bump_step s x).var_scores.getD v0 0 =
            s.var_scores.getD v0 0 + s.incr := by
          show ((s.var_scores.set (get_var_from_literal s.num_vars x) _).getD v0 0) = _
          rw [hxv, ← hmem, getD_set_self _ _ _ _ hlt]
        rw [hset, if_pos ⟨hmem.symm ▸ hhead, hlt⟩, add_zero]
      · have hoob : s.var_scores.length ≤ v0 := Nat.le_of_not_lt hlt
        have hset : (minisat_bump_step s x).var_scores.getD v0 0 = s.var_scores.getD v0 0 := by
          show ((s.var_scores.set (get_var_from_literal s.num_vars x) _).getD v0 0) = _
          rw [hxv, ← hmem, List.set_eq_of_length_le hoob]
        rw [hset, if_neg (fun hc => hlt hc.2), add_zero]
    · have hset : (minisat_bump_step s x).var_scores.getD v0 0 = s.var_scores.getD v0 0 := by
        show ((s.var_scores.set (get_var_from_literal s.num_vars x) _).getD v0 0) = _
        rw [hxv]
        exact getD_set_ne _ _ _ _ _ (fun h => hmem (h ▸ rfl))
      rw [hset]
      have hiff : v0 ∈ (x :: t).map (get_var_from_literal nv) ↔
          v0 ∈ t.map (get_var_from_literal nv) := by
        simp only [List.map_cons, List.mem_cons]
        exact ⟨fun h => h.resolve_left hmem, Or.inr⟩
      by_cases hmt : v0 ∈ t.map (get_var_from_literal nv) ∧ v0 < s.var_scores.length
      · rw [if_pos hmt, if_pos ⟨hiff.mpr hmt.1, hmt.2⟩]
      · rw [if_neg hmt, if_neg (fun hc => hmt ⟨hiff.mp hc.1, hc.2⟩)]

/-- C8 (amended): when conflict analysis stores a learned clause, the bump
adds `incr` once to the score of each of the clause's literals (VSIDS) or
variables (MINISAT, for in-range entries), after which `incr += 0.75`
(VSIDS) or `incr /= decay` (MINISAT); there is no rescaling — scores are
never multiplied by `1e-100`. -/
theorem claim_C8_score_bump (s : SAT) (w : List Nat) :
    (s.decider = "VSIDS" → w.Nodup →
      (∀ l, (bump_scores s w).lit_scores.getD l 0 =
        s.lit_scores.getD l 0 + (if l ∈ w ∧ l < s.lit_scores.length then s.incr else 0)) ∧
      (bump_scores s w).incr = s.incr + 0.75) ∧
    (s.decider = "MINISAT" → (w.map (get_var_from_literal s.num_vars)).Nodup →
      (∀ v, (bump_scores s w).var_scores.getD v 0 =
        s.var_scores.getD v 0 +
          (if v ∈ w.map (get_var_from_literal s.num_vars) ∧ v < s.var_scores.length
           then s.incr else 0)) ∧
      (bump_scores s w).incr = s.incr / s.decay) := by
  constructor
  · intro hdec hnd
    have hbump : bump_scores s w =
        { List.foldl vsids_bump_step s w with
          incr := (List.foldl vsids_bump_step s w).incr + 0.75 } := by
      unfold bump_scores
      rw [if_pos hdec]
    rw [hbump]
    constructor
    · intro l
      show (List.foldl vsids_bump_step s w).lit_scores.getD l 0 = _
      exact (vsids_bump_fold l w s hnd).1
    · show (List.foldl vsids_bump_step s w).incr + 0.75 = _
      rw [(vsids_bump_fold 0 w s hnd).2.1]
  · intro hdec hnd
    have hbump : bump_scores s w =
        { List.foldl minisat_bump_step s w with
          incr := (List.foldl minisat_bump_step s w).incr /
            (List.foldl minisat_bump_step s w).decay } := by
      unfold bump_scores
      rw [if_neg (by rw [hdec]; decide), if_pos hdec]
    rw [hbump]
    obtain ⟨_, h2, _, _, h5⟩ := minisat_bump_fold 0 s.num_vars w s rfl hnd
    constructor
    · intro v
      show (List.foldl minisat_bump_step s w).var_scores.getD v 0 = _
      exact (minisat_bump_fold v s.num_vars w s rfl hnd).1
    · show (List.foldl minisat_bump_step s w).incr /
          (List.foldl minisat_bump_step s w).decay = _
      rw [h2, h5]

/-- C8 counterexample: there is no rescaling.  The claim requires that
whenever a score exceeds `1e100`, all scores and `incr` are rescaled by
`1e-100`; but bumping the learned clause `[1]` on a VSIDS solver whose
`lit_scores[1] = 2·10^100` leaves the score at `2·10^100 + 1 > 10^100`
(a rescaled value would be about `2`), and `incr` becomes `1.75`. -/
theorem claim_C8_counterexample :
    (10 : Rat) ^ 100 < (bump_scores exBigScoreState [1]).lit_scores.getD 1 0 ∧
    (bump_scores exBigScoreState [1]).lit_scores.getD 1 0 = 2 * 10 ^ 100 + 1 ∧
    (bump_scores exBigScoreState [1]).incr = 1.75 := by
  have hbump : bump_scores exBigScoreState [1] =
      { List.foldl vsids_bump_step exBigScoreState [1] with
        incr := (List.foldl vsids_bump_step exBigScoreState [1]).incr + 0.75 } := by
    unfold bump_scores
    rw [if_pos (show exBigScoreState.decider = "VSIDS" from rfl)]
  have hnd : ([1] : List Nat).Nodup := by decide
  obtain ⟨h1, h2, _, _⟩ := vsids_bump_fold 1 [1] exBigScoreState hnd
  have hcond : (1 ∈ ([1] : List Nat) ∧ 1 < exBigScoreState.lit_scores.length) := by
    refine ⟨List.mem_singleton.mpr rfl, ?_⟩
    show 1 < 6
    omega
  rw [if_pos hcond] at h1
  have hbase : exBigScoreState.lit_scores.getD 1 0 = 2 * 10 ^ 100 := rfl
  have hincr0 : exBigScoreState.incr = 1 := rfl
  rw [hbase, hincr0] at h1
  have hscore : (bump_scores exBigScoreState [1]).lit_scores.getD 1 0 = 2 * 10 ^ 100 + 1 := by
    rw [hbump]
    show (List.foldl vsids_bump_step exBigScoreState [1]).lit_scores.getD 1 0 = _
    rw [h1]
  have hincr : (bump_scores exBigScoreState [1]).incr = 1.75 := by
    rw [hbump]
    show (List.foldl vsids_bump_step exBigScoreState [1]).incr + 0.75 = _
    rw [h2, hincr0]
    norm_num
  refine ⟨?_, hscore, hincr⟩
  rw [hscore]
  have hpos : (0 : Rat) < 10 ^ 100 := by positivity
  nlinarith

/-- Witness for C8: the VSIDS branch applied to the concrete big-score state
and the singleton learned clause `[1]`. -/
theorem claim_C8_witness :
    exBigScoreState.decider = "VSIDS" ∧ ([1] : List Nat).Nodup ∧
    (bump_scores exBigScoreState [1]).lit_scores.getD 1 0 =
      exBigScoreState.lit_scores.getD 1 0 +
        (if 1 ∈ ([1] : List Nat) ∧ 1 < exBigScoreState.lit_scores.length
         then exBigScoreState.incr else 0) ∧
    (bump_scores exBigScoreState [1]).incr = exBigScoreState.incr + 0.75 :=
  ⟨rfl, by decide,
    ((claim_C8_score_bump exBigScoreState [1]).1 rfl (by decide)).1 1,
    ((claim_C8_score_bump exBigScoreState [1]).1 rfl (by decide)).2⟩

/-! ### Claim C3: unit clauses at parse time -/

/-- C3: when `add_clause` receives a clause that sorts and dedups to a single
literal: if the literal's variable is unassigned, it is pushed on the trail
at level 0 with antecedent NONE (clause field `-1`) and the value satisfying
the literal, the implication counter advances and `add_clause` returns 1; if
the variable is already assigned the opposite value, `add_clause` sets
result UNSAT and returns 0 (which stops the reading loop and finalises the
run), and no assignment file is produced for an UNSAT result. -/
theorem claim_C3_unit_clause (s : SAT) (c : List Nat)
    (hlen : (uniqueAdj (sortNat c)).length = 1) :
    (s.is_var_assigned.getD
        (get_var_from_literal s.num_vars ((uniqueAdj (sortNat c)).getD 0 0)) false = false →
      (s.add_clause c).2 = 1 ∧
      (s.add_clause c).1.assignment_stack = s.assignment_stack ++
        [⟨Int.ofNat (get_var_from_literal s.num_vars ((uniqueAdj (sortNat c)).getD 0 0)),
          !is_negative_literal s.num_vars ((uniqueAdj (sortNat c)).getD 0 0), 0, -1, -1⟩] ∧
      (s.add_clause c).1.result = s.result ∧
      (s.add_clause c).1.num_implications = s.num_implications + 1) ∧
    (s.is_var_assigned.getD
        (get_var_from_literal s.num_vars ((uniqueAdj (sortNat c)).getD 0 0)) false = true →
      (s.variable_to_assignment_nodes.getD
          (get_var_from_literal s.num_vars ((uniqueAdj (sortNat c)).getD 0 0)) default).value ≠
        (!is_negative_literal s.num_vars ((uniqueAdj (sortNat c)).getD 0 0)) →
      (s.add_clause c).2 = 0 ∧ (s.add_clause c).1.result = "UNSAT" ∧
      solve_writes_assignment "UNSAT" = false) := by
  obtain ⟨a, ha⟩ := List.length_eq_one.mp hlen
  have hgetD : (uniqueAdj (sortNat c)).getD 0 0 = a := by rw [ha]; rfl
  have htaut2 : tautology_check s.num_vars [a] = false := rfl
  rw [hgetD]
  constructor
  · intro hun
    have hstep : s.add_clause c =
        (assign_node { s with num_implications := s.num_implications + 1 }
          ⟨Int.ofNat (get_var_from_literal s.num_vars a),
            !is_negative_literal s.num_vars a, 0, -1, -1⟩, 1) := by
      unfold SAT.add_clause
      simp only [ha, htaut2, List.getD_cons_zero, List.isEmpty_cons, List.length_cons,
        List.length_nil, Bool.false_eq_true, if_false, hun, Bool.not_false, if_true]
    rw [hstep]
    refine ⟨rfl, ?_, rfl, rfl⟩
    show ({ s with num_implications := s.num_implications + 1 } : SAT).assignment_stack ++ _ = _
    rfl
  · intro hassigned hneq
    have hstep : s.add_clause c = ({ s with result := "UNSAT" }, 0) := by
      unfold SAT.add_clause
      simp only [ha, htaut2, List.getD_cons_zero, List.isEmpty_cons, List.length_cons,
        List.length_nil, Bool.false_eq_true, if_false, hassigned, Bool.not_true,
        bne_iff_ne, ne_eq, hneq, not_false_eq_true, if_true]
    rw [hstep]
    exact ⟨rfl, rfl, rfl⟩

/-- Witness for C3: adding the unit clause `¬x1` (internal literal 3) to the
fresh 2-variable solver seeds the trail with `x1 := false` at level 0. -/
theorem claim_C3_witness :
    (uniqueAdj (sortNat [3])).length = 1 ∧
    (((initState "ORDERED" "None" 2).add_clause [3]).2 = 1 ∧
      ((initState "ORDERED" "None" 2).add_clause [3]).1.assignment_stack =
        (initState "ORDERED" "None" 2).assignment_stack ++
          [⟨Int.ofNat (get_var_from_literal (initState "ORDERED" "None" 2).num_vars
              ((uniqueAdj (sortNat [3])).getD 0 0)),
            !is_negative_literal (initState "ORDERED" "None" 2).num_vars
              ((uniqueAdj (sortNat [3])).getD 0 0), 0, -1, -1⟩] ∧
      ((initState "ORDERED" "None" 2).add_clause [3]).1.result =
        (initState "ORDERED" "None" 2).result ∧
      ((initState "ORDERED" "None" 2).add_clause [3]).1.num_implications =
        (initState "ORDERED" "None" 2).num_implications + 1) :=
  ⟨by decide, (claim_C3_unit_clause (initState "ORDERED" "None" 2) [3] (by decide)).1 (by decide)⟩

/-! ### Claim C6: backtrack -/

/-- The backtrack loop pops exactly the entries above the target level (the
levels along the stack being non-decreasing), clears `is_var_assigned` for
each popped valid variable and reinserts it into the priority queue in pop
order, and touches nothing else. -/
theorem backtrackLoop_eq :
    ∀ (stack : List AssignedNode) (s : SAT) (fuel : Nat) (β : Int),
      s.assignment_stack = stack → stack.length ≤ fuel →
      List.Pairwise (fun a b => a.level ≤ b.level) stack →
      backtrackLoop fuel s β =
        { s with
          assignment_stack := stack.filter (fun nd => decide (nd.level ≤ β)),
          is_var_assigned :=
            ((stack.filter (fun nd => decide (β < nd.level))).reverse.filter
              (fun nd => nd.is_valid)).foldl
                (fun arr nd => arr.set nd.var.toNat false) s.is_var_assigned,
          pq := ((stack.filter (fun nd => decide (β < nd.level))).reverse.filter
              (fun nd => nd.is_valid)).foldl (backtrack_reinsert s) s.pq } := by
  intro stack
  induction stack using List.reverseRecOn with
  | nil =>
    intro s fuel β hstack hfuel hpair
    simp only [List.filter_nil, List.reverse_nil, List.foldl_nil]
    have hLHS : backtrackLoop fuel s β = s := by
      cases fuel with
      | zero => rfl
      | succ f =>
        unfold backtrackLoop
        rw [hstack]
        rfl
    rw [hLHS, ← hstack]
  | append_singleton xs x ih =>
    intro s fuel β hstack hfuel hpair
    have hxslen : xs.length + 1 = (xs ++ [x]).length := by
      rw [List.length_append, List.length_cons, List.length_nil]
    cases fuel with
    | zero =>
      exfalso
      omega
    | succ f =>
      have hlast : s.assignment_stack.getLast? = some x := by
        rw [hstack]
        exact List.getLast?_concat _
      have hxs_all : ∀ nd ∈ xs, nd.level ≤ x.level := by
        intro nd hnd
        have := (List.pairwise_append.mp hpair).2.2
        exact this nd hnd x (List.mem_singleton.mpr rfl)
      have hxs_pair : List.Pairwise (fun a b => a.level ≤ b.level) xs :=
        (List.pairwise_append.mp hpair).1
      by_cases hx : x.level ≤ β
      · have hLHS : backtrackLoop (f+1) s β = s := by
          unfold backtrackLoop
          rw [hlast]
          show (if x.level ≤ β then s else _) = s
          rw [if_pos hx]
        have hkeep : (xs ++ [x]).filter (fun nd => decide (nd.level ≤ β)) = xs ++ [x] := by
          rw [List.filter_eq_self]
          intro nd hnd
          rcases List.mem_append.mp hnd with h | h
          · exact decide_eq_true (le_trans (hxs_all nd h) hx)
          · rw [List.mem_singleton.mp h]
            exact decide_eq_true hx
        have hpop : (xs ++ [x]).filter (fun nd => decide (β < nd.level)) = [] := by
          rw [List.filter_eq_nil]
          intro nd hnd
          rcases List.mem_append.mp hnd with h | h
          · simp only [decide_eq_true_eq, not_lt]
            exact le_trans (hxs_all nd h) hx
          · rw [List.mem_singleton.mp h]
            simp only [decide_eq_true_eq, not_lt]
            exact hx
        rw [hLHS, hkeep, hpop, ← hstack]
        rfl
      · -- pop x and recurse
        simp only [backtrackLoop, hlast]
        rw [if_neg hx]
        set s1 := (if x.is_valid = true then
          { s with is_var_assigned := s.is_var_assigned.set x.var.toNat false,
                   pq := backtrack_reinsert s s.pq x }
          else s) with hs1def
        have hs1stack : s1.assignment_stack = s.assignment_stack := by
          rw [hs1def]
          by_cases hv2 : x.is_valid = true
          · rw [if_pos hv2]
          · rw [if_neg hv2]
        have hnextstack : ({ s1 with assignment_stack := s1.assignment_stack.dropLast } : SAT).assignment_stack = xs := by
          show s1.assignment_stack.dropLast = xs
          rw [hs1stack, hstack]
          exact List.dropLast_concat
        have hnext := ih { s1 with assignment_stack := s1.assignment_stack.dropLast } f β
          hnextstack (by omega) hxs_pair
        rw [hnext]
        have hfun : backtrack_reinsert ({ s1 with assignment_stack := s1.assignment_stack.dropLast } : SAT) = backtrack_reinsert s := by
          rw [hs1def]
          by_cases hv2 : x.is_valid = true
          · rw [if_pos hv2]
            rfl
          · rw [if_neg hv2]
            rfl
        have hkeep : (xs ++ [x]).filter (fun nd => decide (nd.level ≤ β)) =
            xs.filter (fun nd => decide (nd.level ≤ β)) := by
          rw [List.filter_append, List.filter_cons, List.filter_nil]
          rw [if_neg (by simpa using hx)]
          rw [List.append_nil]
        have hpop : (xs ++ [x]).filter (fun nd => decide (β < nd.level)) =
            xs.filter (fun nd => decide (β < nd.level)) ++ [x] := by
          rw [List.filter_append, List.filter_cons, List.filter_nil]
          rw [if_pos (by simpa using lt_of_not_le hx)]
        rw [hkeep, hpop, List.reverse_append, hfun]
        by_cases hv2 : x.is_valid = true
        · have hconslist : (([x].reverse ++ (xs.filter (fun nd => decide (β < nd.level))).reverse).filter (fun nd => nd.is_valid)) =
              x :: ((xs.filter (fun nd => decide (β < nd.level))).reverse.filter (fun nd => nd.is_valid)) := by
            rw [List.reverse_singleton, List.cons_append, List.nil_append, List.filter_cons]
            rw [if_pos hv2]
          rw [hconslist, List.foldl_cons, List.foldl_cons]
          rw [hs1def, if_pos hv2]
        · have hnillist : (([x].reverse ++ (xs.filter (fun nd => decide (β < nd.level))).reverse).filter (fun nd => nd.is_valid)) =
              ((xs.filter (fun nd => decide (β < nd.level))).reverse.filter (fun nd => nd.is_valid)) := by
            rw [List.reverse_singleton, List.cons_append, List.nil_append, List.filter_cons]
            rw [if_neg (by simpa using hv2)]
          rw [hnillist]
          rw [hs1def, if_neg hv2]

/-- C6 (amended): `backtrack(β, node)` removes exactly the trail entries
whose level exceeds β, in reverse order, clearing `is_assigned` for each
popped real variable and reinserting it (both of its literals, for VSIDS)
into the priority queue with its current score, while leaving trail entries
with level ≤ β, the activity scores, the clause database, the watch
structures and (when no pending node is supplied, as on RESTART) the saved
phases unchanged; a pending valid node is then pushed onto the trail, and
for MINISAT its variable's saved phase is overwritten with the pushed
value. -/
theorem claim_C6_backtrack_frame (s : SAT) (β : Int)
    (hsorted : List.Pairwise (fun a b => a.level ≤ b.level) s.assignment_stack) :
    ((s.backtrack β none).assignment_stack =
        s.assignment_stack.filter (fun nd => decide (nd.level ≤ β)) ∧
      (s.backtrack β none).level = β ∧
      (s.backtrack β none).is_var_assigned =
        ((s.assignment_stack.filter (fun nd => decide (β < nd.level))).reverse.filter
          (fun nd => nd.is_valid)).foldl
            (fun arr nd => arr.set nd.var.toNat false) s.is_var_assigned ∧
      (s.backtrack β none).pq =
        ((s.assignment_stack.filter (fun nd => decide (β < nd.level))).reverse.filter
          (fun nd => nd.is_valid)).foldl (backtrack_reinsert s) s.pq ∧
      (s.backtrack β none).clauses = s.clauses ∧
      (s.backtrack β none).num_clauses = s.num_clauses ∧
      (s.backtrack β none).literals_watching_c = s.literals_watching_c ∧
      (s.backtrack β none).clauses_watched_by_l = s.clauses_watched_by_l ∧
      (s.backtrack β none).lit_scores = s.lit_scores ∧
      (s.backtrack β none).var_scores = s.var_scores ∧
      (s.backtrack β none).phase = s.phase ∧
      (s.backtrack β none).incr = s.incr ∧
      (s.backtrack β none).decay = s.decay ∧
      (s.backtrack β none).variable_to_assignment_nodes = s.variable_to_assignment_nodes ∧
      (s.backtrack β none).num_learned_clauses = s.num_learned_clauses ∧
      (s.backtrack β none).result = s.result) ∧
    (∀ nd : AssignedNode, nd.is_valid = true →
      (s.backtrack β (some nd)).assignment_stack =
        s.assignment_stack.filter (fun x => decide (x.level ≤ β)) ++ [nd] ∧
      (s.decider = "MINISAT" →
        (s.backtrack β (some nd)).phase =
          s.phase.set nd.var.toNat (if nd.value then 1 else 0))) := by
  have hloop := backtrackLoop_eq s.assignment_stack { s with level := β }
    (({ s with level := β } : SAT).assignment_stack.length) β rfl (le_refl _) hsorted
  have hfun2 : backtrack_reinsert ({ s with level := β } : SAT) = backtrack_reinsert s := rfl
  rw [hfun2] at hloop
  have hnone : s.backtrack β none =
      backtrackLoop (({ s with level := β } : SAT).assignment_stack.length)
        { s with level := β } β := rfl
  constructor
  · rw [hnone, hloop]
    exact ⟨rfl, rfl, rfl, rfl, rfl, rfl, rfl, rfl, rfl, rfl, rfl, rfl, rfl, rfl, rfl, rfl⟩
  · intro nd hvalid
    have hsome : s.backtrack β (some nd) =
        (let s2 := backtrackLoop (({ s with level := β } : SAT).assignment_stack.length)
          { s with level := β } β
        let s3 := assign_node s2 nd
        let s4 :=
          if s3.decider = "VSIDS" then
            { s3 with pq := (s3.pq.remove nd.var.toNat).remove (nd.var.toNat + s3.num_vars) }
          else if s3.decider = "MINISAT" then
            { s3 with pq := s3.pq.remove nd.var.toNat,
                      phase := s3.phase.set nd.var.toNat (if nd.value then 1 else 0) }
          else s3
        { s4 with num_implications := s4.num_implications + 1 }) := by
      show (match some nd with
        | none => backtrackLoop (({ s with level := β } : SAT).assignment_stack.length)
            { s with level := β } β
        | some node => _) = _
      show (if nd.is_valid = true then _ else _) = _
      rw [if_pos hvalid]
    rw [hsome]
    obtain ⟨s2, hs2⟩ : ∃ t, backtrackLoop
        (({ s with level := β } : SAT).assignment_stack.length) { s with level := β } β = t :=
      ⟨_, rfl⟩
    rw [hs2]
    have hdec2 : (assign_node s2 nd).decider = s.decider := by
      rw [show (assign_node s2 nd).decider = s2.decider from rfl, ← hs2, hloop]
    have hstk2 : (assign_node s2 nd).assignment_stack =
        s.assignment_stack.filter (fun x => decide (x.level ≤ β)) ++ [nd] := by
      show s2.assignment_stack ++ [nd] = _
      rw [← hs2, hloop]
    have hph2 : (assign_node s2 nd).phase = s.phase := by
      show s2.phase = s.phase
      rw [← hs2, hloop]
    constructor
    · show ((if (assign_node s2 nd).decider = "VSIDS" then { (assign_node s2 nd) with pq := ((assign_node s2 nd).pq.remove nd.var.toNat).remove (nd.var.toNat + (assign_node s2 nd).num_vars) } else if (assign_node s2 nd).decider = "MINISAT" then { (assign_node s2 nd) with pq := (assign_node s2 nd).pq.remove nd.var.toNat, phase := (assign_node s2 nd).phase.set nd.var.toNat (if nd.value then 1 else 0) } else (assign_node s2 nd)) : SAT).assignment_stack = _
      by_cases h1 : (assign_node s2 nd).decider = "VSIDS"
      · rw [if_pos h1]
        exact hstk2
      · rw [if_neg h1]
        by_cases h2 : (assign_node s2 nd).decider = "MINISAT"
        · rw [if_pos h2]
          exact hstk2
        · rw [if_neg h2]
          exact hstk2
    · intro hmini
      show ((if (assign_node s2 nd).decider = "VSIDS" then { (assign_node s2 nd) with pq := ((assign_node s2 nd).pq.remove nd.var.toNat).remove (nd.var.toNat + (assign_node s2 nd).num_vars) } else if (assign_node s2 nd).decider = "MINISAT" then { (assign_node s2 nd) with pq := (assign_node s2 nd).pq.remove nd.var.toNat, phase := (assign_node s2 nd).phase.set nd.var.toNat (if nd.value then 1 else 0) } else (assign_node s2 nd)) : SAT).phase = _
      rw [if_neg (show ¬(assign_node s2 nd).decider = "VSIDS" from by rw [hdec2, hmini]; decide)]
      rw [if_pos (show (assign_node s2 nd).decider = "MINISAT" from by rw [hdec2, hmini])]
      show (assign_node s2 nd).phase.set nd.var.toNat (if nd.value then 1 else 0) = _
      rw [hph2]

/-- Witness for C6: backjumping the concrete conflict state (stack levels
`[1, 1, 2, 2, 2]`) to level 1 keeps exactly the level-1 prefix. -/
theorem claim_C6_witness :
    List.Pairwise (fun a b => a.level ≤ b.level) exConflictState.assignment_stack ∧
    (exConflictState.backtrack 1 none).assignment_stack =
      exConflictState.assignment_stack.filter (fun nd => decide (nd.level ≤ 1)) ∧
    (exConflictState.backtrack 1 none).phase = exConflictState.phase :=
  ⟨by decide, (claim_C6_backtrack_frame exConflictState 1 (by decide)).1.1,
    (claim_C6_backtrack_frame exConflictState 1 (by decide)).1.2.2.2.2.2.2.2.2.2.2.1⟩

/-! ### Claim C2: conflict analysis -/

/-- The counter of the resolution loop counts the literals assigned at the
conflict level. -/
theorem count_cand_fst (s : SAT) (lvl : Int) :
    ∀ (cc : List Nat) (acc : Nat × Int × AssignedNode),
      (List.foldl (count_cand_step s lvl) acc cc).1 =
        acc.1 + (cc.filter (fun lit => decide (levelOf s lit = lvl))).length
  | [], acc => by simp
  | lit :: t, acc => by
    rw [List.foldl_cons, List.filter_cons]
    by_cases h : levelOf s lit = lvl
    · rw [if_pos (by simpa using h)]
      have hstep : (count_cand_step s lvl acc lit).1 = acc.1 + 1 := by
        unfold count_cand_step
        have h' : (s.variable_to_assignment_nodes.getD
            (get_var_from_literal s.num_vars lit) default).level = lvl := h
        rw [if_pos h']
      rw [count_cand_fst s lvl t (count_cand_step s lvl acc lit), hstep, List.length_cons]
      omega
    · rw [if_neg (by simpa using h)]
      have hstep : (count_cand_step s lvl acc lit).1 = acc.1 := by
        unfold count_cand_step
        have h' : ¬(s.variable_to_assignment_nodes.getD
            (get_var_from_literal s.num_vars lit) default).level = lvl := h
        rw [if_neg h']
      rw [count_cand_fst s lvl t (count_cand_step s lvl acc lit), hstep]

/-- When the resolution loop succeeds, the returned clause has counter 1. -/
theorem resolutionLoop_exit (s : SAT) (lvl : Int) :
    ∀ (fuel : Nat) (cc w : List Nat) (cand : AssignedNode),
      resolutionLoop s lvl fuel cc = some (w, cand) →
      (countAndCand s w lvl).1 = 1
  | 0, cc, w, cand => by
    intro h
    exact absurd h (by simp [resolutionLoop])
  | fuel+1, cc, w, cand => by
    intro h
    simp only [resolutionLoop] at h
    by_cases hr : (countAndCand s cc lvl).1 = 1
    · rw [if_pos hr] at h
      injection h with h'
      have hw : cc = w := congrArg Prod.fst h'
      rw [← hw]
      exact hr
    · rw [if_neg hr] at h
      exact resolutionLoop_exit s lvl fuel _ w cand h

/-- The first component of the backtrack-level fold is the running maximum of
the levels of the literals away from the conflict level. -/
theorem bl_fold_fst (s : SAT) (lvl : Int) :
    ∀ (w : List Nat) (acc : Int × Int),
      (List.foldl (bl_fold_step s lvl) acc w).1 =
        List.foldl max acc.1 ((w.filter (fun l => !decide (levelOf s l = lvl))).map
          (fun l => levelOf s l))
  | [], acc => by simp
  | lit :: t, acc => by
    rw [List.foldl_cons, List.filter_cons]
    by_cases h : levelOf s lit = lvl
    · rw [if_neg (by simp [h])]
      have hstep : (bl_fold_step s lvl acc lit).1 = acc.1 := by
        unfold bl_fold_step
        have h' : (s.variable_to_assignment_nodes.getD
            (get_var_from_literal s.num_vars lit) default).level = lvl := h
        rw [if_pos h']
      rw [bl_fold_fst s lvl t (bl_fold_step s lvl acc lit), hstep]
    · rw [if_pos (by simp [h]), List.map_cons, List.foldl_cons]
      have hstep : (bl_fold_step s lvl acc lit).1 = max acc.1 (levelOf s lit) := by
        unfold bl_fold_step
        have h' : ¬(s.variable_to_assignment_nodes.getD
            (get_var_from_literal s.num_vars lit) default).level = lvl := h
        rw [if_neg h']
        by_cases h2 : (s.variable_to_assignment_nodes.getD
            (get_var_from_literal s.num_vars lit) default).level > acc.1
        · rw [if_pos h2]
          exact (max_eq_right (le_of_lt h2)).symm
        · rw [if_neg h2]
          exact (max_eq_left (le_of_not_lt h2)).symm
      rw [bl_fold_fst s lvl t (bl_fold_step s lvl acc lit), hstep]

/-- The second component of the backtrack-level fold either keeps its initial
value or records a literal of the clause at the conflict level. -/
theorem bl_fold_snd_stable (s : SAT) (lvl : Int) :
    ∀ (w : List Nat) (acc : Int × Int),
      (List.foldl (bl_fold_step s lvl) acc w).2 = acc.2 ∨
        ∃ lit ∈ w, levelOf s lit = lvl ∧
          (List.foldl (bl_fold_step s lvl) acc w).2 = Int.ofNat lit
  | [], _ => Or.inl rfl
  | lit :: t, acc => by
    rw [List.foldl_cons]
    by_cases h : levelOf s lit = lvl
    · have hstep : (bl_fold_step s lvl acc lit).2 = Int.ofNat lit := by
        unfold bl_fold_step
        have h' : (s.variable_to_assignment_nodes.getD
            (get_var_from_literal s.num_vars lit) default).level = lvl := h
        rw [if_pos h']
      rcases bl_fold_snd_stable s lvl t (bl_fold_step s lvl acc lit) with h1 | ⟨l2, hl2, hv2, he2⟩
      · exact Or.inr ⟨lit, List.mem_cons_self _ _, h, by rw [h1, hstep]⟩
      · exact Or.inr ⟨l2, List.mem_cons_of_mem _ hl2, hv2, he2⟩
    · have hstep : (bl_fold_step s lvl acc lit).2 = acc.2 := by
        unfold bl_fold_step
        have h' : ¬(s.variable_to_assignment_nodes.getD
            (get_var_from_literal s.num_vars lit) default).level = lvl := h
        rw [if_neg h']
        by_cases h2 : (s.variable_to_assignment_nodes.getD
            (get_var_from_literal s.num_vars lit) default).level > acc.1
        · rw [if_pos h2]
        · rw [if_neg h2]
      rcases bl_fold_snd_stable s lvl t (bl_fold_step s lvl acc lit) with h1 | ⟨l2, hl2, hv2, he2⟩
      · exact Or.inl (by rw [h1, hstep])
      · exact Or.inr ⟨l2, List.mem_cons_of_mem _ hl2, hv2, he2⟩

/-- If some literal of the clause sits at the conflict level, the fold ends
on such a literal. -/
theorem bl_fold_snd_exists (s : SAT) (lvl : Int) :
    ∀ (w : List Nat) (acc : Int × Int), (∃ lit ∈ w, levelOf s lit = lvl) →
      ∃ lit ∈ w, levelOf s lit = lvl ∧
        (List.foldl (bl_fold_step s lvl) acc w).2 = Int.ofNat lit
  | [], _ => by
    intro hex
    obtain ⟨l, hl, _⟩ := hex
    exact absurd hl (List.not_mem_nil l)
  | lit :: t, acc => by
    intro hex
    rw [List.foldl_cons]
    by_cases h : levelOf s lit = lvl
    · have hstep : (bl_fold_step s lvl acc lit).2 = Int.ofNat lit := by
        unfold bl_fold_step
        have h' : (s.variable_to_assignment_nodes.getD
            (get_var_from_literal s.num_vars lit) default).level = lvl := h
        rw [if_pos h']
      rcases bl_fold_snd_stable s lvl t (bl_fold_step s lvl acc lit) with h1 | ⟨l2, hl2, hv2, he2⟩
      · exact ⟨lit, List.mem_cons_self _ _, h, by rw [h1, hstep]⟩
      · exact ⟨l2, List.mem_cons_of_mem _ hl2, hv2, he2⟩
    · obtain ⟨l0, hl0, hv0⟩ := hex
      have hl0t : l0 ∈ t := by
        rcases List.mem_cons.mp hl0 with rfl | ht
        · exact absurd hv0 h
        · exact ht
      obtain ⟨l2, hl2, hv2, he2⟩ :=
        bl_fold_snd_exists s lvl t (bl_fold_step s lvl acc lit) ⟨l0, hl0t, hv0⟩
      exact ⟨l2, List.mem_cons_of_mem _ hl2, hv2, he2⟩

theorem foldr_max_pull : ∀ (t : List Int) (a b : Int),
    List.foldr max (max a b) t = max a (List.foldr max b t)
  | [], _, _ => rfl
  | d :: t, a, b => by
    rw [List.foldr_cons, List.foldr_cons, foldr_max_pull t a b, max_left_comm]

theorem foldl_max_eq_foldr : ∀ (L : List Int) (m : Int),
    List.foldl max m L = List.foldr max m L
  | [], _ => rfl
  | c :: t, m => by
    rw [List.foldl_cons, List.foldr_cons, foldl_max_eq_foldr t (max m c), max_comm m c,
      foldr_max_pull]

theorem foldr_max_zero : ∀ (t : List Int), (∀ x ∈ t, 0 ≤ x) →
    max 0 (List.foldr max (-1 : Int) t) = List.foldr max 0 t
  | [], _ => by decide
  | d :: t, h => by
    rw [List.foldr_cons, List.foldr_cons,
      ← foldr_max_zero t (fun x hx => h x (List.mem_cons_of_mem d hx)), max_left_comm]

/-- Clamping the `-1`-seeded maximum to 0 gives the 0-seeded maximum when all
entries are non-negative. -/
theorem clamp_fold (L : List Int) (h : ∀ x ∈ L, 0 ≤ x) :
    (if List.foldr max (-1 : Int) L = -1 then 0 else List.foldr max (-1 : Int) L) =
      List.foldr max 0 L := by
  cases L with
  | nil => decide
  | cons c t =>
    have hc : 0 ≤ c := h c (List.mem_cons_self c t)
    have hge : c ≤ List.foldr max (-1 : Int) (c :: t) := by
      rw [List.foldr_cons]
      exact le_max_left _ _
    rw [if_neg (by omega)]
    have ht : ∀ x ∈ t, 0 ≤ x := fun x hx => h x (List.mem_cons_of_mem c hx)
    rw [List.foldr_cons, List.foldr_cons, ← foldr_max_zero t ht, max_left_comm]
    exact (max_eq_right (le_trans hc (le_max_left c _))).symm

theorem bl_fold_step_congr (s t : SAT) (lvl : Int)
    (h1 : s.variable_to_assignment_nodes = t.variable_to_assignment_nodes)
    (h2 : s.num_vars = t.num_vars) : bl_fold_step s lvl = bl_fold_step t lvl := by
  funext acc lit
  unfold bl_fold_step
  rw [h1, h2]

/-- Storing a learned clause does not touch the assignment map, `num_vars`,
and appends exactly one clause. -/
theorem store_learned_fields (s0 : SAT) (w : List Nat) :
    (store_learned s0 w).variable_to_assignment_nodes = s0.variable_to_assignment_nodes ∧
    (store_learned s0 w).num_vars = s0.num_vars ∧
    (store_learned s0 w).clauses = s0.clauses ++ [w] ∧
    (store_learned s0 w).num_clauses = s0.num_clauses + 1 := by
  have hbump : ∀ (st : SAT) (cl : List Nat),
      (bump_scores st cl).variable_to_assignment_nodes = st.variable_to_assignment_nodes ∧
      (bump_scores st cl).num_vars = st.num_vars ∧
      (bump_scores st cl).clauses = st.clauses ∧
      (bump_scores st cl).num_clauses = st.num_clauses := by
    intro st cl
    have hP : ∀ (f : SAT → Nat → SAT),
        (∀ (a : SAT) (x : Nat), (f a x).variable_to_assignment_nodes =
            a.variable_to_assignment_nodes ∧ (f a x).num_vars = a.num_vars ∧
            (f a x).clauses = a.clauses ∧ (f a x).num_clauses = a.num_clauses) →
        (List.foldl f st cl).variable_to_assignment_nodes = st.variable_to_assignment_nodes ∧
        (List.foldl f st cl).num_vars = st.num_vars ∧
        (List.foldl f st cl).clauses = st.clauses ∧
        (List.foldl f st cl).num_clauses = st.num_clauses := by
      intro f hf
      refine foldl_invariant f (fun a => a.variable_to_assignment_nodes =
        st.variable_to_assignment_nodes ∧ a.num_vars = st.num_vars ∧
        a.clauses = st.clauses ∧ a.num_clauses = st.num_clauses) ?_ cl st
        ⟨rfl, rfl, rfl, rfl⟩
      intro a x ha
      obtain ⟨q1, q2, q3, q4⟩ := hf a x
      exact ⟨q1.trans ha.1, q2.trans ha.2.1, q3.trans ha.2.2.1, q4.trans ha.2.2.2⟩
    unfold bump_scores
    by_cases h1 : st.decider = "VSIDS"
    · rw [if_pos h1]
      exact hP vsids_bump_step (fun a x => ⟨rfl, rfl, rfl, rfl⟩)
    · rw [if_neg h1]
      by_cases h2 : st.decider = "MINISAT"
      · rw [if_pos h2]
        exact hP minisat_bump_step (fun a x => ⟨rfl, rfl, rfl, rfl⟩)
      · rw [if_neg h2]
        exact ⟨rfl, rfl, rfl, rfl⟩
  obtain ⟨q1, q2, q3, q4⟩ := hbump ({ { { { s0 with
    num_learned_clauses := s0.num_learned_clauses + 1,
    num_clauses := s0.num_clauses + 1,
    clauses := s0.clauses ++ [w] } with
    literals_watching_c := resizeThenSet s0.literals_watching_c s0.num_clauses
      (w.getD 0 0, w.getD 1 0) (0, 0) } with
    clauses_watched_by_l := pushWatch s0.clauses_watched_by_l (w.getD 0 0) s0.num_clauses } with
    clauses_watched_by_l := pushWatch (pushWatch s0.clauses_watched_by_l (w.getD 0 0)
      s0.num_clauses) (w.getD 1 0) s0.num_clauses } : SAT) w
  exact ⟨q1, q2, q3, q4⟩

theorem getD_concat_length {α : Type} : ∀ (l : List α) (x d : α),
    (l ++ [x]).getD l.length d = x
  | [], _, _ => rfl
  | a :: t, x, d => by
    rw [List.cons_append, List.length_cons, List.getD_cons_succ]
    exact getD_concat_length t x d

/-- C2: for a conflict at decision level > 0 whose 1-UIP resolution loop
terminates, `analyze_conflict` returns a learned clause with exactly one
literal assigned at the conflict level, the backjump level
`β = max { level(var(ℓ)) : ℓ ∈ W, level < conflict level }` (0 when no such
literal exists), and a pending node assigning the asserting literal's
variable the polarity satisfying it at level β with the learned clause as
antecedent; for a unit learned clause, β = 0 and the antecedent is NONE. -/
theorem claim_C2_analyze_conflict (s s0 : SAT) (cn : AssignedNode) (w : List Nat)
    (cand : AssignedNode) (fuel : Nat)
    (hlast : s.assignment_stack.getLast? = some cn)
    (hs0 : s0 = { s with assignment_stack := s.assignment_stack.dropLast })
    (hlvl : ¬cn.level = 0)
    (hres : resolutionLoop s0 cn.level fuel (s0.clauses.getD cn.clause.toNat []) =
      some (w, cand))
    (hlevels : ∀ lit ∈ w, 0 ≤ levelOf s0 lit ∧ levelOf s0 lit ≤ cn.level)
    (hclen : s0.clauses.length = s0.num_clauses) :
    ∃ β node s5, s.analyze_conflict fuel = some (β, node, s5) ∧
      (w.filter (fun lit => decide (levelOf s0 lit = cn.level))).length = 1 ∧
      (1 < w.length →
        β = specBacktrackLevel s0 w cn.level ∧
        node.level = β ∧ node.clause = Int.ofNat s0.num_clauses ∧
        s5.clauses.getD s0.num_clauses [] = w ∧
        s5.num_clauses = s0.num_clauses + 1 ∧
        ∃ lit ∈ w, levelOf s0 lit = cn.level ∧
          node.var = Int.ofNat (get_var_from_literal s0.num_vars lit) ∧
          node.value = !is_negative_literal s0.num_vars lit) ∧
      (w.length = 1 →
        β = 0 ∧ node.level = 0 ∧ node.clause = -1 ∧
        node.var = Int.ofNat (get_var_from_literal s0.num_vars (w.getD 0 0)) ∧
        node.value = !is_negative_literal s0.num_vars (w.getD 0 0)) := by
  subst hs0
  have hcount : (countAndCand { s with assignment_stack := s.assignment_stack.dropLast }
      w cn.level).1 = 1 :=
    resolutionLoop_exit _ cn.level fuel _ w cand hres
  have hcount2 : (w.filter (fun lit => decide (levelOf
      { s with assignment_stack := s.assignment_stack.dropLast } lit = cn.level))).length = 1 := by
    have hf := count_cand_fst { s with assignment_stack := s.assignment_stack.dropLast }
      cn.level w (0, -1, default)
    unfold countAndCand at hcount
    rw [hf] at hcount
    omega
  have hexists : ∃ lit ∈ w, levelOf
      { s with assignment_stack := s.assignment_stack.dropLast } lit = cn.level := by
    rcases hw0 : w.filter (fun lit => decide (levelOf
        { s with assignment_stack := s.assignment_stack.dropLast } lit = cn.level)) with _ | ⟨l0, t0⟩
    · rw [hw0] at hcount2
      simp at hcount2
    · have hl0 : l0 ∈ w.filter (fun lit => decide (levelOf
          { s with assignment_stack := s.assignment_stack.dropLast } lit = cn.level)) := by
        rw [hw0]
        exact List.mem_cons_self _ _
      have hm := List.mem_filter.mp hl0
      exact ⟨l0, hm.1, by simpa using hm.2⟩
  by_cases hw : 1 < w.length
  · have heq : s.analyze_conflict fuel = some
        ((analyze_finish (store_learned { s with assignment_stack := s.assignment_stack.dropLast } w)
          cn.level w ({ s with assignment_stack := s.assignment_stack.dropLast } : SAT).num_clauses).1,
        (analyze_finish (store_learned { s with assignment_stack := s.assignment_stack.dropLast } w)
          cn.level w ({ s with assignment_stack := s.assignment_stack.dropLast } : SAT).num_clauses).2,
        store_learned { s with assignment_stack := s.assignment_stack.dropLast } w) := by
      unfold SAT.analyze_conflict
      rw [hlast]
      show (if cn.level = 0 then _ else _) = _
      rw [if_neg hlvl, hres]
      show (if 1 < w.length then _ else _) = _
      rw [if_pos hw]
    obtain ⟨S0, hS0⟩ : ∃ t : SAT,
        ({ s with assignment_stack := s.assignment_stack.dropLast } : SAT) = t := ⟨_, rfl⟩
    rw [hS0] at heq hres hlevels hclen hcount2 hexists ⊢
    obtain ⟨hf1, hf2, hf3, hf4⟩ := store_learned_fields S0 w
    have hcongr : bl_fold_step (store_learned S0 w) cn.level = bl_fold_step S0 cn.level :=
      bl_fold_step_congr _ _ _ hf1 hf2
    have hL : ∀ x ∈ (w.filter (fun l => !decide (levelOf S0 l = cn.level))).map
        (fun l => levelOf S0 l), 0 ≤ x := by
      intro x hx
      obtain ⟨l, hl, rfl⟩ := List.mem_map.mp hx
      exact (hlevels l (List.mem_filter.mp hl).1).1
    have hfc : ∀ a ∈ w, (!decide (levelOf S0 a = cn.level)) =
        decide (levelOf S0 a < cn.level) := by
      intro a ha
      have h2 := (hlevels a ha).2
      by_cases hh : levelOf S0 a = cn.level
      · rw [decide_eq_true hh, decide_eq_false (by omega : ¬levelOf S0 a < cn.level)]
        rfl
      · rw [decide_eq_false hh, decide_eq_true (lt_of_le_of_ne h2 hh)]
        rfl
    have hβ : (analyze_finish (store_learned S0 w) cn.level w S0.num_clauses).1 =
        specBacktrackLevel S0 w cn.level := by
      have hfin : (analyze_finish (store_learned S0 w) cn.level w S0.num_clauses).1 =
          (if (w.foldl (bl_fold_step S0 cn.level) (-1, -1)).1 = -1 then 0
           else (w.foldl (bl_fold_step S0 cn.level) (-1, -1)).1) := by
        unfold analyze_finish
        rw [hcongr]
      rw [hfin, bl_fold_fst S0 cn.level w (-1, -1)]
      show (if List.foldl max (-1 : Int) _ = -1 then 0 else List.foldl max (-1 : Int) _) = _
      rw [foldl_max_eq_foldr, clamp_fold _ hL]
      unfold specBacktrackLevel
      rw [← List.filter_congr hfc]
    refine ⟨_, _, _, heq, hcount2, fun _ => ?_, fun hlen1 => absurd hlen1 (by omega)⟩
    obtain ⟨lit, hmem, hvl, he2⟩ := bl_fold_snd_exists S0 cn.level w (-1, -1) hexists
    refine ⟨hβ, rfl, rfl, ?_, hf4, lit, hmem, hvl, ?_, ?_⟩
    · rw [hf3, ← hclen, getD_concat_length]
    · show Int.ofNat (get_var_from_literal (store_learned S0 w).num_vars
        (w.foldl (bl_fold_step (store_learned S0 w) cn.level) (-1, -1)).2.toNat) = _
      rw [hcongr, he2, hf2]
      rfl
    · show (!is_negative_literal (store_learned S0 w).num_vars
        (w.foldl (bl_fold_step (store_learned S0 w) cn.level) (-1, -1)).2.toNat) = _
      rw [hcongr, he2, hf2]
      rfl
  · have heq : s.analyze_conflict fuel = some (0,
        ⟨Int.ofNat (get_var_from_literal
            ({ s with assignment_stack := s.assignment_stack.dropLast } : SAT).num_vars (w.getD 0 0)),
          !is_negative_literal
            ({ s with assignment_stack := s.assignment_stack.dropLast } : SAT).num_vars (w.getD 0 0),
          0, -1, -1⟩,
        { s with assignment_stack := s.assignment_stack.dropLast }) := by
      unfold SAT.analyze_conflict
      rw [hlast]
      show (if cn.level = 0 then _ else _) = _
      rw [if_neg hlvl, hres]
      show (if 1 < w.length then _ else _) = _
      rw [if_neg hw]
    refine ⟨_, _, _, heq, hcount2, fun h1 => absurd h1 hw, fun _ => ⟨rfl, rfl, rfl, rfl, rfl⟩⟩

/-- Witness for C2: the concrete conflict of `exConflictState` (conflict
node at level 2 with antecedent clause 2), whose resolution loop returns the
learned clause `[2, 5, 7]`. -/
theorem claim_C2_witness :
    (exConflictState.assignment_stack.getLast? = some ⟨-1, false, 2, 2, -1⟩ ∧
      resolutionLoop exPopped 2 30 (exPopped.clauses.getD 2 []) =
        some ([2, 5, 7], ⟨3, true, 2, -1, 2⟩) ∧
      exPopped.clauses.length = exPopped.num_clauses) ∧
    ∃ β node s5, exConflictState.analyze_conflict 30 = some (β, node, s5) ∧
      (([2, 5, 7] : List Nat).filter (fun lit => decide (levelOf exPopped lit = 2))).length = 1 ∧
      (1 < ([2, 5, 7] : List Nat).length →
        β = specBacktrackLevel exPopped [2, 5, 7] 2 ∧
        node.level = β ∧ node.clause = Int.ofNat exPopped.num_clauses ∧
        s5.clauses.getD exPopped.num_clauses [] = [2, 5, 7] ∧
        s5.num_clauses = exPopped.num_clauses + 1 ∧
        ∃ lit ∈ ([2, 5, 7] : List Nat), levelOf exPopped lit = 2 ∧
          node.var = Int.ofNat (get_var_from_literal exPopped.num_vars lit) ∧
          node.value = !is_negative_literal exPopped.num_vars lit) ∧
      (([2, 5, 7] : List Nat).length = 1 →
        β = 0 ∧ node.level = 0 ∧ node.clause = -1 ∧
        node.var = Int.ofNat (get_var_from_literal exPopped.num_vars
          (([2, 5, 7] : List Nat).getD 0 0)) ∧
        node.value = !is_negative_literal exPopped.num_vars
          (([2, 5, 7] : List Nat).getD 0 0)) :=
  ⟨⟨by decide, by decide, by decide⟩,
    claim_C2_analyze_conflict exConflictState exPopped ⟨-1, false, 2, 2, -1⟩ [2, 5, 7]
      ⟨3, true, 2, -1, 2⟩ 30 (by decide) rfl (by decide) (by decide) (by decide) (by decide)⟩

/-! ### Claim C1: watch structure well-formedness -/

theorem getD_append_left {α : Type} : ∀ (l1 l2 : List α) (n : Nat) (d : α), n < l1.length →
    (l1 ++ l2).getD n d = l1.getD n d
  | [], _, _, _, h => absurd h (by simp)
  | _ :: _, _, 0, _, _ => rfl
  | _ :: t, l2, n+1, d, h => by
    rw [List.cons_append, List.getD_cons_succ, List.getD_cons_succ]
    exact getD_append_left t l2 n d (by simpa using h)

theorem getD_oob {α : Type} : ∀ (l : List α) (n : Nat) (d : α), l.length ≤ n → l.getD n d = d
  | [], n, _, _ => by cases n <;> rfl
  | _ :: _, 0, _, h => absurd h (by simp)
  | _ :: t, n+1, d, h => by
    rw [List.getD_cons_succ]
    exact getD_oob t n d (by simpa using h)

theorem getD_mem_or {α : Type} : ∀ (l : List α) (n : Nat) (d : α), l.getD n d ∈ l ∨ l.getD n d = d
  | [], n, _ => Or.inr (by cases n <;> rfl)
  | a :: t, 0, _ => Or.inl (List.mem_cons_self a t)
  | a :: t, n+1, d => by
    rw [List.getD_cons_succ]
    rcases getD_mem_or t n d with h | h
    · exact Or.inl (List.mem_cons_of_mem a h)
    · exact Or.inr h

theorem getD_mem_of_lt {α : Type} : ∀ (l : List α) (n : Nat) (d : α), n < l.length →
    l.getD n d ∈ l
  | a :: t, 0, _, _ => List.mem_cons_self a t
  | a :: t, n+1, d, h => by
    rw [List.getD_cons_succ]
    exact List.mem_cons_of_mem a (getD_mem_of_lt t n d (by simpa using h))

theorem resizeThenSet_length_ge {α : Type} (l : List α) (i : Nat) (x d : α) :
    i + 1 ≤ (resizeThenSet l i x d).length ∧ l.length ≤ (resizeThenSet l i x d).length := by
  unfold resizeThenSet
  by_cases h : l.length ≤ i
  · rw [if_pos h, List.length_set, List.length_append, List.length_replicate]
    omega
  · rw [if_neg h, List.length_set]
    omega

theorem resizeThenSet_getD_self {α : Type} (l : List α) (i : Nat) (x d d' : α) :
    (resizeThenSet l i x d).getD i d' = x := by
  unfold resizeThenSet
  by_cases h : l.length ≤ i
  · rw [if_pos h]
    exact getD_set_self _ _ _ _ (by rw [List.length_append, List.length_replicate]; omega)
  · rw [if_neg h]
    exact getD_set_self _ _ _ _ (by omega)

theorem resizeThenSet_getD_ne {α : Type} (l : List α) (i j : Nat) (x d d' : α)
    (hne : i ≠ j) (hj : j < l.length) :
    (resizeThenSet l i x d).getD j d' = l.getD j d' := by
  unfold resizeThenSet
  by_cases h : l.length ≤ i
  · rw [if_pos h, getD_set_ne _ _ _ _ _ hne]
    exact getD_append_left l _ j d' hj
  · rw [if_neg h]
    exact getD_set_ne _ _ _ _ _ hne

theorem pushWatch_length (L : List (List Nat)) (w x : Nat) :
    (pushWatch L w x).length = L.length := by
  unfold pushWatch
  exact List.length_set _ _ _

/-- Every list in `pushWatch L w x` is a list of `L`, or `L`'s `w`-th list
(or `[]`) extended by `x`. -/
theorem mem_pushWatch {L : List (List Nat)} {w x : Nat} {lst : List Nat}
    (h : lst ∈ pushWatch L w x) : lst ∈ L ∨ lst = L.getD w [] ++ [x] := by
  unfold pushWatch at h
  exact List.mem_or_eq_of_mem_set h

theorem mem_resizeTo {α : Type} {L : List (List α)} {m : Nat} {lst : List α}
    (h : lst ∈ resizeTo L m []) : lst ∈ L ∨ lst = [] := by
  unfold resizeTo at h
  by_cases hm : L.length < m
  · rw [if_pos hm] at h
    rcases List.mem_append.mp h with h1 | h1
    · exact Or.inl h1
    · exact Or.inr (List.eq_of_mem_replicate h1)
  · rw [if_neg hm] at h
    exact Or.inl h

theorem sorted_getD_facts (l : List Nat) (hs : l.Sorted (· < ·)) (h2 : 2 ≤ l.length) :
    l.getD 0 0 ∈ l ∧ l.getD 1 0 ∈ l ∧ l.getD 0 0 ≠ l.getD 1 0 := by
  match l, h2 with
  | a :: b :: t, _ =>
    have hab : a < b := (List.sorted_cons.mp hs).1 b (List.mem_cons_self b t)
    refine ⟨List.mem_cons_self _ _,
      List.mem_cons_of_mem _ (List.mem_cons_self _ _), ?_⟩
    show a ≠ b
    omega

/-- The resolution loop returns either its input clause unchanged or a
sorted, deduplicated resolvent. -/
theorem resolutionLoop_sorted (s : SAT) (lvl : Int) :
    ∀ (fuel : Nat) (cc w : List Nat) (cand : AssignedNode),
      resolutionLoop s lvl fuel cc = some (w, cand) →
      w = cc ∨ w.Sorted (· < ·)
  | 0, _, _, _ => by
    intro h
    exact absurd h (by simp [resolutionLoop])
  | fuel+1, cc, w, cand => by
    intro h
    simp only [resolutionLoop] at h
    by_cases hr : (countAndCand s cc lvl).1 = 1
    · rw [if_pos hr] at h
      injection h with h'
      exact Or.inl (congrArg Prod.fst h').symm
    · rw [if_neg hr] at h
      rcases resolutionLoop_sorted s lvl fuel _ w cand h with h1 | h1
      · rw [h1]
        exact Or.inr (uniqueAdj_sorted_lt (sortNat_sorted _))
      · exact Or.inr h1

theorem pushWatch_ids {L : List (List Nat)} {w x m : Nat}
    (hL : ∀ lst ∈ L, ∀ id ∈ lst, id < m) (hx : x < m) :
    ∀ lst ∈ pushWatch L w x, ∀ id ∈ lst, id < m := by
  intro lst hmem id hid
  rcases mem_pushWatch hmem with h | h
  · exact hL lst h id hid
  · rw [h] at hid
    rcases List.mem_append.mp hid with h2 | h2
    · rcases getD_mem_or L w [] with h3 | h3
      · exact hL _ h3 id h2
      · rw [h3] at h2
        exact absurd h2 (List.not_mem_nil id)
    · rw [List.mem_singleton.mp h2]
      exact hx

theorem resizeTo_ids {L : List (List Nat)} {k m : Nat}
    (hL : ∀ lst ∈ L, ∀ id ∈ lst, id < m) :
    ∀ lst ∈ resizeTo L k [], ∀ id ∈ lst, id < m := by
  intro lst hmem id hid
  rcases mem_resizeTo hmem with h | h
  · exact hL lst h id hid
  · rw [h] at hid
    exact absurd hid (List.not_mem_nil id)

theorem ids_mono {L : List (List Nat)} {m m' : Nat}
    (hL : ∀ lst ∈ L, ∀ id ∈ lst, id < m) (h : m ≤ m') :
    ∀ lst ∈ L, ∀ id ∈ lst, id < m' :=
  fun lst hl id hid => lt_of_lt_of_le (hL lst hl id hid) h

theorem bump_initial_frame (s : SAT) (cl : List Nat) :
    (bump_initial_scores s cl).clauses = s.clauses ∧
    (bump_initial_scores s cl).num_clauses = s.num_clauses ∧
    (bump_initial_scores s cl).literals_watching_c = s.literals_watching_c ∧
    (bump_initial_scores s cl).clauses_watched_by_l = s.clauses_watched_by_l ∧
    (bump_initial_scores s cl).num_vars = s.num_vars := by
  unfold bump_initial_scores
  refine foldl_invariant initial_score_step (fun a => a.clauses = s.clauses ∧
    a.num_clauses = s.num_clauses ∧ a.literals_watching_c = s.literals_watching_c ∧
    a.clauses_watched_by_l = s.clauses_watched_by_l ∧ a.num_vars = s.num_vars) ?_ cl s
    ⟨rfl, rfl, rfl, rfl, rfl⟩
  intro a x ha
  unfold initial_score_step
  by_cases h1 : a.decider = "VSIDS"
  · rw [if_pos h1]
    exact ha
  · rw [if_neg h1]
    by_cases h2 : a.decider = "MINISAT"
    · rw [if_pos h2]
      exact ha
    · rw [if_neg h2]
      exact ha

/-- Storing a sorted clause `K` of size ≥ 2 at slot `num` (growing the
watch-pair array as needed, watching `K`'s first two literals) preserves
well-formedness, for any new watch-list structure whose ids stay below the
new clause count. -/
theorem storeRaw_wf (clauses : List (List Nat)) (num : Nat) (lwc : List (Nat × Nat))
    (cwblNew : List (List Nat)) (K : List Nat)
    (h1 : clauses.length = num) (h2 : num ≤ lwc.length)
    (h3 : ∀ c, c < num → (clauses.getD c []).Sorted (· < ·))
    (h4 : ∀ c, c < num → 2 ≤ (clauses.getD c []).length)
    (h5 : ∀ c, c < num →
      (lwc.getD c (0, 0)).1 ∈ clauses.getD c [] ∧
      (lwc.getD c (0, 0)).2 ∈ clauses.getD c [] ∧
      (lwc.getD c (0, 0)).1 ≠ (lwc.getD c (0, 0)).2)
    (hK : K.Sorted (· < ·)) (hK2 : 2 ≤ K.length)
    (hcw : ∀ lst ∈ cwblNew, ∀ id ∈ lst, id < num + 1) :
    WatchedWFRaw (clauses ++ [K]) (num + 1)
      (resizeThenSet lwc num (K.getD 0 0, K.getD 1 0) (0, 0)) cwblNew := by
  obtain ⟨hm0, hm1, hmne⟩ := sorted_getD_facts K hK hK2
  have hgetK : (clauses ++ [K]).getD num [] = K := by
    rw [← h1, getD_concat_length]
  have hgetold : ∀ c', c' < num → (clauses ++ [K]).getD c' [] = clauses.getD c' [] := by
    intro c' hc'
    exact getD_append_left _ _ _ _ (by omega)
  refine ⟨?_, ?_, ?_, ?_, ?_, hcw⟩
  · rw [List.length_append, h1, List.length_cons, List.length_nil]
  · exact (resizeThenSet_length_ge _ _ _ _).1
  · intro c' hc'
    rcases Nat.lt_or_ge c' num with hlt | hge
    · rw [hgetold c' hlt]
      exact h3 c' hlt
    · have hceq : c' = num := by omega
      rw [hceq, hgetK]
      exact hK
  · intro c' hc'
    rcases Nat.lt_or_ge c' num with hlt | hge
    · rw [hgetold c' hlt]
      exact h4 c' hlt
    · have hceq : c' = num := by omega
      rw [hceq, hgetK]
      exact hK2
  · intro c' hc'
    rcases Nat.lt_or_ge c' num with hlt | hge
    · rw [resizeThenSet_getD_ne _ _ _ _ _ _ (by omega) (by omega), hgetold c' hlt]
      exact h5 c' hlt
    · have hceq : c' = num := by omega
      rw [hceq, resizeThenSet_getD_self, hgetK]
      exact ⟨hm0, hm1, hmne⟩

/-- `add_clause` preserves the well-formedness of the clause database and
the watch structures. -/
theorem add_clause_wf (s : SAT) (c : List Nat) (hwf : WatchedWF s) :
    WatchedWF (s.add_clause c).1 := by
  obtain ⟨h1, h2, h3, h4, h5, h6⟩ := hwf
  simp only [SAT.add_clause]
  by_cases ht : tautology_check s.num_vars (uniqueAdj (sortNat c)) = true
  · rw [if_pos ht]
    exact ⟨h1, h2, h3, h4, h5, h6⟩
  · rw [if_neg ht]
    by_cases he : (uniqueAdj (sortNat c)).isEmpty = true
    · rw [if_pos he]
      exact ⟨h1, h2, h3, h4, h5, h6⟩
    · rw [if_neg he]
      by_cases hl1 : (uniqueAdj (sortNat c)).length = 1
      · rw [if_pos hl1]
        by_cases ha : (!(s.is_var_assigned.getD (get_var_from_literal s.num_vars
            ((uniqueAdj (sortNat c)).getD 0 0)) false)) = true
        · rw [if_pos ha]
          exact ⟨h1, h2, h3, h4, h5, h6⟩
        · rw [if_neg ha]
          by_cases hv2 : ((s.variable_to_assignment_nodes.getD (get_var_from_literal s.num_vars
              ((uniqueAdj (sortNat c)).getD 0 0)) default).value !=
              (!is_negative_literal s.num_vars ((uniqueAdj (sortNat c)).getD 0 0))) = true
          · rw [if_pos hv2]
            exact ⟨h1, h2, h3, h4, h5, h6⟩
          · rw [if_neg hv2]
            exact ⟨h1, h2, h3, h4, h5, h6⟩
      · rw [if_neg hl1]
        have hsorted : (uniqueAdj (sortNat c)).Sorted (· < ·) :=
          uniqueAdj_sorted_lt (sortNat_sorted c)
        obtain ⟨hb1, hb2, hb3, hb4, hb5⟩ := bump_initial_frame s (uniqueAdj (sortNat c))
        have hlen0 : uniqueAdj (sortNat c) ≠ [] := by
          intro hnil
          rw [hnil] at he
          exact he rfl
        have hlen2 : 2 ≤ (uniqueAdj (sortNat c)).length := by
          rcases hKd : uniqueAdj (sortNat c) with _ | ⟨a, t⟩
          · exact absurd hKd hlen0
          · rcases t with _ | ⟨b, t2⟩
            · rw [hKd] at hl1
              exact absurd rfl hl1
            · show 2 ≤ t2.length + 1 + 1
              omega
        obtain ⟨K, hK⟩ : ∃ k, uniqueAdj (sortNat c) = k := ⟨_, rfl⟩
        rw [hK] at hsorted hlen2 ⊢
        obtain ⟨B, hB⟩ : ∃ t : SAT, bump_initial_scores s K = t := ⟨_, rfl⟩
        rw [hK, hB] at hb1 hb2 hb3 hb4 hb5
        rw [hB]
        have hwfB : WatchedWFRaw B.clauses B.num_clauses B.literals_watching_c
            B.clauses_watched_by_l := by
          rw [hb1, hb2, hb3, hb4]
          exact ⟨h1, h2, h3, h4, h5, h6⟩
        show WatchedWFRaw (B.clauses ++ [K]) (B.num_clauses + 1)
          (resizeThenSet B.literals_watching_c B.num_clauses (K.getD 0 0, K.getD 1 0) (0, 0))
          (pushWatch (pushWatch (resizeTo B.clauses_watched_by_l (2 * B.num_vars + 2) [])
            (K.getD 0 0) B.num_clauses) (K.getD 1 0) B.num_clauses)
        refine storeRaw_wf _ _ _ _ _ hwfB.1 hwfB.2.1 hwfB.2.2.1 hwfB.2.2.2.1
          hwfB.2.2.2.2.1 hsorted hlen2 ?_
        exact pushWatch_ids (pushWatch_ids (resizeTo_ids (ids_mono hwfB.2.2.2.2.2 (by omega)))
          (by omega)) (by omega)

theorem bump_scores_frame (st : SAT) (cl : List Nat) :
    (bump_scores st cl).clauses = st.clauses ∧
    (bump_scores st cl).num_clauses = st.num_clauses ∧
    (bump_scores st cl).literals_watching_c = st.literals_watching_c ∧
    (bump_scores st cl).clauses_watched_by_l = st.clauses_watched_by_l := by
  have hP : ∀ (f : SAT → Nat → SAT),
      (∀ (a : SAT) (x : Nat), (f a x).clauses = a.clauses ∧ (f a x).num_clauses = a.num_clauses ∧
        (f a x).literals_watching_c = a.literals_watching_c ∧
        (f a x).clauses_watched_by_l = a.clauses_watched_by_l) →
      (List.foldl f st cl).clauses = st.clauses ∧
      (List.foldl f st cl).num_clauses = st.num_clauses ∧
      (List.foldl f st cl).literals_watching_c = st.literals_watching_c ∧
      (List.foldl f st cl).clauses_watched_by_l = st.clauses_watched_by_l := by
    intro f hf
    refine foldl_invariant f (fun a => a.clauses = st.clauses ∧ a.num_clauses = st.num_clauses ∧
      a.literals_watching_c = st.literals_watching_c ∧
      a.clauses_watched_by_l = st.clauses_watched_by_l) ?_ cl st ⟨rfl, rfl, rfl, rfl⟩
    intro a x ha
    obtain ⟨q1, q2, q3, q4⟩ := hf a x
    exact ⟨q1.trans ha.1, q2.trans ha.2.1, q3.trans ha.2.2.1, q4.trans ha.2.2.2⟩
  unfold bump_scores
  by_cases hd1 : st.decider = "VSIDS"
  · rw [if_pos hd1]
    exact hP vsids_bump_step (fun a x => ⟨rfl, rfl, rfl, rfl⟩)
  · rw [if_neg hd1]
    by_cases hd2 : st.decider = "MINISAT"
    · rw [if_pos hd2]
      exact hP minisat_bump_step (fun a x => ⟨rfl, rfl, rfl, rfl⟩)
    · rw [if_neg hd2]
      exact ⟨rfl, rfl, rfl, rfl⟩

/-- The watch structures after storing a learned clause. -/
theorem store_learned_watches (s0 : SAT) (w : List Nat) :
    (store_learned s0 w).literals_watching_c =
      resizeThenSet s0.literals_watching_c s0.num_clauses (w.getD 0 0, w.getD 1 0) (0, 0) ∧
    (store_learned s0 w).clauses_watched_by_l =
      pushWatch (pushWatch s0.clauses_watched_by_l (w.getD 0 0) s0.num_clauses)
        (w.getD 1 0) s0.num_clauses := by
  obtain ⟨_, _, q3, q4⟩ := bump_scores_frame ({ { { { s0 with
    num_learned_clauses := s0.num_learned_clauses + 1,
    num_clauses := s0.num_clauses + 1,
    clauses := s0.clauses ++ [w] } with
    literals_watching_c := resizeThenSet s0.literals_watching_c s0.num_clauses
      (w.getD 0 0, w.getD 1 0) (0, 0) } with
    clauses_watched_by_l := pushWatch s0.clauses_watched_by_l (w.getD 0 0) s0.num_clauses } with
    clauses_watched_by_l := pushWatch (pushWatch s0.clauses_watched_by_l (w.getD 0 0)
      s0.num_clauses) (w.getD 1 0) s0.num_clauses } : SAT) w
  exact ⟨q3, q4⟩

/-- `analyze_conflict` preserves well-formedness, and any stored learned
clause is watched on its first two literals. -/
theorem analyze_conflict_wf (s : SAT) (fuel : Nat) (r : Int × AssignedNode × SAT)
    (hwf : WatchedWF s) (heq : s.analyze_conflict fuel = some r) :
    WatchedWF r.2.2 ∧
    (r.2.2.num_clauses = s.num_clauses ∨
      (r.2.2.num_clauses = s.num_clauses + 1 ∧
        (r.2.2.clauses.getD s.num_clauses []).Sorted (· < ·) ∧
        r.2.2.literals_watching_c.getD s.num_clauses (0, 0) =
          ((r.2.2.clauses.getD s.num_clauses []).getD 0 0,
           (r.2.2.clauses.getD s.num_clauses []).getD 1 0))) := by
  obtain ⟨h1, h2, h3, h4, h5, h6⟩ := hwf
  rcases hlast : s.assignment_stack.getLast? with _ | cn
  · have hnone : s.analyze_conflict fuel = none := by
      unfold SAT.analyze_conflict
      rw [hlast]
    rw [hnone] at heq
    exact Option.noConfusion heq
  · by_cases hlvl : cn.level = 0
    · have heval : s.analyze_conflict fuel = some (-1, default,
          { s with assignment_stack := s.assignment_stack.dropLast }) := by
        unfold SAT.analyze_conflict
        rw [hlast]
        show (if cn.level = 0 then _ else _) = _
        rw [if_pos hlvl]
      rw [heval] at heq
      injection heq with heq'
      rw [← heq']
      exact ⟨⟨h1, h2, h3, h4, h5, h6⟩, Or.inl rfl⟩
    · rcases hres : resolutionLoop { s with assignment_stack := s.assignment_stack.dropLast }
          cn.level fuel (({ s with assignment_stack := s.assignment_stack.dropLast } : SAT).clauses.getD cn.clause.toNat []) with _ | ⟨w, cand⟩
      · have hnone : s.analyze_conflict fuel = none := by
          unfold SAT.analyze_conflict
          rw [hlast]
          show (if cn.level = 0 then _ else _) = _
          rw [if_neg hlvl, hres]
        rw [hnone] at heq
        exact Option.noConfusion heq
      · by_cases hw : 1 < w.length
        · have heval : s.analyze_conflict fuel = some
              ((analyze_finish (store_learned { s with assignment_stack := s.assignment_stack.dropLast } w) cn.level w ({ s with assignment_stack := s.assignment_stack.dropLast } : SAT).num_clauses).1,
              (analyze_finish (store_learned { s with assignment_stack := s.assignment_stack.dropLast } w) cn.level w ({ s with assignment_stack := s.assignment_stack.dropLast } : SAT).num_clauses).2,
              store_learned { s with assignment_stack := s.assignment_stack.dropLast } w) := by
            unfold SAT.analyze_conflict
            rw [hlast]
            show (if cn.level = 0 then _ else _) = _
            rw [if_neg hlvl, hres]
            show (if 1 < w.length then _ else _) = _
            rw [if_pos hw]
          rw [heval] at heq
          injection heq with heq'
          rw [← heq']
          have hK2 : 2 ≤ w.length := by omega
          have hKsorted : w.Sorted (· < ·) := by
            rcases resolutionLoop_sorted _ cn.level fuel _ w cand hres with hcc | hs
            · by_cases hid : cn.clause.toNat < s.num_clauses
              · rw [hcc]
                exact h3 _ hid
              · have hoob : (({ s with assignment_stack := s.assignment_stack.dropLast } : SAT).clauses).length ≤ cn.clause.toNat := by
                  show s.clauses.length ≤ cn.clause.toNat
                  rw [h1]
                  omega
                rw [getD_oob _ _ _ hoob] at hcc
                rw [hcc] at hw
                exact absurd hw (by simp)
            · exact hs
          obtain ⟨hf1, hf2, hf3, hf4⟩ :=
            store_learned_fields { s with assignment_stack := s.assignment_stack.dropLast } w
          obtain ⟨hw1, hw2⟩ :=
            store_learned_watches { s with assignment_stack := s.assignment_stack.dropLast } w
          have hgetK : (store_learned { s with assignment_stack := s.assignment_stack.dropLast } w).clauses.getD s.num_clauses [] = w := by
            rw [hf3]
            show (s.clauses ++ [w]).getD s.num_clauses [] = w
            rw [← h1, getD_concat_length]
          constructor
          · show WatchedWFRaw _ _ _ _
            rw [hf3, hf4, hw1, hw2]
            refine storeRaw_wf _ _ _ _ _ h1 h2 h3 h4 h5 hKsorted hK2 ?_
            have hn1 : ∀ lst ∈ s.clauses_watched_by_l, ∀ id ∈ lst, id < s.num_clauses + 1 :=
              ids_mono h6 (Nat.le_succ _)
            have hn2 : ∀ lst ∈ pushWatch s.clauses_watched_by_l (w.getD 0 0) s.num_clauses,
                ∀ id ∈ lst, id < s.num_clauses + 1 := pushWatch_ids hn1 (Nat.lt_succ_self _)
            exact pushWatch_ids hn2 (Nat.lt_succ_self _)
          · refine Or.inr ⟨hf4, ?_, ?_⟩
            · rw [hgetK]
              exact hKsorted
            · rw [hgetK, hw1]
              show (resizeThenSet s.literals_watching_c s.num_clauses
                (w.getD 0 0, w.getD 1 0) (0, 0)).getD s.num_clauses (0, 0) = _
              rw [resizeThenSet_getD_self]
        · have heval : s.analyze_conflict fuel = some (0,
              ⟨Int.ofNat (get_var_from_literal ({ s with assignment_stack := s.assignment_stack.dropLast } : SAT).num_vars (w.getD 0 0)),
                !is_negative_literal ({ s with assignment_stack := s.assignment_stack.dropLast } : SAT).num_vars (w.getD 0 0), 0, -1, -1⟩,
              { s with assignment_stack := s.assignment_stack.dropLast }) := by
            unfold SAT.analyze_conflict
            rw [hlast]
            show (if cn.level = 0 then _ else _) = _
            rw [if_neg hlvl, hres]
            show (if 1 < w.length then _ else _) = _
            rw [if_neg hw]
          rw [heval] at heq
          injection heq with heq'
          rw [← heq']
          exact ⟨⟨h1, h2, h3, h4, h5, h6⟩, Or.inl rfl⟩

theorem handle_conflict_frame (t : SAT) :
    (handle_conflict_restart t).1.clauses = t.clauses ∧
    (handle_conflict_restart t).1.num_clauses = t.num_clauses ∧
    (handle_conflict_restart t).1.literals_watching_c = t.literals_watching_c ∧
    (handle_conflict_restart t).1.clauses_watched_by_l = t.clauses_watched_by_l := by
  unfold handle_conflict_restart
  by_cases hn : t.restarter = "None"
  · rw [if_pos hn]
    exact ⟨rfl, rfl, rfl, rfl⟩
  · rw [if_neg hn]
    by_cases hc : t.conflict_limit ≤ t.conflicts_before_restart + 1
    · rw [if_pos hc]
      by_cases hg : ({ t with restarts := t.restarts + 1, conflicts_before_restart := 0 } : SAT).restarter = "GEOMETRIC"
      · rw [if_pos hg]
        exact ⟨rfl, rfl, rfl, rfl⟩
      · rw [if_neg hg]
        by_cases hl : ({ t with restarts := t.restarts + 1, conflicts_before_restart := 0 } : SAT).restarter = "LUBY"
        · rw [if_pos hl]
          exact ⟨rfl, rfl, rfl, rfl⟩
        · rw [if_neg hl]
          exact ⟨rfl, rfl, rfl, rfl⟩
    · rw [if_neg hc]
      exact ⟨rfl, rfl, rfl, rfl⟩

/-- The watcher-replacement case of one BCP step: setting a new watch pair
and moving the clause id to the new watcher's list preserves the invariant. -/
theorem bcpStep_watchstep_wf (s : SAT) (lf i nw : Nat)
    (h1 : s.clauses.length = s.num_clauses)
    (h2 : s.num_clauses ≤ s.literals_watching_c.length)
    (h3 : ∀ c, c < s.num_clauses → (s.clauses.getD c []).Sorted (· < ·))
    (h4 : ∀ c, c < s.num_clauses → 2 ≤ (s.clauses.getD c []).length)
    (h5 : ∀ c, c < s.num_clauses →
      (s.literals_watching_c.getD c (0, 0)).1 ∈ s.clauses.getD c [] ∧
      (s.literals_watching_c.getD c (0, 0)).2 ∈ s.clauses.getD c [] ∧
      (s.literals_watching_c.getD c (0, 0)).1 ≠ (s.literals_watching_c.getD c (0, 0)).2)
    (h6 : ∀ lst ∈ s.clauses_watched_by_l, ∀ id ∈ lst, id < s.num_clauses)
    (hlf : lf < s.clauses_watched_by_l.length)
    (hi : i < (s.clauses_watched_by_l.getD lf []).length)
    (hnwmem : nw ∈ s.clauses.getD ((s.clauses_watched_by_l.getD lf []).getD i 0) [])
    (hne1 : nw ≠ (s.literals_watching_c.getD ((s.clauses_watched_by_l.getD lf []).getD i 0) (0, 0)).1)
    (hne2 : nw ≠ (s.literals_watching_c.getD ((s.clauses_watched_by_l.getD lf []).getD i 0) (0, 0)).2)
    (W2 : Nat × Nat)
    (hW2 : W2 = (nw, (s.literals_watching_c.getD ((s.clauses_watched_by_l.getD lf []).getD i 0) (0, 0)).2) ∨
      W2 = ((s.literals_watching_c.getD ((s.clauses_watched_by_l.getD lf []).getD i 0) (0, 0)).1, nw)) :
    WatchedWFRaw s.clauses s.num_clauses
      (s.literals_watching_c.set ((s.clauses_watched_by_l.getD lf []).getD i 0) W2)
      (pushWatch (s.clauses_watched_by_l.set lf
          (((s.clauses_watched_by_l.getD lf []).set i
            ((s.clauses_watched_by_l.getD lf []).getD ((s.clauses_watched_by_l.getD lf []).length - 1) 0)).dropLast))
        nw ((s.clauses_watched_by_l.getD lf []).getD i 0)) ∧
    i ≤ ((pushWatch (s.clauses_watched_by_l.set lf
          (((s.clauses_watched_by_l.getD lf []).set i
            ((s.clauses_watched_by_l.getD lf []).getD ((s.clauses_watched_by_l.getD lf []).length - 1) 0)).dropLast))
        nw ((s.clauses_watched_by_l.getD lf []).getD i 0)).getD lf []).length := by
  have hwcs_mem : s.clauses_watched_by_l.getD lf [] ∈ s.clauses_watched_by_l :=
    getD_mem_of_lt _ _ _ hlf
  have hcid : (s.clauses_watched_by_l.getD lf []).getD i 0 < s.num_clauses :=
    h6 _ hwcs_mem _ (getD_mem_of_lt _ _ _ hi)
  have hcidlwc : (s.clauses_watched_by_l.getD lf []).getD i 0 < s.literals_watching_c.length :=
    lt_of_lt_of_le hcid h2
  have hWmem := h5 _ hcid
  obtain ⟨cid, hcid_eq⟩ : ∃ t, (s.clauses_watched_by_l.getD lf []).getD i 0 = t := ⟨_, rfl⟩
  rw [hcid_eq] at hcid hcidlwc hWmem hnwmem hne1 hne2 hW2 ⊢
  obtain ⟨wcs1, hwcs1_eq⟩ : ∃ t,
      ((s.clauses_watched_by_l.getD lf []).set i
        ((s.clauses_watched_by_l.getD lf []).getD ((s.clauses_watched_by_l.getD lf []).length - 1) 0)).dropLast = t :=
    ⟨_, rfl⟩
  rw [hwcs1_eq]
  have hwcs1_len : wcs1.length = (s.clauses_watched_by_l.getD lf []).length - 1 := by
    rw [← hwcs1_eq, List.length_dropLast, List.length_set]
  have hwcs1_ids : ∀ id ∈ wcs1, id < s.num_clauses := by
    intro id hid
    rw [← hwcs1_eq] at hid
    have hid2 := List.dropLast_subset _ hid
    rcases List.mem_or_eq_of_mem_set hid2 with hm | hm
    · exact h6 _ hwcs_mem _ hm
    · rw [hm]
      exact h6 _ hwcs_mem _ (getD_mem_of_lt _ _ _ (by omega))
  constructor
  · refine ⟨h1, ?_, h3, h4, ?_, ?_⟩
    · rw [List.length_set]
      exact h2
    · intro c hc
      by_cases hcc : c = cid
      · rw [hcc, getD_set_self _ _ _ _ hcidlwc]
        rcases hW2 with hw2 | hw2
        · rw [hw2]
          exact ⟨hnwmem, hWmem.2.1, hne2⟩
        · rw [hw2]
          exact ⟨hWmem.1, hnwmem, fun he => hne1 he.symm⟩
      · rw [getD_set_ne _ _ _ _ _ (fun he => hcc he.symm)]
        exact h5 c hc
    · intro lst hl id hid
      rcases mem_pushWatch hl with hml | hml
      · rcases List.mem_or_eq_of_mem_set hml with hm2 | hm2
        · exact h6 lst hm2 id hid
        · rw [hm2] at hid
          exact hwcs1_ids id hid
      · rw [hml] at hid
        rcases List.mem_append.mp hid with hm2 | hm2
        · rcases getD_mem_or (s.clauses_watched_by_l.set lf wcs1) nw [] with hg | hg
          · rcases List.mem_or_eq_of_mem_set hg with hm4 | hm4
            · exact h6 _ hm4 id hm2
            · rw [hm4] at hm2
              exact hwcs1_ids id hm2
          · rw [hg] at hm2
            exact absurd hm2 (List.not_mem_nil id)
        · rw [List.mem_singleton] at hm2
          rw [hm2]
          exact hcid
  · have hset_getD : (s.clauses_watched_by_l.set lf wcs1).getD lf [] = wcs1 :=
      getD_set_self _ _ _ _ hlf
    unfold pushWatch
    by_cases hnl : nw = lf
    · rw [hnl, getD_set_self _ _ _ _ (by rw [List.length_set]; exact hlf), hset_getD,
        List.length_append, List.length_singleton]
      omega
    · rw [getD_set_ne _ _ _ _ _ hnl, hset_getD]
      omega

/-- One BCP step preserves the watch invariant, and the processed watch
list stays long enough for the remaining indices. -/
theorem bcpStep_wf (s : SAT) (lf i : Nat) (hwf : WatchedWF s)
    (hi : i < (s.clauses_watched_by_l.getD lf []).length) :
    WatchedWF (bcpStep s lf i).1 ∧
    i ≤ ((bcpStep s lf i).1.clauses_watched_by_l.getD lf []).length := by
  obtain ⟨h1, h2, h3, h4, h5, h6⟩ := hwf
  have hlf : lf < s.clauses_watched_by_l.length := by
    by_contra hcon
    rw [getD_oob _ _ _ (Nat.le_of_not_lt hcon)] at hi
    exact absurd hi (by simp)
  obtain ⟨hh1, hh2, hh3, hh4⟩ := handle_conflict_frame s
  unfold bcpStep
  simp only []
  repeat' split
  all_goals first
    | exact ⟨⟨h1, h2, h3, h4, h5, h6⟩, Nat.le_of_lt hi⟩
    | exact ⟨show WatchedWFRaw (handle_conflict_restart s).1.clauses
          (handle_conflict_restart s).1.num_clauses
          (handle_conflict_restart s).1.literals_watching_c
          (handle_conflict_restart s).1.clauses_watched_by_l
          by rw [hh1, hh2, hh3, hh4]; exact ⟨h1, h2, h3, h4, h5, h6⟩,
        show i ≤ ((handle_conflict_restart s).1.clauses_watched_by_l.getD lf []).length
          by rw [hh4]; exact Nat.le_of_lt hi⟩
    | (rename_i nw heq
       have hnwmem : nw ∈ s.clauses.getD ((s.clauses_watched_by_l.getD lf []).getD i 0) [] := by
         unfold find_new_watcher at heq
         exact List.mem_of_find?_eq_some heq
       have hpred : nw ≠ (s.literals_watching_c.getD ((s.clauses_watched_by_l.getD lf []).getD i 0) (0, 0)).1 ∧
           nw ≠ (s.literals_watching_c.getD ((s.clauses_watched_by_l.getD lf []).getD i 0) (0, 0)).2 := by
         unfold find_new_watcher at heq
         have hp := List.find?_some heq
         simp only [Bool.and_eq_true, bne_iff_ne] at hp
         exact hp.1
       first
         | exact bcpStep_watchstep_wf s lf i nw h1 h2 h3 h4 h5 h6 hlf hi hnwmem hpred.1 hpred.2 _ (Or.inl rfl)
         | exact bcpStep_watchstep_wf s lf i nw h1 h2 h3 h4 h5 h6 hlf hi hnwmem hpred.1 hpred.2 _ (Or.inr rfl))

theorem bcpInner_wf (lf : Nat) : ∀ (i : Nat) (s : SAT), WatchedWF s →
    i ≤ (s.clauses_watched_by_l.getD lf []).length →
    WatchedWF (bcpInner lf i s).1
  | 0, _, hwf, _ => hwf
  | i+1, s, hwf, hle => by
    obtain ⟨hwf1, hlen1⟩ := bcpStep_wf s lf i hwf (by omega)
    simp only [bcpInner]
    split
    · exact hwf1
    · exact bcpInner_wf lf i _ hwf1 hlen1

theorem bcpOuter_wf : ∀ (fuel : Nat) (s : SAT) (ptr : Nat), WatchedWF s →
    WatchedWF (bcpOuter fuel s ptr).1
  | 0, _, _, hwf => hwf
  | fuel+1, s, ptr, hwf => by
    simp only [bcpOuter]
    repeat' split
    all_goals first
      | exact hwf
      | exact bcpInner_wf _ _ _ hwf (le_refl _)
      | exact bcpOuter_wf fuel _ (ptr + 1) (bcpInner_wf _ _ _ hwf (le_refl _))

/-- `boolean_constraint_propogation` preserves the watch invariant. -/
theorem boolean_constraint_propogation_wf (s : SAT) (fuel : Nat) (ft : Bool)
    (hwf : WatchedWF s) : WatchedWF (s.boolean_constraint_propogation fuel ft).1 :=
  bcpOuter_wf fuel s _ hwf

/-- C1 (amended): every clause id in the database has a watch pair of two
distinct literals of that clause — `add_clause` establishes this structural
invariant, BCP's watcher replacement preserves it, and `analyze_conflict`
preserves it while watching any stored learned clause on the first two
literals of the sorted learned clause.  (The original claim's further
assertions — that neither watch is falsified after BCP returns NO_CONFLICT
and that one learned-clause watch is the asserting literal — are refuted by
`claim_C1_counterexample`.) -/
theorem claim_C1_watch_invariant :
    (∀ (s : SAT) (c : List Nat), WatchedWF s → WatchedWF (s.add_clause c).1) ∧
    (∀ (s : SAT) (fuel : Nat) (ft : Bool), WatchedWF s →
      WatchedWF (s.boolean_constraint_propogation fuel ft).1) ∧
    (∀ (s : SAT) (fuel : Nat) (r : Int × AssignedNode × SAT), WatchedWF s →
      s.analyze_conflict fuel = some r →
      WatchedWF r.2.2 ∧
      (r.2.2.num_clauses = s.num_clauses ∨
        (r.2.2.num_clauses = s.num_clauses + 1 ∧
          (r.2.2.clauses.getD s.num_clauses []).Sorted (· < ·) ∧
          r.2.2.literals_watching_c.getD s.num_clauses (0, 0) =
            ((r.2.2.clauses.getD s.num_clauses []).getD 0 0,
             (r.2.2.clauses.getD s.num_clauses []).getD 1 0)))) :=
  ⟨fun s c hwf => add_clause_wf s c hwf,
   fun s fuel ft hwf => boolean_constraint_propogation_wf s fuel ft hwf,
   fun s fuel r hwf heq => analyze_conflict_wf s fuel r hwf heq⟩

/-- Counterexample to C1 as stated: in the concrete run, the learned clause
3 = `[2, 5, 7]` is watched on `(2, 5)`; its asserting literal is `7` (the
pending node assigns `x3 := false` and `num_vars = 4`, so the satisfied
literal is `3 + 4 = 7`), which is not watched; and after the post-backjump
BCP returns NO_CONFLICT both watches `2` and `5` are falsified by the
current assignment. -/
theorem claim_C1_counterexample :
    exFinalBCP.2 = some "NO_CONFLICT" ∧
    exFinalBCP.1.clauses.getD 3 [] = [2, 5, 7] ∧
    exFinalBCP.1.literals_watching_c.getD 3 (0, 0) = (2, 5) ∧
    lit_is_falsified exFinalBCP.1 2 = true ∧
    lit_is_falsified exFinalBCP.1 5 = true ∧
    exAnalysis.2.1 = ⟨3, false, 1, 3, -1⟩ ∧
    exRead.num_vars = 4 := by
  decide

/-- Witness for C1: the parsed concrete instance satisfies the watch
invariant, and the BCP-preservation part applied to it. -/
theorem claim_C1_witness :
    WatchedWF exRead ∧ WatchedWF (exRead.boolean_constraint_propogation 30 true).1 :=
  ⟨by decide, claim_C1_watch_invariant.2.1 exRead 30 true (by decide)⟩
